import Mathlib

/-!
GazeboRosVelodyneLaser: scan grid to point cloud.

Shallow embedding of `velodyne_gazebo_plugins/src/GazeboRosVelodyneLaser.cpp`.

* `double` values are the elements of a type `α` with the operations of `DoubleOps`, of
  which no law is assumed. Two kinds of instance are used: every linearly ordered field
  (exact arithmetic, a total order; the definitions run at `α := ℚ`), and `Dbl`, a model of
  IEEE 754 binary64 with round-to-nearest, NaN, the infinities and the negative zero. A
  theorem that needs exact arithmetic assumes a linearly ordered field.
* What the file calls but does not define is a field of `Numerics`: `cos`, `sin`, the
  narrowing store `*(float*)p = v` (four bytes), `INFINITY`,
  `std::numeric_limits<double>::lowest()` and `gaussianKernel`.
* `msg.data` is a list of bytes; a store outside the vector is a fault, as is a read outside
  `ranges` / `intensities` and a call through the null `pub_`.
* The `int` locals `rangeCount`, `verticalRangeCount`, `i`, `j` are natural numbers:
  `LaserScan.count` and `LaserScan.vertical_count` hold the values of `rangeCount` and
  `verticalRangeCount`, which are not negative. The `uint32_t` size arithmetic of lines 202
  and 262 is reduced modulo `2 ^ 32`, the `uint16_t` store of line 251/253 modulo `2 ^ 16`.
* The loop state carries, next to the vector and `ptr`, the list of the rays written so
  far: it records what each record was computed from and takes no part in the computation.
* The preprocessor constant `GAZEBO_MAJOR_VERSION` is an explicit parameter.
* `yAngleChecked` and `pAngleChecked` restate lines 228–238 with a zero divisor made
  visible.
-/

set_option linter.unusedSectionVars false

namespace gazebo

/-- One element of `std::vector<uint8_t>`. -/
abbrev Byte := Fin 256

/-- Ways in which a run leaves defined behaviour. -/
inductive Fault where
  | rangesIndex
  | intensitiesIndex
  | bufferOverrun
  | nullPublisher
  deriving DecidableEq, Repr

/-- The arithmetic and the comparisons of `double` that the translation unit uses: `+`,
`-`, `*`, `/`, unary `-`, `<`, `<=` (and `>=`, its converse), `!=`, and the conversions
of an `int` and of the literal `0`. No law is assumed of them, so that an operation may
round, and a comparison with a NaN may be false both ways. -/
class DoubleOps (α : Type) where
  add : α → α → α
  sub : α → α → α
  mul : α → α → α
  div : α → α → α
  neg : α → α
  lt : α → α → Prop
  le : α → α → Prop
  ne : α → α → Prop
  decLt : DecidableRel lt
  decLe : DecidableRel le
  decNe : DecidableRel ne
  ofNat : Nat → α
  ofInt : Int → α
  zero : α

instance (priority := low) instAddDouble {α : Type} [DoubleOps α] : Add α := ⟨DoubleOps.add⟩

instance (priority := low) instSubDouble {α : Type} [DoubleOps α] : Sub α := ⟨DoubleOps.sub⟩

instance (priority := low) instMulDouble {α : Type} [DoubleOps α] : Mul α := ⟨DoubleOps.mul⟩

instance (priority := low) instDivDouble {α : Type} [DoubleOps α] : Div α := ⟨DoubleOps.div⟩

instance (priority := low) instNegDouble {α : Type} [DoubleOps α] : Neg α := ⟨DoubleOps.neg⟩

instance (priority := low) instLTDouble {α : Type} [DoubleOps α] : LT α := ⟨DoubleOps.lt⟩

instance (priority := low) instLEDouble {α : Type} [DoubleOps α] : LE α := ⟨DoubleOps.le⟩

instance (priority := low) instNatCastDouble {α : Type} [DoubleOps α] : NatCast α :=
  ⟨DoubleOps.ofNat⟩

instance (priority := low) instIntCastDouble {α : Type} [DoubleOps α] : IntCast α :=
  ⟨DoubleOps.ofInt⟩

instance (priority := low) instZeroDouble {α : Type} [DoubleOps α] : Zero α :=
  ⟨DoubleOps.zero⟩

instance (priority := low) instDecLtDouble {α : Type} [DoubleOps α] (a b : α) :
    Decidable (a < b) :=
  DoubleOps.decLt a b

instance (priority := low) instDecLeDouble {α : Type} [DoubleOps α] (a b : α) :
    Decidable (a ≤ b) :=
  DoubleOps.decLe a b

instance (priority := low) instDecNeDouble {α : Type} [DoubleOps α] (a b : α) :
    Decidable (DoubleOps.ne a b) :=
  DoubleOps.decNe a b

/-- Exact arithmetic: a linearly ordered field has the operations of `double`, all of them
exact, with a total order and `!=` the negation of equality. -/
instance (priority := low) instDoubleOpsField {α : Type} [LinearOrderedField α] :
    DoubleOps α where
  add := Add.add
  sub := Sub.sub
  mul := Mul.mul
  div := Div.div
  neg := Neg.neg
  lt := LT.lt
  le := LE.le
  ne := Ne
  decLt := inferInstance
  decLe := inferInstance
  decNe := inferInstance
  ofNat := Nat.cast
  ofInt := Int.cast
  zero := 0

/-- Operations on `double` that the translation unit uses but does not define. -/
structure Numerics (α : Type) where
  /-- The function `cos` of `<cmath>`. -/
  cos : α → α
  /-- The function `sin` of `<cmath>`. -/
  sin : α → α
  /-- Byte `k` (`k < 4`, in memory order) of the value converted to `float`. -/
  f32 : α → Nat → Byte
  /-- The constant `INFINITY`. -/
  INFINITY : α
  /-- The constant `std::numeric_limits<double>::lowest()`. -/
  lowest : α
  /-- The result of the `k`-th call `gaussianKernel(mu, sigma)` of a run. -/
  gaussianKernel : Nat → α → α → α

/-- The four bytes stored by `*((float*)p) = v`. -/
def floatBytes {α : Type} (env : Numerics α) (v : α) : List Byte :=
  [env.f32 v 0, env.f32 v 1, env.f32 v 2, env.f32 v 3]

/-- Conversion of an `int` to `uint16_t`. -/
def toUInt16 (x : Int) : Nat := (x % 65536).toNat

/-- The two bytes stored by `*((uint16_t*)p) = n` on the little-endian host the message
declares (`is_bigendian = false`). -/
def u16Bytes (n : Nat) : List Byte :=
  [⟨n % 256, Nat.mod_lt _ (by decide)⟩, ⟨n / 256 % 256, Nat.mod_lt _ (by decide)⟩]

/-- Conversion of an integer to `int32_t`. -/
def toInt32 (x : Int) : Int := (x + 2147483648) % 4294967296 - 2147483648

/-- Conversion of an integer to `uint32_t`. -/
def toUInt32 (x : Int) : Nat := (x % 4294967296).toNat

/-- `std::max(a, b)`: `(a < b) ? b : a`. -/
def std_max {α : Type} [DoubleOps α] (a b : α) : α := if a < b then b else a

/-- `std::min(a, b)`: `(b < a) ? b : a`. -/
def std_min {α : Type} [DoubleOps α] (a b : α) : α := if b < a then b else a

/-- The message `gazebo::msgs::LaserScan`, the fields that `OnScan` reads. -/
structure LaserScan (α : Type) where
  angle_min : α
  angle_max : α
  range_min : α
  range_max : α
  count : Nat
  vertical_count : Nat
  vertical_angle_min : α
  vertical_angle_max : α
  ranges : List α
  intensities : List α

/-- The message `gazebo::msgs::LaserScanStamped`. -/
structure LaserScanStamped (α : Type) where
  time_sec : Int
  time_nsec : Int
  scan : LaserScan α

/-- Element types of `sensor_msgs::msg::PointField`. -/
inductive Datatype where
  | INT8 | UINT8 | INT16 | UINT16 | INT32 | UINT32 | FLOAT32 | FLOAT64
  deriving DecidableEq, Repr

/-- Size in bytes of one element of a datatype. -/
def Datatype.size : Datatype → Nat
  | .INT8 => 1 | .UINT8 => 1 | .INT16 => 2 | .UINT16 => 2
  | .INT32 => 4 | .UINT32 => 4 | .FLOAT32 => 4 | .FLOAT64 => 8

/-- The message `sensor_msgs::msg::PointField`. -/
structure PointField where
  name : String
  offset : Nat
  datatype : Datatype
  count : Nat
  deriving DecidableEq, Repr

/-- The message `std_msgs::msg::Header`. -/
structure Header where
  frame_id : String
  stamp_sec : Int
  stamp_nanosec : Nat
  deriving DecidableEq, Repr

/-- The message `sensor_msgs::msg::PointCloud2`. -/
structure PointCloud2 where
  header : Header
  height : Nat
  width : Nat
  fields : List PointField
  is_bigendian : Bool
  point_step : Nat
  row_step : Nat
  data : List Byte
  is_dense : Bool
  deriving DecidableEq, Repr

/-- What `create_publisher` returns: the topic and the queue depth. -/
structure Publisher where
  topic : String
  depth : Nat
  deriving DecidableEq, Repr

/-- The plugin's configuration element: each recognised child is present or absent. -/
structure Sdf (α : Type) where
  robotNamespace : Option String
  frameName : Option String
  min_range : Option α
  max_range : Option α
  min_intensity : Option α
  topicName : Option String
  gaussianNoise : Option α

/-- Data members of the class `GazeboRosVelodyneLaser`. -/
structure GazeboRosVelodyneLaser (α : Type) where
  robot_namespace_ : String
  frame_name_ : String
  min_range_ : α
  max_range_ : α
  min_intensity_ : α
  topic_name_ : String
  gaussian_noise_ : α
  pub_ : Option Publisher

/-- `GazeboRosVelodyneLaser::Load` (lines 60–133): the members after loading `_sdf`. -/
def Load {α : Type} [DoubleOps α] (env : Numerics α) (_sdf : Sdf α) :
    GazeboRosVelodyneLaser α :=
  let robot_namespace_ :=
    match _sdf.robotNamespace with
    | some v => v
    | none => "/"
  let frame_name_ :=
    match _sdf.frameName with
    | none => "/world"
    | some v => v
  let min_range_ :=
    match _sdf.min_range with
    | none => 0
    | some v => v
  let max_range_ :=
    match _sdf.max_range with
    | none => env.INFINITY
    | some v => v
  let min_intensity_ :=
    match _sdf.min_intensity with
    | none => env.lowest
    | some v => v
  let topic_name_ :=
    match _sdf.topicName with
    | none => "/points"
    | some v => v
  let gaussian_noise_ :=
    match _sdf.gaussianNoise with
    | none => 0
    | some v => v
  { robot_namespace_ := robot_namespace_
    frame_name_ := frame_name_
    min_range_ := min_range_
    max_range_ := max_range_
    min_intensity_ := min_intensity_
    topic_name_ := topic_name_
    gaussian_noise_ := gaussian_noise_
    pub_ := if topic_name_ ≠ "" then some { topic := topic_name_, depth := 10 } else none }

/-- The constant `POINT_STEP` of line 176. -/
def POINT_STEP : Nat := 32

/-- The field descriptors of lines 181–201. -/
def cloudFields : List PointField :=
  [ { name := "x", offset := 0, datatype := .FLOAT32, count := 1 },
    { name := "y", offset := 4, datatype := .FLOAT32, count := 1 },
    { name := "z", offset := 8, datatype := .FLOAT32, count := 1 },
    { name := "intensity", offset := 16, datatype := .FLOAT32, count := 1 },
    { name := "ring", offset := 20, datatype := .UINT16, count := 1 } ]

/-- A store of `bytes` at `data.data() + pos`; outside the vector it is a fault. -/
def store (data : List Byte) (pos : Nat) (bytes : List Byte) : Except Fault (List Byte) :=
  if pos + bytes.length ≤ data.length then
    .ok (data.take pos ++ bytes ++ data.drop (pos + bytes.length))
  else
    .error .bufferOverrun

/-- The call `data.resize(n)` of `std::vector<uint8_t>`: truncate, or pad with zero bytes. -/
def resize (data : List Byte) (n : Nat) : List Byte :=
  data.take n ++ List.replicate (n - data.length) 0

/-- The values a ray carries when it reaches the projection of line 241 (kept as a record
of what each written point was computed from). -/
structure Ray (α : Type) where
  i : Nat
  j : Nat
  r : α
  intensity : α
  yAngle : α
  pAngle : α

/-- State of the double loop of `OnScan`: the vector `msg.data`, the offset of `ptr` from
`msg.data.data()`, the number of `gaussianKernel` calls made, and the rays written so far. -/
structure Cursor (α : Type) where
  data : List Byte
  ptr : Nat
  draws : Nat
  log : List (Ray α)

section OnScan

variable {α : Type} [DoubleOps α]

/-- The effective lower range bound `MIN_RANGE` of line 171. -/
def MIN_RANGE (self : GazeboRosVelodyneLaser α) (scan : LaserScan α) : α :=
  std_max self.min_range_ scan.range_min

/-- The effective upper range bound `MAX_RANGE` of line 172. -/
def MAX_RANGE (self : GazeboRosVelodyneLaser α) (scan : LaserScan α) : α :=
  std_min self.max_range_ scan.range_max

/-- The intensity bound `MIN_INTENSITY` of line 173. -/
def MIN_INTENSITY (self : GazeboRosVelodyneLaser α) : α := self.min_intensity_

/-- Lines 228–232: the azimuth angle of column `i`. -/
def yAngleOf (scan : LaserScan α) (i : Nat) : α :=
  let rangeCount := scan.count
  let yDiff := scan.angle_max - scan.angle_min
  if rangeCount > 1 then
    (i : α) * yDiff / (((rangeCount : Int) - 1 : Int) : α) + scan.angle_min
  else
    scan.angle_min

/-- Lines 234–238: the elevation angle of row `j`. -/
def pAngleOf (scan : LaserScan α) (j : Nat) : α :=
  let verticalRayCount := scan.vertical_count
  let verticalRangeCount := scan.vertical_count
  let pDiff := scan.vertical_angle_max - scan.vertical_angle_min
  if verticalRayCount > 1 then
    (j : α) * pDiff / (((verticalRangeCount : Int) - 1 : Int) : α) + scan.vertical_angle_min
  else
    scan.vertical_angle_min

/-- Lines 209–238 for cell `(i, j)`: read the cell, apply the first gate, add the noise,
compute the angles. The result is `none` where the source executes `continue`; the second
component is the number of `gaussianKernel` calls made so far. -/
def castRay (env : Numerics α) (self : GazeboRosVelodyneLaser α) (scan : LaserScan α)
    (draws i j : Nat) : Except Fault (Option (Ray α) × Nat) :=
  let rangeCount := scan.count
  match scan.ranges[i + j * rangeCount]? with
  | none => .error .rangesIndex
  | some r =>
    match scan.intensities[i + j * rangeCount]? with
    | none => .error .intensitiesIndex
    | some intensity =>
      if MIN_RANGE self scan ≥ r ∨ r ≥ MAX_RANGE self scan ∨ intensity < MIN_INTENSITY self then
        .ok (none, draws)
      else
        let noisy : Bool := decide (DoubleOps.ne self.gaussian_noise_ 0)
        let r := if noisy then r + env.gaussianKernel draws 0 self.gaussian_noise_ else r
        let draws := if noisy then draws + 1 else draws
        .ok (some { i := i, j := j, r := r, intensity := intensity,
                    yAngle := yAngleOf scan i, pAngle := pAngleOf scan j }, draws)

/-- Lines 245/247: the value stored at offset 8. -/
def zOf (env : Numerics α) (GAZEBO_MAJOR_VERSION : Nat) (p : Ray α) : α :=
  if GAZEBO_MAJOR_VERSION > 2 then p.r * env.sin p.pAngle else -p.r * env.sin p.pAngle

/-- Lines 251/253: the value stored at offset 20, as a `uint16_t`. -/
def ringOf (GAZEBO_MAJOR_VERSION : Nat) (verticalRangeCount : Nat) (j : Nat) : Nat :=
  if GAZEBO_MAJOR_VERSION > 2 then toUInt16 (j : Int)
  else toUInt16 ((verticalRangeCount : Int) - 1 - (j : Int))

/-- Lines 241–256 for a ray that passed the first gate: the second gate, the five stores
at `ptr + 0, 4, 8, 16, 20`, and `ptr += POINT_STEP`. -/
def writePoint (env : Numerics α) (GAZEBO_MAJOR_VERSION : Nat)
    (self : GazeboRosVelodyneLaser α) (scan : LaserScan α) (p : Ray α) (draws : Nat)
    (st : Cursor α) : Except Fault (Cursor α) :=
  let verticalRangeCount := scan.vertical_count
  if MIN_RANGE self scan < p.r ∧ p.r < MAX_RANGE self scan then
    match store st.data (st.ptr + 0)
        (floatBytes env (p.r * env.cos p.pAngle * env.cos p.yAngle)) with
    | .error e => .error e
    | .ok d0 =>
      match store d0 (st.ptr + 4)
          (floatBytes env (p.r * env.cos p.pAngle * env.sin p.yAngle)) with
      | .error e => .error e
      | .ok d1 =>
        match store d1 (st.ptr + 8) (floatBytes env (zOf env GAZEBO_MAJOR_VERSION p)) with
        | .error e => .error e
        | .ok d2 =>
          match store d2 (st.ptr + 16) (floatBytes env p.intensity) with
          | .error e => .error e
          | .ok d3 =>
            match store d3 (st.ptr + 20)
                (u16Bytes (ringOf GAZEBO_MAJOR_VERSION verticalRangeCount p.j)) with
            | .error e => .error e
            | .ok d4 =>
              .ok { data := d4, ptr := st.ptr + POINT_STEP, draws := draws,
                    log := st.log ++ [p] }
  else
    .ok { st with draws := draws }

/-- The body of the inner loop (lines 209–256) at cell `(i, j)`. -/
def cell (env : Numerics α) (GAZEBO_MAJOR_VERSION : Nat)
    (self : GazeboRosVelodyneLaser α) (scan : LaserScan α) (i j : Nat)
    (st : Cursor α) : Except Fault (Cursor α) :=
  match castRay env self scan st.draws i j with
  | .error e => .error e
  | .ok (none, _) => .ok st
  | .ok (some p, draws) => writePoint env GAZEBO_MAJOR_VERSION self scan p draws st

/-- Lines 202–258: the allocation of `msg.data` and the double loop, `i` outer and `j`
inner. -/
def scanLoop (env : Numerics α) (GAZEBO_MAJOR_VERSION : Nat)
    (self : GazeboRosVelodyneLaser α) (scan : LaserScan α) : Except Fault (Cursor α) :=
  let rangeCount := scan.count
  let verticalRangeCount := scan.vertical_count
  let init : Cursor α :=
    { data := resize [] ((verticalRangeCount * rangeCount * POINT_STEP) % 4294967296)
      ptr := 0, draws := 0, log := [] }
  (List.range rangeCount).foldlM
    (fun st i =>
      (List.range verticalRangeCount).foldlM
        (fun st j => cell env GAZEBO_MAJOR_VERSION self scan i j st) st)
    init

/-- `GazeboRosVelodyneLaser::OnScan` (lines 135–271): the publisher used and the message
published, or the fault the run ends in. -/
def OnScan (env : Numerics α) (GAZEBO_MAJOR_VERSION : Nat)
    (self : GazeboRosVelodyneLaser α) (_msg : LaserScanStamped α) :
    Except Fault (Publisher × PointCloud2) :=
  match scanLoop env GAZEBO_MAJOR_VERSION self _msg.scan with
  | .error e => .error e
  | .ok st =>
    let row_step := st.ptr % 4294967296
    let msg : PointCloud2 :=
      { header := { frame_id := self.frame_name_
                    stamp_sec := toInt32 _msg.time_sec
                    stamp_nanosec := toUInt32 _msg.time_nsec }
        fields := cloudFields
        point_step := POINT_STEP
        row_step := row_step
        height := 1
        width := row_step / POINT_STEP
        is_bigendian := false
        is_dense := true
        data := resize st.data row_step }
    match self.pub_ with
    | none => .error .nullPublisher
    | some p => .ok (p, msg)

/-- The 32 bytes of the record of one written ray: the five fields at offsets 0, 4, 8, 16
and 20, zero elsewhere. -/
def recordBytes (env : Numerics α) (GAZEBO_MAJOR_VERSION : Nat) (verticalRangeCount : Nat)
    (p : Ray α) : List Byte :=
  floatBytes env (p.r * env.cos p.pAngle * env.cos p.yAngle) ++
  floatBytes env (p.r * env.cos p.pAngle * env.sin p.yAngle) ++
  floatBytes env (zOf env GAZEBO_MAJOR_VERSION p) ++
  [0, 0, 0, 0] ++
  floatBytes env p.intensity ++
  u16Bytes (ringOf GAZEBO_MAJOR_VERSION verticalRangeCount p.j) ++
  [0, 0, 0, 0, 0, 0, 0, 0, 0, 0]

/-- The cells of the grid in the order the double loop visits them: `i` outer, `j` inner. -/
def cells (rangeCount verticalRangeCount : Nat) : List (Nat × Nat) :=
  (List.range rangeCount).flatMap fun i => (List.range verticalRangeCount).map fun j => (i, j)

/-- The range sample of cell `(i, j)` (zero outside the array). -/
def rangeAt (scan : LaserScan α) (c : Nat × Nat) : α :=
  scan.ranges.getD (c.1 + c.2 * scan.count) 0

/-- The intensity sample of cell `(i, j)` (zero outside the array). -/
def intensityAt (scan : LaserScan α) (c : Nat × Nat) : α :=
  scan.intensities.getD (c.1 + c.2 * scan.count) 0

/-- The loop body run over a list of cells. -/
def runCells (env : Numerics α) (V : Nat) (self : GazeboRosVelodyneLaser α)
    (scan : LaserScan α) (cs : List (Nat × Nat)) (st : Cursor α) : Except Fault (Cursor α) :=
  cs.foldlM (fun st c => cell env V self scan c.1 c.2 st) st

/-- The rays written while the cells `cs` are visited, `d` noise draws having been made
before. -/
def traceFrom (env : Numerics α) (self : GazeboRosVelodyneLaser α) (scan : LaserScan α) :
    List (Nat × Nat) → Nat → List (Ray α)
  | [], _ => []
  | c :: cs, d =>
    match castRay env self scan d c.1 c.2 with
    | .ok (some p, d1) =>
      if MIN_RANGE self scan < p.r ∧ p.r < MAX_RANGE self scan then
        p :: traceFrom env self scan cs d1
      else traceFrom env self scan cs d1
    | .ok (none, _) => traceFrom env self scan cs d
    | .error _ => []

/-- The ray that cell `c` yields when it passes the first gate, `d` noise draws having been
made before: the range sample plus the `d`-th draw when the noise is enabled, the unchanged
intensity sample, and the angles of column `c.1` and row `c.2`. -/
def rayAt (env : Numerics α) (self : GazeboRosVelodyneLaser α) (scan : LaserScan α)
    (d : Nat) (c : Nat × Nat) : Ray α :=
  { i := c.1, j := c.2
    r := if DoubleOps.ne self.gaussian_noise_ 0 then
        rangeAt scan c + env.gaussianKernel d 0 self.gaussian_noise_
      else rangeAt scan c
    intensity := intensityAt scan c
    yAngle := yAngleOf scan c.1, pAngle := pAngleOf scan c.2 }

/-- Invariant of the double loop for a vector of `alloc` bytes: the vector holds the records
of the rays written so far followed by zero bytes, and `ptr` is at the end of the last
record. -/
structure Inv (env : Numerics α) (V : Nat) (scan : LaserScan α) (alloc : Nat)
    (st : Cursor α) : Prop where
  data : st.data = st.log.flatMap (recordBytes env V scan.vertical_count) ++
    List.replicate (alloc - 32 * st.log.length) 0
  ptr : st.ptr = 32 * st.log.length
  fit : 32 * st.log.length ≤ alloc

/-- Size in bytes of `msg.data` after line 202 (`uint32_t` arithmetic). -/
def allocSize (scan : LaserScan α) : Nat :=
  (scan.vertical_count * scan.count * POINT_STEP) % 4294967296

/-- The caller contract of `OnScan`: both arrays cover the grid, and the size of the
worst-case allocation of line 202 is below `2 ^ 32`. -/
def GridFits (scan : LaserScan α) : Prop :=
  scan.count * scan.vertical_count ≤ scan.ranges.length ∧
  scan.count * scan.vertical_count ≤ scan.intensities.length ∧
  scan.vertical_count * scan.count * POINT_STEP < 4294967296

instance (scan : LaserScan α) : Decidable (GridFits scan) := by
  unfold GridFits
  infer_instance

/-- The samples of cell `c` are not skipped by the first gate (line 215): the condition of
the `continue` is false. -/
def Accepts (self : GazeboRosVelodyneLaser α) (scan : LaserScan α) (c : Nat × Nat) : Prop :=
  ¬ (MIN_RANGE self scan ≥ rangeAt scan c ∨ rangeAt scan c ≥ MAX_RANGE self scan ∨
    intensityAt scan c < MIN_INTENSITY self)

instance (self : GazeboRosVelodyneLaser α) (scan : LaserScan α) (c : Nat × Nat) :
    Decidable (Accepts self scan c) := by
  unfold Accepts
  infer_instance

/-- The message that lines 176–267 build once the loop has written the rays `log`. -/
def cloudOf (env : Numerics α) (V : Nat) (self : GazeboRosVelodyneLaser α)
    (_msg : LaserScanStamped α) (log : List (Ray α)) : PointCloud2 :=
  { header := { frame_id := self.frame_name_
                stamp_sec := toInt32 _msg.time_sec
                stamp_nanosec := toUInt32 _msg.time_nsec }
    fields := cloudFields
    point_step := 32
    row_step := 32 * log.length
    height := 1
    width := log.length
    is_bigendian := false
    is_dense := true
    data := log.flatMap (recordBytes env V _msg.scan.vertical_count) }

end OnScan

/-- A sample numeric environment over `ℚ`, for running the definitions. -/
def demoEnv : Numerics ℚ :=
  { cos := fun x => 1 - x * x / 2
    sin := fun x => x
    f32 := fun v k => ⟨(v.num.natAbs / 256 ^ k) % 256, Nat.mod_lt _ (by decide)⟩
    INFINITY := 1000000000
    lowest := -1000000000
    gaussianKernel := fun k mu sigma => mu + sigma * ((k % 3 : Nat) : ℚ) - sigma }

/-- A sample configuration element: range band `(0, 10)`, intensity bound `1 / 2`. -/
def demoSdf : Sdf ℚ :=
  { robotNamespace := none, frameName := none, min_range := none, max_range := some 10
    min_intensity := some (1 / 2), topicName := none, gaussianNoise := none }

/-- The publisher that `Load` creates for `demoSdf`. -/
def demoPub : Publisher := { topic := "/points", depth := 10 }

/-- A sample scan: three columns and two rows. -/
def demoMsg : LaserScanStamped ℚ :=
  { time_sec := 12, time_nsec := 500
    scan :=
      { angle_min := -1, angle_max := 1, range_min := 0, range_max := 100
        count := 3, vertical_count := 2
        vertical_angle_min := 0, vertical_angle_max := 1 / 4
        ranges := [5, 0, 12, 7, 8, 9]
        intensities := [1, 1, 1, 2 / 5, 1, 1] } }

/-- The sample configuration with range noise of standard deviation 3. -/
def demoNoisySdf : Sdf ℚ := { demoSdf with gaussianNoise := some 3 }

/-- The `uint16_t` stored little-endian at byte `pos` of a data vector. -/
def readU16 (data : List Byte) (pos : Nat) : Nat :=
  match data.drop pos with
  | b0 :: b1 :: _ => b0.val + 256 * b1.val
  | _ => 0

/-- A scan of one column and 65537 rows, every sample inside the band of `demoSdf`. -/
def tallMsg : LaserScanStamped ℚ :=
  { time_sec := 0, time_nsec := 0
    scan :=
      { angle_min := 0, angle_max := 0, range_min := 0, range_max := 100
        count := 1, vertical_count := 65537
        vertical_angle_min := 0, vertical_angle_max := 1
        ranges := List.replicate 65537 5
        intensities := List.replicate 65537 1 } }

/-- Equality of run outcomes is decidable. -/
instance instDecidableEqOutcome {ε β : Type} [DecidableEq ε] [DecidableEq β] :
    DecidableEq (Except ε β) := fun a b =>
  match a, b with
  | .ok x, .ok y =>
    if h : x = y then isTrue (congrArg Except.ok h)
    else isFalse (fun e => h (Except.ok.inj e))
  | .error x, .error y =>
    if h : x = y then isTrue (congrArg Except.error h)
    else isFalse (fun e => h (Except.error.inj e))
  | .ok _, .error _ => isFalse (fun e => Except.noConfusion e)
  | .error _, .ok _ => isFalse (fun e => Except.noConfusion e)

/-- The cloud that `OnScan` publishes for `demoSdf` and `demoMsg`: three records. -/
def demoCloud : PointCloud2 :=
  cloudOf demoEnv 7 (Load demoEnv demoSdf) demoMsg
    [ { i := 0, j := 0, r := 5, intensity := 1, yAngle := -1, pAngle := 0 },
      { i := 1, j := 1, r := 8, intensity := 1, yAngle := 0, pAngle := 1 / 4 },
      { i := 2, j := 1, r := 9, intensity := 1, yAngle := 1, pAngle := 1 / 4 } ]

/-- The cloud that `OnScan` publishes for `demoNoisySdf` and `demoMsg`: the draws are
`-3`, `0` and `3`, and the third perturbed range, 12, fails the second gate. -/
def demoNoisyCloud : PointCloud2 :=
  cloudOf demoEnv 7 (Load demoEnv demoNoisySdf) demoMsg
    [ { i := 0, j := 0, r := 2, intensity := 1, yAngle := -1, pAngle := 0 },
      { i := 1, j := 1, r := 8, intensity := 1, yAngle := 0, pAngle := 1 / 4 } ]

/-- A scan of three columns and no row, with empty arrays. -/
def emptyMsg : LaserScanStamped ℚ :=
  { time_sec := 0, time_nsec := 0
    scan :=
      { angle_min := -1, angle_max := 1, range_min := 0, range_max := 100
        count := 3, vertical_count := 0
        vertical_angle_min := 0, vertical_angle_max := 0
        ranges := [], intensities := [] } }

/-- A scan of `n` columns and one row, every sample inside the band of `demoSdf`. For
`n = 134217728` the byte size of the worst-case cloud is `2 ^ 32`. -/
def wideMsg (n : Nat) : LaserScanStamped ℚ :=
  { time_sec := 0, time_nsec := 0
    scan :=
      { angle_min := 0, angle_max := 1, range_min := 0, range_max := 100
        count := n, vertical_count := 1
        vertical_angle_min := 0, vertical_angle_max := 0
        ranges := List.replicate n 5
        intensities := List.replicate n 1 } }

/-- The quotient `x / (double) n` of a `double` by an `int`, with the zero divisor made
visible: `none` when `n = 0`. -/
def divChecked {α : Type} [DoubleOps α] (x : α) (n : Int) : Option α :=
  if n = 0 then none else some (x / (n : α))

/-- Lines 228–232 with the division made partial: `none` if line 229 divides by zero. -/
def yAngleChecked {α : Type} [DoubleOps α] (scan : LaserScan α) (i : Nat) :
    Option α :=
  let rangeCount := scan.count
  let yDiff := scan.angle_max - scan.angle_min
  if rangeCount > 1 then
    (divChecked ((i : α) * yDiff) ((rangeCount : Int) - 1)).map fun q => q + scan.angle_min
  else
    some scan.angle_min

/-- Lines 234–238 with the division made partial: `none` if line 235 divides by zero. The
guard tests `verticalRayCount`, the divisor is `verticalRangeCount - 1`. -/
def pAngleChecked {α : Type} [DoubleOps α] (scan : LaserScan α) (j : Nat) :
    Option α :=
  let verticalRayCount := scan.vertical_count
  let verticalRangeCount := scan.vertical_count
  let pDiff := scan.vertical_angle_max - scan.vertical_angle_min
  if verticalRayCount > 1 then
    (divChecked ((j : α) * pDiff) ((verticalRangeCount : Int) - 1)).map
      fun q => q + scan.vertical_angle_min
  else
    some scan.vertical_angle_min

/-- A sample numeric environment whose `cos` and `sin` lie on the unit circle: the rational
parametrisation by the half-angle tangent. -/
def circleEnv : Numerics ℚ :=
  { demoEnv with
    cos := fun x => (1 - x * x) / (1 + x * x)
    sin := fun x => 2 * x / (1 + x * x) }

/-- The cloud that `OnScan` publishes for `circleEnv`, `demoSdf` and `demoMsg`. -/
def circleCloud : PointCloud2 :=
  cloudOf circleEnv 7 (Load circleEnv demoSdf) demoMsg
    [ { i := 0, j := 0, r := 5, intensity := 1, yAngle := -1, pAngle := 0 },
      { i := 1, j := 1, r := 8, intensity := 1, yAngle := 0, pAngle := 1 / 4 },
      { i := 2, j := 1, r := 9, intensity := 1, yAngle := 1, pAngle := 1 / 4 } ]

/-- The number of binary digits of `n`, by recursion on the fuel `f`. -/
def bitLengthAux : Nat → Nat → Nat
  | 0, _ => 0
  | f + 1, n => if n = 0 then 0 else bitLengthAux f (n / 2) + 1

/-- The number of binary digits of `n`: `2 ^ (bitLength n - 1) ≤ n < 2 ^ bitLength n` for
`n > 0`. -/
def bitLength (n : Nat) : Nat := bitLengthAux n n

/-- Rounding to nearest, ties to even, of the positive rational `n / d` onto the binary
floating-point numbers with `p` significant bits and least exponent `emin` (with gradual
underflow below `2 ^ emin`, and no upper bound on the exponent): the result is
`m * 2 ^ s` for the pair `(m, s)` returned. -/
def roundNearestEven (p : Nat) (emin : Int) (n d : Nat) : Nat × Int :=
  let l : Int := (bitLength n : Int) - (bitLength d : Int)
  let e : Int := if d * 2 ^ l.toNat ≤ n * 2 ^ (-l).toNat then l else l - 1
  let s : Int := max e emin - ((p : Int) - 1)
  let N : Nat := n * 2 ^ (-s).toNat
  let D : Nat := d * 2 ^ s.toNat
  let f : Nat := N / D
  let m : Nat :=
    if 2 * (N % D) < D then f
    else if D < 2 * (N % D) then f + 1
    else if f % 2 = 0 then f else f + 1
  (m, s)

/-- A value of IEEE 754 binary64: a NaN (sign and payload are not distinguished), the two
infinities, negative zero, or a finite value; positive zero is `fin 0`. -/
inductive Dbl where
  | nan
  | ninf
  | pinf
  | nzero
  | fin (q : ℚ)
  deriving DecidableEq

namespace Dbl

/-- The sign bit of a value that is not a NaN. -/
def isNeg : Dbl → Bool
  | ninf => true
  | nzero => true
  | fin q => decide (q < 0)
  | _ => false

/-- The numeric value of a finite value. -/
def val : Dbl → ℚ
  | fin q => q
  | _ => 0

/-- The value is an infinity. -/
def isInf : Dbl → Bool
  | ninf => true
  | pinf => true
  | _ => false

/-- The value is a zero. -/
def isZero : Dbl → Bool
  | nzero => true
  | fin q => decide (q = 0)
  | _ => false

/-- The value is finite: neither a NaN nor an infinity. -/
def isFinite : Dbl → Bool
  | nzero => true
  | fin _ => true
  | _ => false

/-- The infinity of a sign. -/
def inf (neg : Bool) : Dbl := if neg then ninf else pinf

/-- The zero of a sign. -/
def zero (neg : Bool) : Dbl := if neg then nzero else fin 0

/-- The binary64 value of sign `neg` nearest to the magnitude `q ≥ 0` (round to nearest,
ties to even): an infinity on overflow, a zero when `q` rounds to zero. -/
def round (neg : Bool) (q : ℚ) : Dbl :=
  if q = 0 then zero neg
  else
    let r := roundNearestEven 53 (-1022) q.num.natAbs q.den
    if 2 ^ 1024 * 2 ^ (-r.2).toNat ≤ r.1 * 2 ^ r.2.toNat then inf neg
    else if r.1 = 0 then zero neg
    else fin (mkRat (if neg then -(r.1 * 2 ^ r.2.toNat : Nat) else (r.1 * 2 ^ r.2.toNat : Nat))
      (2 ^ (-r.2).toNat))

/-- The binary64 value nearest to the rational `q`. -/
def ofRat (q : ℚ) : Dbl := round (decide (q < 0)) |q|

/-- The value is one of binary64: a finite value is left unchanged by the rounding. -/
def IsValue (x : Dbl) : Prop := ∀ q, x = fin q → ofRat q = fin q

/-- Negation: the sign bit is flipped. -/
def neg : Dbl → Dbl
  | nan => nan
  | ninf => pinf
  | pinf => ninf
  | nzero => fin 0
  | fin q => if q = 0 then nzero else fin (-q)

/-- Addition, rounded to nearest. -/
def add (x y : Dbl) : Dbl :=
  match x, y with
  | nan, _ => nan
  | _, nan => nan
  | pinf, ninf => nan
  | ninf, pinf => nan
  | pinf, _ => pinf
  | _, pinf => pinf
  | ninf, _ => ninf
  | _, ninf => ninf
  | x, y =>
    if x.isZero && y.isZero then zero (x.isNeg && y.isNeg)
    else if x.val + y.val = 0 then fin 0
    else ofRat (x.val + y.val)

/-- Subtraction, rounded to nearest. -/
def sub (x y : Dbl) : Dbl := add x (neg y)

/-- Multiplication, rounded to nearest. -/
def mul (x y : Dbl) : Dbl :=
  match x, y with
  | nan, _ => nan
  | _, nan => nan
  | x, y =>
    if (x.isInf && y.isZero) || (x.isZero && y.isInf) then nan
    else if x.isInf || y.isInf then inf (xor x.isNeg y.isNeg)
    else round (xor x.isNeg y.isNeg) |x.val * y.val|

/-- Division, rounded to nearest. -/
def div (x y : Dbl) : Dbl :=
  match x, y with
  | nan, _ => nan
  | _, nan => nan
  | x, y =>
    if (x.isInf && y.isInf) || (x.isZero && y.isZero) then nan
    else if x.isInf || y.isZero then inf (xor x.isNeg y.isNeg)
    else if y.isInf then zero (xor x.isNeg y.isNeg)
    else round (xor x.isNeg y.isNeg) |x.val / y.val|

/-- Position of a value that is not a NaN among the extended reals: the infinities before
and after all finite values. -/
def cls : Dbl → Int
  | ninf => -1
  | pinf => 1
  | _ => 0

/-- The comparison `x < y`: false when an operand is a NaN. -/
def lt (x y : Dbl) : Prop :=
  x ≠ nan ∧ y ≠ nan ∧ (x.cls < y.cls ∨ (x.cls = y.cls ∧ x.val < y.val))

/-- The comparison `x <= y`: false when an operand is a NaN. -/
def le (x y : Dbl) : Prop :=
  x ≠ nan ∧ y ≠ nan ∧ (x.cls < y.cls ∨ (x.cls = y.cls ∧ x.val ≤ y.val))

/-- The comparison `x != y`: true when an operand is a NaN; the two zeros are equal. -/
def ne (x y : Dbl) : Prop :=
  x = nan ∨ y = nan ∨ x.cls ≠ y.cls ∨ x.val ≠ y.val

instance (x y : Dbl) : Decidable (lt x y) := by
  unfold lt
  infer_instance

instance (x y : Dbl) : Decidable (le x y) := by
  unfold le
  infer_instance

instance (x y : Dbl) : Decidable (ne x y) := by
  unfold ne
  infer_instance

/-- The 32 bits of the value converted to `float` (binary32, round to nearest, ties to
even); a NaN becomes the default quiet NaN. -/
def floatBits : Dbl → Nat
  | nan => 0x7FC00000
  | pinf => 0x7F800000
  | ninf => 0xFF800000
  | nzero => 0x80000000
  | fin q =>
    let sign : Nat := if q < 0 then 0x80000000 else 0
    if q = 0 then 0
    else
      let r := roundNearestEven 24 (-126) q.num.natAbs q.den
      let M : Nat := r.1 * 2 ^ (r.2 + 149).toNat
      if 2 ^ 277 ≤ M then sign + 0x7F800000
      else if M < 2 ^ 23 then sign + M
        else sign + (bitLength M - 23) * 2 ^ 23 + (M / 2 ^ (bitLength M - 24) - 2 ^ 23)

end Dbl

/-- IEEE 754 binary64 arithmetic with round to nearest, ties to even: the operations of
`double` on `Dbl`. An `int` is converted by rounding its value. -/
instance instDoubleOpsDbl : DoubleOps Dbl where
  add := Dbl.add
  sub := Dbl.sub
  mul := Dbl.mul
  div := Dbl.div
  neg := Dbl.neg
  lt := Dbl.lt
  le := Dbl.le
  ne := Dbl.ne
  decLt := inferInstance
  decLe := inferInstance
  decNe := inferInstance
  ofNat := fun n => Dbl.ofRat n
  ofInt := fun n => Dbl.ofRat n
  zero := Dbl.fin 0

/-- The Taylor polynomial of degree 59 of the sine at 0, evaluated exactly. -/
def sinSeries (q : ℚ) : ℚ :=
  ((List.range 30).foldl
    (fun (a : ℚ × ℚ) k => (a.1 + a.2, -a.2 * q * q / (((2 * k + 2) * (2 * k + 3) : Nat) : ℚ)))
    (0, q)).1

/-- The Taylor polynomial of degree 58 of the cosine at 0, evaluated exactly. -/
def cosSeries (q : ℚ) : ℚ :=
  ((List.range 30).foldl
    (fun (a : ℚ × ℚ) k => (a.1 + a.2, -a.2 * q * q / (((2 * k + 1) * (2 * k + 2) : Nat) : ℚ)))
    (0, 1)).1

/-- A sample numeric environment on binary64. `cos` and `sin` are the Taylor polynomials
rounded once to binary64, which for arguments of magnitude up to `π` is the correctly
rounded value or next to it; the store to a `float` is the IEEE 754 conversion to binary32
on a little-endian host; `lowest()` is `-(2 ^ 1024 - 2 ^ 971)`. -/
def ieeeEnv : Numerics Dbl :=
  { cos := fun x =>
      match x with
      | .fin q => Dbl.ofRat (cosSeries q)
      | .nzero => .fin 1
      | _ => .nan
    sin := fun x =>
      match x with
      | .fin q => Dbl.ofRat (sinSeries q)
      | .nzero => .nzero
      | _ => .nan
    f32 := fun v k => ⟨(Dbl.floatBits v / 256 ^ k) % 256, Nat.mod_lt _ (by decide)⟩
    INFINITY := .pinf
    lowest := .fin (-(2 ^ 1024 - 2 ^ 971))
    gaussianKernel := fun k mu sigma => mu + sigma * Dbl.ofRat (((k % 3 : Nat) : ℚ) - 1) }

/-- A sample configuration element on binary64: range band `(0, 10)`, intensity bound
`0.5`. -/
def ieeeSdf : Sdf Dbl :=
  { robotNamespace := none, frameName := none, min_range := none, max_range := some (.fin 10)
    min_intensity := some (.fin (1 / 2)), topicName := none, gaussianNoise := none }

/-- A scan of two columns and one row, both ranges inside the band of `ieeeSdf`; the
intensity of the second cell is a NaN. -/
def nanMsg : LaserScanStamped Dbl :=
  { time_sec := 0, time_nsec := 0
    scan :=
      { angle_min := .fin 0, angle_max := .fin 0, range_min := .fin 0, range_max := .fin 100
        count := 2, vertical_count := 1
        vertical_angle_min := .fin 0, vertical_angle_max := .fin 0
        ranges := [.fin 5, .fin 5]
        intensities := [.fin 1, .nan] } }

/-- The cloud that `OnScan` publishes for `ieeeSdf` and `nanMsg`: two records, the second
from the cell whose intensity is a NaN. -/
def nanCloud : PointCloud2 :=
  cloudOf ieeeEnv 7 (Load ieeeEnv ieeeSdf) nanMsg
    [ { i := 0, j := 0, r := .fin 5, intensity := .fin 1, yAngle := .fin 0, pAngle := .fin 0 },
      { i := 1, j := 0, r := .fin 5, intensity := .nan, yAngle := .fin 0, pAngle := .fin 0 } ]

/-- The binary64 value nearest to `π`, `0x1.921fb54442d18p+1`. -/
def flPi : Dbl := .fin (884279719003555 / 281474976710656)

/-- The configuration of the two-point scenario: band `(0, 10)`, intensity bound 0, no
noise. -/
def piSdf : Sdf Dbl :=
  { robotNamespace := none, frameName := none, min_range := some (.fin 0)
    max_range := some (.fin 10), min_intensity := some (.fin 0), topicName := none
    gaussianNoise := some (.fin 0) }

/-- The scan of the two-point scenario, with `angle_max` the binary64 value nearest to
`π`. -/
def piMsg : LaserScanStamped Dbl :=
  { time_sec := 0, time_nsec := 0
    scan :=
      { angle_min := .fin 0, angle_max := flPi, range_min := .fin 0, range_max := .fin 10
        count := 2, vertical_count := 1
        vertical_angle_min := .fin 0, vertical_angle_max := .fin 0
        ranges := [.fin 5, .fin 5]
        intensities := [.fin 1, .fin 1] } }

/-- The cloud that `OnScan` publishes for `piSdf` and `piMsg`. -/
def piCloud : PointCloud2 :=
  cloudOf ieeeEnv 7 (Load ieeeEnv piSdf) piMsg
    [ { i := 0, j := 0, r := .fin 5, intensity := .fin 1, yAngle := .fin 0, pAngle := .fin 0 },
      { i := 1, j := 0, r := .fin 5, intensity := .fin 1, yAngle := flPi, pAngle := .fin 0 } ]

/-- A scan of two columns over the azimuth interval from the binary64 value nearest to
`-0.2` to the one nearest to `0.1`. -/
def skewMsg : LaserScanStamped Dbl :=
  { time_sec := 0, time_nsec := 0
    scan :=
      { angle_min := Dbl.ofRat (-1 / 5), angle_max := Dbl.ofRat (1 / 10)
        range_min := .fin 0, range_max := .fin 100
        count := 2, vertical_count := 1
        vertical_angle_min := .fin 0, vertical_angle_max := .fin 0
        ranges := [.fin 5, .fin 5]
        intensities := [.fin 1, .fin 1] } }

/-- A scan of one cell whose range is the binary64 value nearest to `9.9999999999`, below
the upper bound 10 of `ieeeSdf`. -/
def nearMsg : LaserScanStamped Dbl :=
  { time_sec := 0, time_nsec := 0
    scan :=
      { angle_min := .fin 0, angle_max := .fin 0, range_min := .fin 0, range_max := .fin 100
        count := 1, vertical_count := 1
        vertical_angle_min := .fin 0, vertical_angle_max := .fin 0
        ranges := [Dbl.ofRat (99999999999 / 10000000000)]
        intensities := [.fin 1] } }

/-- The cloud that `OnScan` publishes for `ieeeSdf` and `nearMsg`: one record. -/
def nearCloud : PointCloud2 :=
  cloudOf ieeeEnv 7 (Load ieeeEnv ieeeSdf) nearMsg
    [ { i := 0, j := 0, r := Dbl.ofRat (99999999999 / 10000000000), intensity := .fin 1
        yAngle := .fin 0, pAngle := .fin 0 } ]

/-! Lemmas that hold of every arithmetic -/

section General

variable {α : Type} [DoubleOps α]

theorem recordBytes_length (env : Numerics α) (V n : Nat) (p : Ray α) :
    (recordBytes env V n p).length = 32 := by
  simp [recordBytes, floatBytes, u16Bytes]

theorem store_block (pre mid post bs : List Byte) (off : Nat)
    (h : off + bs.length ≤ mid.length) :
    store (pre ++ mid ++ post) (pre.length + off) bs =
      .ok (pre ++ (mid.take off ++ bs ++ mid.drop (off + bs.length)) ++ post) := by
  have h1 : pre.length + off + bs.length ≤ (pre ++ mid ++ post).length := by
    simp only [List.length_append]; omega
  have h2 : List.take (pre.length + off) (pre ++ mid ++ post) = pre ++ mid.take off := by
    rw [List.append_assoc, List.take_append, List.take_append_of_le_length (by omega)]
  have h3 : List.drop (pre.length + off + bs.length) (pre ++ mid ++ post) =
      mid.drop (off + bs.length) ++ post := by
    rw [List.append_assoc, Nat.add_assoc, List.drop_append,
      List.drop_append_of_le_length (by omega)]
  unfold store
  rw [if_pos h1, h2, h3]
  simp only [List.append_assoc]

theorem writePoint_block (env : Numerics α) (V : Nat) (self : GazeboRosVelodyneLaser α)
    (scan : LaserScan α) (p : Ray α) (draws : Nat) (st : Cursor α) (pre post : List Byte)
    (hdata : st.data = pre ++ List.replicate 32 0 ++ post) (hptr : st.ptr = pre.length)
    (hgate : MIN_RANGE self scan < p.r ∧ p.r < MAX_RANGE self scan) :
    writePoint env V self scan p draws st =
      .ok { data := pre ++ recordBytes env V scan.vertical_count p ++ post
            ptr := st.ptr + POINT_STEP, draws := draws, log := st.log ++ [p] } := by
  unfold writePoint
  simp only [hgate, and_self, if_true, hdata, hptr]
  rw [store_block pre _ post _ 0 (by simp [floatBytes])]
  simp only []
  rw [store_block pre _ post _ 4 (by simp [floatBytes])]
  simp only []
  rw [store_block pre _ post _ 8 (by simp [floatBytes])]
  simp only []
  rw [store_block pre _ post _ 16 (by simp [floatBytes])]
  simp only []
  rw [store_block pre _ post _ 20 (by simp [floatBytes, u16Bytes])]
  simp [recordBytes, floatBytes, u16Bytes, List.replicate]

theorem foldlM_flatMap {β γ σ : Type} (f : σ → γ → Except Fault σ) (g : β → List γ)
    (l : List β) (s : σ) :
    (l.flatMap g).foldlM f s = l.foldlM (fun s b => (g b).foldlM f s) s := by
  induction l generalizing s with
  | nil => rfl
  | cons b l ih =>
    rw [List.flatMap_cons, List.foldlM_append, List.foldlM_cons]
    congr 1
    funext s1
    exact ih s1

theorem scanLoop_eq (env : Numerics α) (V : Nat) (self : GazeboRosVelodyneLaser α)
    (scan : LaserScan α) :
    scanLoop env V self scan =
      runCells env V self scan (cells scan.count scan.vertical_count)
        { data := List.replicate ((scan.vertical_count * scan.count * POINT_STEP) % 4294967296) 0
          ptr := 0, draws := 0, log := [] } := by
  unfold scanLoop runCells cells
  rw [foldlM_flatMap]
  simp only [List.foldlM_map, resize, List.take_nil, List.length_nil, Nat.sub_zero,
    List.nil_append]

theorem cells_length (r v : Nat) : (cells r v).length = r * v := by
  unfold cells
  induction r with
  | zero => simp
  | succ n ih =>
    rw [List.range_succ, List.flatMap_append, List.length_append, ih]
    simp [Nat.succ_mul]

theorem mem_cells {r v : Nat} {c : Nat × Nat} : c ∈ cells r v ↔ c.1 < r ∧ c.2 < v := by
  unfold cells
  simp only [List.mem_flatMap, List.mem_range, List.mem_map]
  constructor
  · rintro ⟨i, hi, j, hj, rfl⟩
    exact ⟨hi, hj⟩
  · rintro ⟨hi, hj⟩
    exact ⟨c.1, hi, c.2, hj, rfl⟩

theorem cell_index_lt {r v : Nat} {c : Nat × Nat} (h : c ∈ cells r v) :
    c.1 + c.2 * r < r * v := by
  obtain ⟨hi, hj⟩ := mem_cells.mp h
  calc c.1 + c.2 * r < r + c.2 * r := by omega
    _ = (c.2 + 1) * r := by ring
    _ ≤ v * r := Nat.mul_le_mul_right r hj
    _ = r * v := Nat.mul_comm v r

theorem castRay_eq (env : Numerics α) (self : GazeboRosVelodyneLaser α) (scan : LaserScan α)
    (d : Nat) (c : Nat × Nat) (h1 : c.1 + c.2 * scan.count < scan.ranges.length)
    (h2 : c.1 + c.2 * scan.count < scan.intensities.length) :
    castRay env self scan d c.1 c.2 =
      if Accepts self scan c then
        .ok (some (rayAt env self scan d c),
          if DoubleOps.ne self.gaussian_noise_ 0 then d + 1 else d)
      else .ok (none, d) := by
  have e1 : scan.ranges[c.1 + c.2 * scan.count]? = some (rangeAt scan c) := by
    simp [rangeAt, List.getD_eq_getElem?_getD, List.getElem?_eq_getElem h1]
  have e2 : scan.intensities[c.1 + c.2 * scan.count]? = some (intensityAt scan c) := by
    simp [intensityAt, List.getD_eq_getElem?_getD, List.getElem?_eq_getElem h2]
  unfold castRay rayAt Accepts
  simp only [e1, e2]
  by_cases hg : MIN_RANGE self scan ≥ rangeAt scan c ∨ rangeAt scan c ≥ MAX_RANGE self scan ∨
      intensityAt scan c < MIN_INTENSITY self
  · rw [if_pos hg, if_neg (not_not.mpr hg)]
  · rw [if_neg hg, if_pos hg]
    by_cases hn : DoubleOps.ne self.gaussian_noise_ 0 <;> simp [hn]

theorem records_length (env : Numerics α) (V n : Nat) (log : List (Ray α)) :
    (log.flatMap (recordBytes env V n)).length = 32 * log.length := by
  induction log with
  | nil => rfl
  | cons p l ih =>
    rw [List.flatMap_cons, List.length_append, recordBytes_length, ih, List.length_cons]
    ring

theorem Inv.data_length {env : Numerics α} {V : Nat} {scan : LaserScan α} {alloc : Nat}
    {st : Cursor α} (h : Inv env V scan alloc st) : st.data.length = alloc := by
  rw [h.data, List.length_append, records_length, List.length_replicate]
  have := h.fit
  omega

/-- The body at a cell inside both arrays, with room for one more record. -/
theorem cell_spec (env : Numerics α) (V : Nat) (self : GazeboRosVelodyneLaser α)
    (scan : LaserScan α) (alloc : Nat) (c : Nat × Nat) (st : Cursor α)
    (hinv : Inv env V scan alloc st) (hroom : 32 * (st.log.length + 1) ≤ alloc)
    (h1 : c.1 + c.2 * scan.count < scan.ranges.length)
    (h2 : c.1 + c.2 * scan.count < scan.intensities.length) :
    ∃ st1, cell env V self scan c.1 c.2 st = .ok st1 ∧ Inv env V scan alloc st1 ∧
      st1.log.length ≤ st.log.length + 1 ∧
      ∀ cs, st1.log ++ traceFrom env self scan cs st1.draws =
        st.log ++ traceFrom env self scan (c :: cs) st.draws := by
  unfold cell
  simp only [traceFrom]
  rw [castRay_eq env self scan st.draws c h1 h2]
  by_cases hg : Accepts self scan c
  · -- the ray passes the first gate
    rw [if_pos hg]
    simp only []
    generalize rayAt env self scan st.draws c = p
    generalize (if DoubleOps.ne self.gaussian_noise_ 0 then st.draws + 1 else st.draws) = d1
    by_cases hg2 : MIN_RANGE self scan < p.r ∧ p.r < MAX_RANGE self scan
    · have hz : List.replicate (alloc - 32 * st.log.length) (0 : Byte) =
          List.replicate 32 0 ++ List.replicate (alloc - 32 * (st.log.length + 1)) 0 := by
        rw [← List.replicate_add]
        congr 1
        omega
      have hdata : st.data = st.log.flatMap (recordBytes env V scan.vertical_count) ++
          List.replicate 32 0 ++ List.replicate (alloc - 32 * (st.log.length + 1)) 0 := by
        rw [hinv.data, hz, List.append_assoc]
      have hptr : st.ptr = (st.log.flatMap (recordBytes env V scan.vertical_count)).length := by
        rw [hinv.ptr, records_length]
      rw [writePoint_block env V self scan p d1 st _ _ hdata hptr hg2]
      refine ⟨_, rfl, ⟨?_, ?_, ?_⟩, ?_, ?_⟩
      · simp only [List.flatMap_append, List.flatMap_singleton, List.length_append,
          List.length_singleton]
      · simp only [hinv.ptr, POINT_STEP, List.length_append, List.length_singleton]
        ring
      · simpa only [List.length_append, List.length_singleton] using hroom
      · simp only [List.length_append, List.length_singleton, le_refl]
      · intro cs
        simp only [if_pos hg2, List.append_assoc, List.singleton_append]
    · refine ⟨{ st with draws := d1 }, ?_, ⟨hinv.data, hinv.ptr, hinv.fit⟩, Nat.le_succ _, ?_⟩
      · simp only [writePoint, if_neg hg2]
      · intro cs
        simp only [if_neg hg2]
  · rw [if_neg hg]
    exact ⟨st, rfl, ⟨hinv.data, hinv.ptr, hinv.fit⟩, Nat.le_succ _, fun _ => rfl⟩

/-- Whenever the body returns, the invariant is kept and the log grew by the trace of the
cell, also where the vector is too small for every cell of the grid. -/
theorem cell_sound (env : Numerics α) (V : Nat) (self : GazeboRosVelodyneLaser α)
    (scan : LaserScan α) (alloc : Nat) (c : Nat × Nat) (st st1 : Cursor α)
    (hinv : Inv env V scan alloc st) (hdvd : 32 ∣ alloc)
    (hcell : cell env V self scan c.1 c.2 st = .ok st1) :
    Inv env V scan alloc st1 ∧
      ∀ cs, st1.log ++ traceFrom env self scan cs st1.draws =
        st.log ++ traceFrom env self scan (c :: cs) st.draws := by
  by_cases h1 : c.1 + c.2 * scan.count < scan.ranges.length
  swap
  · exfalso
    have e1 : scan.ranges[c.1 + c.2 * scan.count]? = none :=
      List.getElem?_eq_none (Nat.le_of_not_lt h1)
    simp [cell, castRay, e1] at hcell
  by_cases h2 : c.1 + c.2 * scan.count < scan.intensities.length
  swap
  · exfalso
    have e1 : scan.ranges[c.1 + c.2 * scan.count]? = some (rangeAt scan c) := by
      simp [rangeAt, List.getD_eq_getElem?_getD, List.getElem?_eq_getElem h1]
    have e2 : scan.intensities[c.1 + c.2 * scan.count]? = none :=
      List.getElem?_eq_none (Nat.le_of_not_lt h2)
    simp [cell, castRay, e1, e2] at hcell
  by_cases hroom : 32 * (st.log.length + 1) ≤ alloc
  · obtain ⟨st2, hc2, hinv2, _, htr⟩ := cell_spec env V self scan alloc c st hinv hroom h1 h2
    rw [hcell] at hc2
    cases hc2
    exact ⟨hinv2, htr⟩
  · -- no room for a record: the body returns only where it does not write
    unfold cell at hcell
    simp only [traceFrom]
    rw [castRay_eq env self scan st.draws c h1 h2] at hcell ⊢
    by_cases hg : Accepts self scan c
    · rw [if_pos hg] at hcell ⊢
      simp only [] at hcell ⊢
      generalize rayAt env self scan st.draws c = p at hcell ⊢
      generalize (if DoubleOps.ne self.gaussian_noise_ 0 then st.draws + 1 else st.draws) = d1 at hcell ⊢
      by_cases hg2 : MIN_RANGE self scan < p.r ∧ p.r < MAX_RANGE self scan
      · exfalso
        have hlen := hinv.data_length
        have hp := hinv.ptr
        obtain ⟨k, hk⟩ := hdvd
        have hover : ¬ (st.ptr + 0 +
            (floatBytes env (p.r * env.cos p.pAngle * env.cos p.yAngle)).length ≤
              st.data.length) := by
          simp only [floatBytes, List.length_cons, List.length_nil]
          omega
        simp only [writePoint, if_pos hg2, store, if_neg hover] at hcell
        cases hcell
      · simp only [writePoint, if_neg hg2] at hcell
        cases hcell
        refine ⟨⟨hinv.data, hinv.ptr, hinv.fit⟩, fun cs => ?_⟩
        simp only [if_neg hg2]
    · rw [if_neg hg] at hcell ⊢
      cases hcell
      exact ⟨hinv, fun _ => rfl⟩

theorem runCells_cons_ok (env : Numerics α) (V : Nat) (self : GazeboRosVelodyneLaser α)
    (scan : LaserScan α) (c : Nat × Nat) (cs : List (Nat × Nat)) (st st2 : Cursor α)
    (h : runCells env V self scan (c :: cs) st = .ok st2) :
    ∃ st1, cell env V self scan c.1 c.2 st = .ok st1 ∧
      runCells env V self scan cs st1 = .ok st2 := by
  unfold runCells at h ⊢
  rw [List.foldlM_cons] at h
  cases hc : cell env V self scan c.1 c.2 st with
  | error e =>
    rw [hc] at h
    cases h
  | ok st1 =>
    rw [hc] at h
    exact ⟨st1, rfl, h⟩

theorem runCells_sound (env : Numerics α) (V : Nat) (self : GazeboRosVelodyneLaser α)
    (scan : LaserScan α) (alloc : Nat) (hdvd : 32 ∣ alloc) (cs : List (Nat × Nat)) :
    ∀ (st st2 : Cursor α), Inv env V scan alloc st →
      runCells env V self scan cs st = .ok st2 →
      Inv env V scan alloc st2 ∧ st2.log = st.log ++ traceFrom env self scan cs st.draws := by
  induction cs with
  | nil =>
    intro st st2 hinv h
    cases h
    exact ⟨hinv, by simp [traceFrom]⟩
  | cons c cs ih =>
    intro st st2 hinv h
    obtain ⟨st1, hc, hrun⟩ := runCells_cons_ok env V self scan c cs st st2 h
    obtain ⟨hinv1, htr⟩ := cell_sound env V self scan alloc c st st1 hinv hdvd hc
    obtain ⟨hinv2, hlog⟩ := ih st1 st2 hinv1 hrun
    exact ⟨hinv2, by rw [hlog, htr cs]⟩

theorem runCells_spec (env : Numerics α) (V : Nat) (self : GazeboRosVelodyneLaser α)
    (scan : LaserScan α) (alloc : Nat) (cs : List (Nat × Nat)) :
    ∀ (st : Cursor α), Inv env V scan alloc st →
      32 * (st.log.length + cs.length) ≤ alloc →
      (∀ c ∈ cs, c.1 + c.2 * scan.count < scan.ranges.length ∧
        c.1 + c.2 * scan.count < scan.intensities.length) →
      ∃ st1, runCells env V self scan cs st = .ok st1 := by
  induction cs with
  | nil =>
    intro st _ _ _
    exact ⟨st, rfl⟩
  | cons c cs ih =>
    intro st hinv hn hb
    have hc := hb c (List.mem_cons_self c cs)
    rw [List.length_cons] at hn
    obtain ⟨st1, hcell, hinv1, hle, _⟩ :=
      cell_spec env V self scan alloc c st hinv (by omega) hc.1 hc.2
    obtain ⟨st2, hrun⟩ :=
      ih st1 hinv1 (by omega) (fun c1 h => hb c1 (List.mem_cons_of_mem c h))
    refine ⟨st2, ?_⟩
    unfold runCells at hrun ⊢
    rw [List.foldlM_cons, hcell]
    exact hrun

theorem allocSize_dvd (scan : LaserScan α) : 32 ∣ allocSize scan := by
  unfold allocSize POINT_STEP
  exact (Nat.dvd_mod_iff (by decide)).mpr (Dvd.intro_left _ rfl)

theorem allocSize_lt (scan : LaserScan α) : allocSize scan < 4294967296 :=
  Nat.mod_lt _ (by decide)

theorem inv_init (env : Numerics α) (V : Nat) (scan : LaserScan α) (alloc : Nat) :
    Inv env V scan alloc { data := List.replicate alloc 0, ptr := 0, draws := 0, log := [] } :=
  ⟨by simp, rfl, Nat.zero_le _⟩

theorem scanLoop_sound (env : Numerics α) (V : Nat) (self : GazeboRosVelodyneLaser α)
    (scan : LaserScan α) (st : Cursor α) (h : scanLoop env V self scan = .ok st) :
    Inv env V scan (allocSize scan) st ∧
      st.log = traceFrom env self scan (cells scan.count scan.vertical_count) 0 := by
  rw [scanLoop_eq] at h
  have := runCells_sound env V self scan (allocSize scan) (allocSize_dvd scan) _ _ st
    (inv_init env V scan (allocSize scan)) h
  simpa using this

theorem scanLoop_ok (env : Numerics α) (V : Nat) (self : GazeboRosVelodyneLaser α)
    (scan : LaserScan α) (hfit : GridFits scan) :
    ∃ st, scanLoop env V self scan = .ok st := by
  rw [scanLoop_eq]
  obtain ⟨hr, hi, hsz⟩ := hfit
  have halloc : allocSize scan = 32 * (scan.count * scan.vertical_count) := by
    unfold allocSize
    rw [Nat.mod_eq_of_lt hsz, POINT_STEP]
    ring
  refine runCells_spec env V self scan (allocSize scan) _ _
    (inv_init env V scan (allocSize scan)) ?_ ?_
  · simp only [List.length_nil, Nat.zero_add, cells_length, halloc, le_refl]
  · intro c hc
    have := cell_index_lt hc
    exact ⟨lt_of_lt_of_le this hr, lt_of_lt_of_le this hi⟩

theorem OnScan_sound (env : Numerics α) (V : Nat) (self : GazeboRosVelodyneLaser α)
    (_msg : LaserScanStamped α) (p : Publisher) (cloud : PointCloud2)
    (h : OnScan env V self _msg = .ok (p, cloud)) :
    ∃ st, scanLoop env V self _msg.scan = .ok st ∧ self.pub_ = some p ∧
      cloud = cloudOf env V self _msg st.log := by
  unfold OnScan at h
  cases hs : scanLoop env V self _msg.scan with
  | error e =>
    rw [hs] at h
    cases h
  | ok st =>
    rw [hs] at h
    simp only [] at h
    cases hp : self.pub_ with
    | none =>
      rw [hp] at h
      cases h
    | some q =>
      rw [hp] at h
      simp only [Except.ok.injEq, Prod.mk.injEq] at h
      obtain ⟨hinv, -⟩ := scanLoop_sound env V self _msg.scan st hs
      have hlt := allocSize_lt _msg.scan
      have hfit := hinv.fit
      have hrow : st.ptr % 4294967296 = 32 * st.log.length := by
        rw [hinv.ptr]
        exact Nat.mod_eq_of_lt (lt_of_le_of_lt hfit hlt)
      have hdata : resize st.data (32 * st.log.length) =
          st.log.flatMap (recordBytes env V _msg.scan.vertical_count) := by
        unfold resize
        have hl := hinv.data_length
        have : 32 * st.log.length - st.data.length = 0 := by omega
        rw [this, List.replicate_zero, List.append_nil, hinv.data,
          ← records_length env V _msg.scan.vertical_count st.log, List.take_left]
      refine ⟨st, rfl, by rw [h.1], ?_⟩
      rw [← h.2, hrow, hdata]
      simp [cloudOf, POINT_STEP]

theorem OnScan_ok (env : Numerics α) (V : Nat) (self : GazeboRosVelodyneLaser α)
    (_msg : LaserScanStamped α) (p : Publisher) (hfit : GridFits _msg.scan)
    (hpub : self.pub_ = some p) :
    OnScan env V self _msg = .ok (p, cloudOf env V self _msg
      (traceFrom env self _msg.scan (cells _msg.scan.count _msg.scan.vertical_count) 0)) := by
  obtain ⟨st, hs⟩ := scanLoop_ok env V self _msg.scan hfit
  have hlog := (scanLoop_sound env V self _msg.scan st hs).2
  cases ho : OnScan env V self _msg with
  | error e =>
    exfalso
    simp only [OnScan, hs, hpub] at ho
    cases ho
  | ok r =>
    obtain ⟨q, cloud⟩ := r
    obtain ⟨st1, hs1, hp1, hc⟩ := OnScan_sound env V self _msg q cloud ho
    rw [hs] at hs1
    cases hs1
    rw [hpub] at hp1
    cases hp1
    rw [hc, hlog]

theorem castRay_inbounds (env : Numerics α) (self : GazeboRosVelodyneLaser α)
    (scan : LaserScan α) (d : Nat) (c : Nat × Nat) (x : Option (Ray α) × Nat)
    (h : castRay env self scan d c.1 c.2 = .ok x) :
    c.1 + c.2 * scan.count < scan.ranges.length ∧
      c.1 + c.2 * scan.count < scan.intensities.length := by
  by_cases h1 : c.1 + c.2 * scan.count < scan.ranges.length
  swap
  · exfalso
    have e1 : scan.ranges[c.1 + c.2 * scan.count]? = none :=
      List.getElem?_eq_none (Nat.le_of_not_lt h1)
    simp [castRay, e1] at h
  by_cases h2 : c.1 + c.2 * scan.count < scan.intensities.length
  swap
  · exfalso
    have e1 : scan.ranges[c.1 + c.2 * scan.count]? = some (rangeAt scan c) := by
      simp [rangeAt, List.getD_eq_getElem?_getD, List.getElem?_eq_getElem h1]
    have e2 : scan.intensities[c.1 + c.2 * scan.count]? = none :=
      List.getElem?_eq_none (Nat.le_of_not_lt h2)
    simp [castRay, e1, e2] at h
  exact ⟨h1, h2⟩

/-- One step of the trace, by cases on the two gates. -/
theorem traceFrom_cons (env : Numerics α) (self : GazeboRosVelodyneLaser α)
    (scan : LaserScan α) (c : Nat × Nat) (cs : List (Nat × Nat)) (d : Nat) :
    traceFrom env self scan (c :: cs) d = [] ∨
    (¬ Accepts self scan c ∧
      traceFrom env self scan (c :: cs) d = traceFrom env self scan cs d) ∨
    (Accepts self scan c ∧ ∃ d1,
      ((MIN_RANGE self scan < (rayAt env self scan d c).r ∧
          (rayAt env self scan d c).r < MAX_RANGE self scan) ∧
        traceFrom env self scan (c :: cs) d =
          rayAt env self scan d c :: traceFrom env self scan cs d1) ∨
      traceFrom env self scan (c :: cs) d = traceFrom env self scan cs d1) := by
  cases hc : castRay env self scan d c.1 c.2 with
  | error e =>
    left
    simp only [traceFrom, hc]
  | ok x =>
    obtain ⟨h1, h2⟩ := castRay_inbounds env self scan d c x hc
    right
    simp only [traceFrom]
    rw [castRay_eq env self scan d c h1 h2]
    by_cases hg : Accepts self scan c
    · right
      refine ⟨hg, if DoubleOps.ne self.gaussian_noise_ 0 then d + 1 else d, ?_⟩
      rw [if_pos hg]
      simp only []
      by_cases hg2 : MIN_RANGE self scan < (rayAt env self scan d c).r ∧
          (rayAt env self scan d c).r < MAX_RANGE self scan
      · left
        exact ⟨hg2, by rw [if_pos hg2]⟩
      · right
        rw [if_neg hg2]
    · left
      refine ⟨hg, ?_⟩
      rw [if_neg hg]

/-- Every ray of the trace comes from a cell of the list that passed the first gate, and
its own range passed the second gate. -/
theorem traceFrom_mem (env : Numerics α) (self : GazeboRosVelodyneLaser α)
    (scan : LaserScan α) (cs : List (Nat × Nat)) :
    ∀ (d : Nat) (q : Ray α), q ∈ traceFrom env self scan cs d →
      ∃ c ∈ cs, ∃ k, q = rayAt env self scan k c ∧ Accepts self scan c ∧
        MIN_RANGE self scan < q.r ∧ q.r < MAX_RANGE self scan := by
  induction cs with
  | nil =>
    intro d q hq
    simp [traceFrom] at hq
  | cons c cs ih =>
    intro d q hq
    have lift : ∀ d1, q ∈ traceFrom env self scan cs d1 →
        ∃ c1 ∈ c :: cs, ∃ k, q = rayAt env self scan k c1 ∧ Accepts self scan c1 ∧
          MIN_RANGE self scan < q.r ∧ q.r < MAX_RANGE self scan := by
      intro d1 h
      obtain ⟨c1, hc1, k, hk⟩ := ih d1 q h
      exact ⟨c1, List.mem_cons_of_mem c hc1, k, hk⟩
    rcases traceFrom_cons env self scan c cs d with h | ⟨_, h⟩ | ⟨ha, d1, ⟨hg2, h⟩ | h⟩
    · rw [h] at hq
      cases hq
    · rw [h] at hq
      exact lift d hq
    · rw [h] at hq
      rcases List.mem_cons.mp hq with rfl | hq
      · exact ⟨c, List.mem_cons_self c cs, d, rfl, ha, hg2⟩
      · exact lift d1 hq
    · rw [h] at hq
      exact lift d1 hq

/-- The cells of the written rays, in order, are a sublist of the cells that passed the
first gate. -/
theorem traceFrom_sublist (env : Numerics α) (self : GazeboRosVelodyneLaser α)
    (scan : LaserScan α) (cs : List (Nat × Nat)) :
    ∀ (d : Nat), List.Sublist ((traceFrom env self scan cs d).map fun q => (q.i, q.j))
      (cs.filter fun c => decide (Accepts self scan c)) := by
  induction cs with
  | nil =>
    intro d
    simp [traceFrom]
  | cons c cs ih =>
    intro d
    rcases traceFrom_cons env self scan c cs d with h | ⟨hn, h⟩ | ⟨ha, d1, ⟨_, h⟩ | h⟩
    · rw [h]
      exact List.nil_sublist _
    · rw [h, List.filter_cons_of_neg (by simpa using hn)]
      exact ih d
    · rw [h, List.filter_cons_of_pos (by simpa using ha), List.map_cons]
      exact (ih d1).cons₂ c
    · rw [h, List.filter_cons_of_pos (by simpa using ha)]
      exact (ih d1).cons c

/-- With the noise test of line 220 false, the trace is the list of the cells that pass
both gates on their unperturbed samples, each with these samples. -/
theorem traceFrom_quiet (env : Numerics α) (self : GazeboRosVelodyneLaser α)
    (scan : LaserScan α) (hnoise : ¬ DoubleOps.ne self.gaussian_noise_ 0)
    (cs : List (Nat × Nat)) :
    ∀ (d : Nat), (∀ c ∈ cs, c.1 + c.2 * scan.count < scan.ranges.length ∧
        c.1 + c.2 * scan.count < scan.intensities.length) →
      traceFrom env self scan cs d =
        (cs.filter fun c => decide (Accepts self scan c ∧
          MIN_RANGE self scan < rangeAt scan c ∧ rangeAt scan c < MAX_RANGE self scan)).map
          (rayAt env self scan 0) := by
  induction cs with
  | nil =>
    intro d _
    simp [traceFrom]
  | cons c cs ih =>
    intro d hb
    have hc := hb c (List.mem_cons_self c cs)
    have ih1 := fun d1 => ih d1 (fun c1 h => hb c1 (List.mem_cons_of_mem c h))
    have hray : ∀ k, rayAt env self scan k c = rayAt env self scan 0 c := by
      intro k
      simp [rayAt, hnoise]
    have hr : ∀ k, (rayAt env self scan k c).r = rangeAt scan c := by
      intro k
      simp [rayAt, hnoise]
    simp only [traceFrom]
    rw [castRay_eq env self scan d c hc.1 hc.2]
    by_cases hg : Accepts self scan c
    · rw [if_pos hg]
      simp only []
      by_cases hg2 : MIN_RANGE self scan < rangeAt scan c ∧ rangeAt scan c < MAX_RANGE self scan
      · rw [if_pos (by rw [hr]; exact hg2),
          List.filter_cons_of_pos (by simpa using ⟨hg, hg2⟩), List.map_cons, hray d, ih1]
      · rw [if_neg (by rw [hr]; exact hg2),
          List.filter_cons_of_neg (by simpa using fun h : Accepts self scan c => hg2), ih1]
    · rw [if_neg hg, List.filter_cons_of_neg (by simpa using fun h => absurd h hg)]
      exact ih1 d

theorem samples_of_cover (scan : LaserScan α)
    (hr : scan.count * scan.vertical_count ≤ scan.ranges.length)
    (hi : scan.count * scan.vertical_count ≤ scan.intensities.length) (c : Nat × Nat)
    (hc : c ∈ cells scan.count scan.vertical_count) :
    (c.1 + c.2 * scan.count < scan.ranges.length ∧
      c.1 + c.2 * scan.count < scan.intensities.length) ∧
    scan.ranges[c.1 + c.2 * scan.count]? = some (rangeAt scan c) ∧
      scan.intensities[c.1 + c.2 * scan.count]? = some (intensityAt scan c) := by
  have h := cell_index_lt hc
  have h1 : c.1 + c.2 * scan.count < scan.ranges.length := lt_of_lt_of_le h hr
  have h2 : c.1 + c.2 * scan.count < scan.intensities.length := lt_of_lt_of_le h hi
  refine ⟨⟨h1, h2⟩, ?_, ?_⟩
  · simp [rangeAt, List.getD_eq_getElem?_getD, List.getElem?_eq_getElem h1]
  · simp [intensityAt, List.getD_eq_getElem?_getD, List.getElem?_eq_getElem h2]

theorem flatMap_drop_block {β : Type} (f : β → List Byte) (hf : ∀ b, (f b).length = 32) :
    ∀ (l : List β) (k : Nat) (hk : k < l.length),
      (l.flatMap f).drop (32 * k) = f l[k] ++ (l.drop (k + 1)).flatMap f := by
  intro l
  induction l with
  | nil =>
    intro k hk
    simp at hk
  | cons a l ih =>
    intro k hk
    cases k with
    | zero => simp
    | succ k =>
      have hk1 : k < l.length := by simpa using hk
      have e : 32 * (k + 1) = (f a).length + 32 * k := by rw [hf a]; ring
      rw [List.flatMap_cons, e, List.drop_append, ih k hk1]
      simp

/-- The bytes of record `k` of the data, from offset `off` of the record on. -/
theorem record_at (env : Numerics α) (V n : Nat) (log : List (Ray α)) (k : Nat)
    (hk : k < log.length) (off : Nat) :
    (log.flatMap (recordBytes env V n)).drop (32 * k + off) =
      (recordBytes env V n log[k] ++ (log.drop (k + 1)).flatMap (recordBytes env V n)).drop
        off := by
  rw [← flatMap_drop_block (recordBytes env V n) (recordBytes_length env V n) log k hk,
    List.drop_drop, Nat.add_comm]

theorem toUInt16_natCast (n : Nat) : toUInt16 (n : Int) = n % 65536 := by
  unfold toUInt16
  omega

theorem ringOf_eq (V v j : Nat) (hj : j < v) :
    ringOf V v j = if V > 2 then j % 65536 else (v - 1 - j) % 65536 := by
  unfold ringOf
  split_ifs with hV
  · exact toUInt16_natCast j
  · have e : (v : Int) - 1 - (j : Int) = ((v - 1 - j : Nat) : Int) := by omega
    rw [e, toUInt16_natCast]

theorem ringOf_lt (V v j : Nat) : ringOf V v j < 65536 := by
  unfold ringOf toUInt16
  split_ifs <;> omega

theorem readU16_u16Bytes (n : Nat) (hn : n < 65536) (rest : List Byte) :
    readU16 (u16Bytes n ++ rest) 0 = n := by
  simp only [readU16, u16Bytes, List.drop_zero, List.cons_append, List.nil_append]
  omega

/-- The ring field of record `k` of the data. -/
theorem readU16_ring (env : Numerics α) (V n : Nat) (log : List (Ray α)) (k : Nat)
    (hk : k < log.length) :
    readU16 (log.flatMap (recordBytes env V n)) (32 * k + 20) = ringOf V n log[k].j := by
  have e : (log.flatMap (recordBytes env V n)).drop (32 * k + 20) =
      u16Bytes (ringOf V n log[k].j) ++
        ([0, 0, 0, 0, 0, 0, 0, 0, 0, 0] ++ (log.drop (k + 1)).flatMap (recordBytes env V n)) := by
    rw [record_at env V n log k hk 20]
    rfl
  have h := readU16_u16Bytes (ringOf V n log[k].j) (ringOf_lt V n _)
    ([0, 0, 0, 0, 0, 0, 0, 0, 0, 0] ++ (log.drop (k + 1)).flatMap (recordBytes env V n))
  unfold readU16 at h ⊢
  rw [e]
  rw [List.drop_zero] at h
  exact h

theorem trace_row_lt (env : Numerics α) (self : GazeboRosVelodyneLaser α)
    (scan : LaserScan α) (q : Ray α)
    (hq : q ∈ traceFrom env self scan (cells scan.count scan.vertical_count) 0) :
    q.i < scan.count ∧ q.j < scan.vertical_count := by
  obtain ⟨c, hc, k, rfl, -⟩ := traceFrom_mem env self scan _ 0 q hq
  exact mem_cells.mp hc

theorem cells_one (v : Nat) : cells 1 v = (List.range v).map fun j => (0, j) := by
  simp [cells, List.range_succ]

theorem cells_eq_nil {r v : Nat} (h : r = 0 ∨ v = 0) : cells r v = [] := by
  apply List.eq_nil_of_length_eq_zero
  rw [cells_length]
  rcases h with h | h <;> simp [h]

/-- Every ray of a trace is the result of `castRay` at a cell of the list. -/
theorem traceFrom_mem_cast (env : Numerics α) (self : GazeboRosVelodyneLaser α)
    (scan : LaserScan α) (cs : List (Nat × Nat)) :
    ∀ (d : Nat) (q : Ray α), q ∈ traceFrom env self scan cs d →
      ∃ c ∈ cs, ∃ k d1, castRay env self scan k c.1 c.2 = .ok (some q, d1) := by
  induction cs with
  | nil =>
    intro d q hq
    simp [traceFrom] at hq
  | cons c cs ih =>
    intro d q hq
    have lift : ∀ d1, q ∈ traceFrom env self scan cs d1 →
        ∃ c1 ∈ c :: cs, ∃ k d2, castRay env self scan k c1.1 c1.2 = .ok (some q, d2) := by
      intro d1 h
      obtain ⟨c1, hc1, k, d2, hk⟩ := ih d1 q h
      exact ⟨c1, List.mem_cons_of_mem c hc1, k, d2, hk⟩
    cases hcr : castRay env self scan d c.1 c.2 with
    | error e =>
      simp only [traceFrom, hcr] at hq
      cases hq
    | ok x =>
      obtain ⟨o, d1⟩ := x
      cases o with
      | none =>
        simp only [traceFrom, hcr] at hq
        exact lift d hq
      | some p =>
        simp only [traceFrom, hcr] at hq
        by_cases hg : MIN_RANGE self scan < p.r ∧ p.r < MAX_RANGE self scan
        · rw [if_pos hg] at hq
          rcases List.mem_cons.mp hq with rfl | hq
          · exact ⟨c, List.mem_cons_self c cs, d, d1, hcr⟩
          · exact lift d1 hq
        · rw [if_neg hg] at hq
          exact lift d1 hq

/-- The body at a cell that passes both gates when the vector has no room at `ptr`: the
first store of line 242 is outside the vector. -/
theorem cell_overrun (env : Numerics α) (V : Nat) (self : GazeboRosVelodyneLaser α)
    (scan : LaserScan α) (c : Nat × Nat) (st : Cursor α)
    (h1 : c.1 + c.2 * scan.count < scan.ranges.length)
    (h2 : c.1 + c.2 * scan.count < scan.intensities.length)
    (ha : Accepts self scan c)
    (hg2 : MIN_RANGE self scan < (rayAt env self scan st.draws c).r ∧
      (rayAt env self scan st.draws c).r < MAX_RANGE self scan)
    (hroom : st.data.length < st.ptr + 4) :
    cell env V self scan c.1 c.2 st = .error .bufferOverrun := by
  unfold cell
  rw [castRay_eq env self scan st.draws c h1 h2, if_pos ha]
  have hover : ¬ (st.ptr + 0 +
      (floatBytes env ((rayAt env self scan st.draws c).r *
        env.cos (rayAt env self scan st.draws c).pAngle *
        env.cos (rayAt env self scan st.draws c).yAngle)).length ≤ st.data.length) := by
    simp only [floatBytes, List.length_cons, List.length_nil]
    omega
  simp only [writePoint, if_pos hg2, store, if_neg hover]

theorem cells_succ_succ (r v : Nat) : ∃ rest, cells (r + 1) (v + 1) = (0, 0) :: rest := by
  refine ⟨((List.range v).map fun j => (0, j + 1)) ++
    ((List.range r).map Nat.succ).flatMap
      (fun i => (List.range (v + 1)).map fun j => (i, j)), ?_⟩
  unfold cells
  rw [List.range_succ_eq_map r, List.flatMap_cons, List.range_succ_eq_map v]
  simp [List.map_map, Function.comp_def]

theorem runCells_first_fault (env : Numerics α) (V : Nat) (self : GazeboRosVelodyneLaser α)
    (scan : LaserScan α) (c : Nat × Nat) (cs : List (Nat × Nat)) (st : Cursor α) (e : Fault)
    (h : cell env V self scan c.1 c.2 st = .error e) :
    runCells env V self scan (c :: cs) st = .error e := by
  unfold runCells
  rw [List.foldlM_cons, h]
  rfl

theorem OnScan_of_loop_fault (env : Numerics α) (V : Nat) (self : GazeboRosVelodyneLaser α)
    (_msg : LaserScanStamped α) (e : Fault)
    (h : scanLoop env V self _msg.scan = .error e) : OnScan env V self _msg = .error e := by
  simp only [OnScan, h]

/-- Below the wrap of the size expression of line 202 the worst-case allocation suffices:
the loop completes, writes at most one record per cell, stays inside the vector, and the
final `resize` does not grow the vector. -/
theorem allocation_sufficient_below_wrap (env : Numerics α) (V : Nat)
    (self : GazeboRosVelodyneLaser α) (scan : LaserScan α) (hfit : GridFits scan) :
    ∃ st, scanLoop env V self scan = .ok st ∧
      st.log.length ≤ scan.count * scan.vertical_count ∧
      st.data.length = scan.count * scan.vertical_count * 32 ∧
      st.ptr = 32 * st.log.length ∧
      st.ptr ≤ st.data.length ∧
      (resize st.data (st.ptr % 4294967296)).length ≤ st.data.length := by
  obtain ⟨st, hs⟩ := scanLoop_ok env V self scan hfit
  obtain ⟨hinv, hlog⟩ := scanLoop_sound env V self scan st hs
  have halloc : allocSize scan = scan.count * scan.vertical_count * 32 := by
    unfold allocSize
    rw [Nat.mod_eq_of_lt hfit.2.2, POINT_STEP]
    ring
  have hlen := hinv.data_length
  have hfit2 := hinv.fit
  have hptr := hinv.ptr
  have hcount : st.log.length ≤ scan.count * scan.vertical_count := by omega
  have hmod : st.ptr % 4294967296 = st.ptr :=
    Nat.mod_eq_of_lt (by have := allocSize_lt scan; omega)
  refine ⟨st, hs, hcount, by omega, hptr, by omega, ?_⟩
  rw [hmod]
  simp only [resize, List.length_append, List.length_take, List.length_replicate]
  omega

/-- The body at a cell that passes the first gate and whose range, after the noise, fails
the second gate: nothing is written, only the draw is consumed. -/
theorem cell_dropped (env : Numerics α) (V : Nat) (self : GazeboRosVelodyneLaser α)
    (scan : LaserScan α) (c : Nat × Nat) (st : Cursor α)
    (h1 : c.1 + c.2 * scan.count < scan.ranges.length)
    (h2 : c.1 + c.2 * scan.count < scan.intensities.length)
    (ha : Accepts self scan c)
    (hg2 : ¬ (MIN_RANGE self scan < (rayAt env self scan st.draws c).r ∧
      (rayAt env self scan st.draws c).r < MAX_RANGE self scan)) :
    cell env V self scan c.1 c.2 st =
      .ok { st with draws := if DoubleOps.ne self.gaussian_noise_ 0 then st.draws + 1 else st.draws } := by
  unfold cell
  rw [castRay_eq env self scan st.draws c h1 h2, if_pos ha]
  simp only [writePoint, if_neg hg2]

theorem flatMap_congr_mem {β γ : Type} (f g : β → List γ) :
    ∀ (l : List β), (∀ b ∈ l, f b = g b) → l.flatMap f = l.flatMap g := by
  intro l
  induction l with
  | nil =>
    intro _
    rfl
  | cons a l ih =>
    intro h
    rw [List.flatMap_cons, List.flatMap_cons, h a (List.mem_cons_self a l),
      ih fun b hb => h b (List.mem_cons_of_mem a hb)]

/-- Where `a < b` excludes `a >= b`, a cell passes both gates on its unperturbed samples
exactly if its range is strictly inside the band and its intensity is not below the bound. -/
theorem both_gates_iff (self : GazeboRosVelodyneLaser α) (scan : LaserScan α)
    (hcmp : ∀ a b : α, a < b → ¬ a ≥ b) (c : Nat × Nat) :
    (Accepts self scan c ∧
      MIN_RANGE self scan < rangeAt scan c ∧ rangeAt scan c < MAX_RANGE self scan) ↔
    ((if self.min_range_ < scan.range_min then scan.range_min else self.min_range_) <
        rangeAt scan c ∧
      rangeAt scan c <
        (if scan.range_max < self.max_range_ then scan.range_max else self.max_range_) ∧
      ¬ intensityAt scan c < self.min_intensity_) := by
  unfold Accepts
  constructor
  · rintro ⟨ha, h1, h2⟩
    exact ⟨h1, h2, fun h => ha (Or.inr (Or.inr h))⟩
  · rintro ⟨h1, h2, h3⟩
    refine ⟨?_, h1, h2⟩
    rintro (h | h | h)
    · exact hcmp _ _ h1 h
    · exact hcmp _ _ h2 h
    · exact h3 h

/-- On binary64 `a < b` excludes `a >= b`. -/
theorem dbl_lt_excludes_ge (a b : Dbl) : a < b → ¬ a ≥ b := by
  intro h h1
  obtain ⟨-, -, h2⟩ : Dbl.lt a b := h
  obtain ⟨-, -, h3⟩ : Dbl.le b a := h1
  rcases h2 with h2 | ⟨h2, h4⟩ <;> rcases h3 with h3 | ⟨h3, h5⟩
  · omega
  · omega
  · omega
  · exact absurd h4 (not_lt.mpr h5)

/-- For a scan with `rangeCount = 0` or `verticalRangeCount = 0`, whatever the
configuration and whatever the arrays `ranges` and `intensities` hold (also nothing), the
loop of `OnScan` completes without a fault, writes no record and leaves an empty vector;
with a publisher `OnScan` publishes a cloud with `width = 0`, `row_step = 0` and empty data,
the same cloud for every content of the two arrays. -/
theorem empty_grid_cloud (env : Numerics α) (V : Nat) (self : GazeboRosVelodyneLaser α)
    (_msg : LaserScanStamped α)
    (hzero : _msg.scan.count = 0 ∨ _msg.scan.vertical_count = 0) :
    (∀ ranges intensities : List α,
      scanLoop env V self { _msg.scan with ranges := ranges, intensities := intensities } =
        .ok { data := [], ptr := 0, draws := 0, log := [] }) ∧
    ∀ p, self.pub_ = some p →
      ∃ cloud, OnScan env V self _msg = .ok (p, cloud) ∧
        cloud.width = 0 ∧ cloud.row_step = 0 ∧ cloud.data = [] ∧
        ∀ ranges intensities : List α,
          OnScan env V self
            { _msg with
              scan := { _msg.scan with ranges := ranges, intensities := intensities } } =
            .ok (p, cloud) := by
  constructor
  · intro ranges intensities
    rw [scanLoop_eq]
    simp only [cells_eq_nil hzero, runCells, List.foldlM_nil]
    have hz : (_msg.scan.vertical_count * _msg.scan.count * POINT_STEP) % 4294967296 = 0 := by
      rcases hzero with h | h <;> simp [h]
    rw [hz]
    rfl
  · intro p hpub
    have hfit : ∀ ranges intensities : List α,
        GridFits { _msg.scan with ranges := ranges, intensities := intensities } := by
      intro ranges intensities
      rcases hzero with h | h <;> simp [GridFits, h]
    have hrun : ∀ ranges intensities : List α,
        OnScan env V self
          { _msg with
            scan := { _msg.scan with ranges := ranges, intensities := intensities } } =
          .ok (p, cloudOf env V self _msg []) := by
      intro ranges intensities
      rw [OnScan_ok env V self _ p (hfit ranges intensities) hpub]
      simp only [cells_eq_nil hzero, traceFrom]
      rfl
    refine ⟨cloudOf env V self _msg [], ?_, rfl, rfl, rfl, hrun⟩
    exact hrun _msg.scan.ranges _msg.scan.intensities

/-- The binary64 operations of the two-point scenario, evaluated. -/
theorem dbl_two_point_facts :
    ¬ DoubleOps.ne (Dbl.fin 0) (0 : Dbl) ∧
    (¬ (Dbl.fin 0 ≥ Dbl.fin 5 ∨ Dbl.fin 5 ≥ Dbl.fin 10 ∨ Dbl.fin 1 < Dbl.fin 0) ∧
      Dbl.fin 0 < Dbl.fin 5 ∧ Dbl.fin 5 < Dbl.fin 10) ∧
    ((0 : Nat) : Dbl) * (flPi - Dbl.fin 0) / (((2 : Nat) : Int) - 1 : Int) + Dbl.fin 0 =
      Dbl.fin 0 ∧
    ((1 : Nat) : Dbl) * (flPi - Dbl.fin 0) / (((2 : Nat) : Int) - 1 : Int) + Dbl.fin 0 =
      flPi ∧
    (Dbl.fin 5 * Dbl.fin 1 : Dbl) = Dbl.fin 5 ∧
    (Dbl.fin 5 * Dbl.fin 0 : Dbl) = Dbl.fin 0 ∧
    (-Dbl.fin 5 * Dbl.fin 0 : Dbl) = Dbl.nzero ∧
    (Dbl.fin 5 * Dbl.fin (-1) : Dbl) = Dbl.fin (-5) ∧
    (Dbl.fin 5 * Dbl.fin (4967757600021511 / 40564819207303340847894502572032) : Dbl) =
      Dbl.fin (6209697000026889 / 10141204801825835211973625643008) ∧
    DoubleOps.ne (Dbl.fin (6209697000026889 / 10141204801825835211973625643008))
      (Dbl.fin 0) := by
  refine ⟨by decide!, by decide!, by decide!, by decide!, by decide!, by decide!, by decide!,
    by decide!, by decide!, by decide!⟩

theorem bitLengthAux_pos : ∀ (f n : Nat), 0 < n → n ≤ f → 1 ≤ bitLengthAux f n := by
  intro f n hn hf
  cases f with
  | zero => omega
  | succ f =>
    simp only [bitLengthAux]
    rw [if_neg (by omega)]
    omega

theorem bitLengthAux_lower : ∀ (f n : Nat), 0 < n → n ≤ f →
    2 ^ (bitLengthAux f n - 1) ≤ n := by
  intro f
  induction f with
  | zero =>
    intro n hn hf
    omega
  | succ f ih =>
    intro n hn hf
    simp only [bitLengthAux]
    rw [if_neg (by omega), Nat.add_sub_cancel]
    rcases Nat.eq_zero_or_pos (n / 2) with h0 | h0
    · have : bitLengthAux f (n / 2) = 0 := by
        rw [h0]
        cases f <;> simp [bitLengthAux]
      rw [this]
      simpa using hn
    · have hle : n / 2 ≤ f := by omega
      have h1 := bitLengthAux_pos f (n / 2) h0 hle
      have h2 := ih (n / 2) h0 hle
      have e : bitLengthAux f (n / 2) = (bitLengthAux f (n / 2) - 1) + 1 := by omega
      rw [e, pow_succ]
      omega

theorem bitLength_lower (n : Nat) (hn : 0 < n) : 1 ≤ bitLength n ∧ 2 ^ (bitLength n - 1) ≤ n :=
  ⟨bitLengthAux_pos n n hn le_rfl, bitLengthAux_lower n n hn le_rfl⟩

/-- The rounding of a positive integer has a non-zero significand. -/
theorem roundNearestEven_natCast_ne_zero (p : Nat) (emin : Int) (hp : 1 ≤ p) (hemin : emin ≤ 0)
    (n : Nat) (hn : 0 < n) : (roundNearestEven p emin n 1).1 ≠ 0 := by
  obtain ⟨hb1, hb2⟩ := bitLength_lower n hn
  have hone : bitLength 1 = 1 := by decide
  have hl : ((bitLength n : Int) - (bitLength 1 : Int)) = ((bitLength n - 1 : Nat) : Int) := by
    rw [hone]
    omega
  have key : ∀ s : Int, s ≤ ((bitLength n - 1 : Nat) : Int) →
      1 * 2 ^ s.toNat ≤ n * 2 ^ (-s).toNat := by
    intro s hs
    rcases le_or_lt s 0 with h0 | h0
    · have : s.toNat = 0 := by omega
      rw [this]
      have : 0 < 2 ^ (-s).toNat := Nat.pow_pos (by decide)
      nlinarith
    · have h1 : (-s).toNat = 0 := by omega
      have h2 : s.toNat ≤ bitLength n - 1 := by omega
      rw [h1]
      have := Nat.pow_le_pow_right (show 0 < 2 by decide) h2
      omega
  unfold roundNearestEven
  simp only [hl]
  have hneg : (-((bitLength n - 1 : Nat) : Int)).toNat = 0 := by omega
  have hcond : 1 * 2 ^ (((bitLength n - 1 : Nat) : Int)).toNat ≤
      n * 2 ^ (-((bitLength n - 1 : Nat) : Int)).toNat := key _ le_rfl
  rw [if_pos hcond]
  have hs : max (((bitLength n - 1 : Nat) : Int)) emin - ((p : Int) - 1) ≤
      ((bitLength n - 1 : Nat) : Int) := by
    have : max (((bitLength n - 1 : Nat) : Int)) emin = ((bitLength n - 1 : Nat) : Int) :=
      max_eq_left (by omega)
    rw [this]
    omega
  have hk := key _ hs
  generalize max (((bitLength n - 1 : Nat) : Int)) emin - ((p : Int) - 1) = s at hk ⊢
  have hD : 0 < 1 * 2 ^ s.toNat := by positivity
  have hf : 1 ≤ n * 2 ^ (-s).toNat / (1 * 2 ^ s.toNat) := (Nat.one_le_div_iff hD).mpr hk
  split_ifs <;> omega

/-- The binary64 value of a positive integer is `+∞` or a positive finite value. -/
theorem dbl_ofRat_natCast (k : Nat) (hk : 0 < k) :
    Dbl.ofRat (k : ℚ) = Dbl.pinf ∨ ∃ r : ℚ, Dbl.ofRat (k : ℚ) = Dbl.fin r ∧ r ≠ 0 := by
  have hq : ((k : ℚ)) ≠ 0 := by exact_mod_cast (Nat.pos_iff_ne_zero.mp hk)
  have hneg : ¬ ((k : ℚ) < 0) := not_lt.mpr (Nat.cast_nonneg k)
  have habs : |(k : ℚ)| = (k : ℚ) := abs_of_nonneg (Nat.cast_nonneg k)
  have hm := roundNearestEven_natCast_ne_zero 53 (-1022) (by decide) (by decide) k hk
  unfold Dbl.ofRat Dbl.round
  rw [habs, if_neg hq]
  simp only [hneg, decide_False, Rat.num_natCast, Int.natAbs_ofNat, Rat.den_natCast,
    Bool.false_eq_true, if_false, Dbl.inf]
  generalize roundNearestEven 53 (-1022) k 1 = r at hm ⊢
  split_ifs with h1
  · exact Or.inl rfl
  · refine Or.inr ⟨_, rfl, ?_⟩
    rw [Ne, Rat.mkRat_eq_zero (by positivity)]
    have : 0 < r.1 * 2 ^ r.2.toNat := Nat.mul_pos (Nat.pos_of_ne_zero hm) (by positivity)
    exact_mod_cast (Nat.pos_iff_ne_zero.mp this)

theorem dbl_zero_cases (z : Dbl) (h : z.isZero = true) : z = Dbl.nzero ∨ z = Dbl.fin 0 := by
  cases z with
  | nan => simp [Dbl.isZero] at h
  | ninf => simp [Dbl.isZero] at h
  | pinf => simp [Dbl.isZero] at h
  | nzero => exact Or.inl rfl
  | fin q =>
    simp only [Dbl.isZero, decide_eq_true_eq] at h
    exact Or.inr (by rw [h])

/-- On binary64, `0 * d / k + a` is equal to `a` (as `==` compares, and as a value unless
`a` is the negative zero) when `d` is finite, `k` is a positive integer and `a` is a binary64
value other than a NaN. -/
theorem dbl_interp_zero (d a : Dbl) (k : Nat) (hk : 0 < k) (hd : d.isInf = false)
    (hd2 : d ≠ Dbl.nan) (ha : a ≠ Dbl.nan) (hval : ∀ q, a = Dbl.fin q → Dbl.ofRat q = Dbl.fin q) :
    ¬ Dbl.ne (Dbl.add (Dbl.div (Dbl.mul (Dbl.ofRat ((0 : Nat) : ℚ)) d) (Dbl.ofRat (k : ℚ))) a) a ∧
    (a ≠ Dbl.nzero →
      Dbl.add (Dbl.div (Dbl.mul (Dbl.ofRat ((0 : Nat) : ℚ)) d) (Dbl.ofRat (k : ℚ))) a = a) := by
  have h0 : Dbl.ofRat ((0 : Nat) : ℚ) = Dbl.fin 0 := by
    simp [Dbl.ofRat, Dbl.round, Dbl.zero]
  have hmul : (Dbl.mul (Dbl.fin 0) d).isZero = true := by
    cases d with
    | nan => exact absurd rfl hd2
    | ninf => simp [Dbl.isInf] at hd
    | pinf => simp [Dbl.isInf] at hd
    | nzero => simp [Dbl.mul, Dbl.isInf, Dbl.isZero, Dbl.isNeg, Dbl.val, Dbl.round, Dbl.zero]
    | fin q =>
      by_cases hq : q < 0 <;>
        simp [Dbl.mul, Dbl.isInf, Dbl.isZero, Dbl.isNeg, Dbl.val, Dbl.round, Dbl.zero, hq]
  have hdiv : ∀ z : Dbl, z.isZero = true → (Dbl.div z (Dbl.ofRat (k : ℚ))).isZero = true := by
    intro z hz
    rcases dbl_ofRat_natCast k hk with h | ⟨r, h, hr⟩
    · rw [h]
      rcases dbl_zero_cases z hz with rfl | rfl <;>
        simp [Dbl.div, Dbl.zero, Dbl.isInf, Dbl.isZero, Dbl.isNeg]
    · rw [h]
      rcases dbl_zero_cases z hz with rfl | rfl <;> by_cases hr0 : r < 0 <;>
        simp [Dbl.div, Dbl.zero, Dbl.isInf, Dbl.isZero, Dbl.isNeg, Dbl.val, Dbl.round, hr, hr0]
  have hadd : ∀ z : Dbl, z.isZero = true →
      ¬ Dbl.ne (Dbl.add z a) a ∧ (a ≠ Dbl.nzero → Dbl.add z a = a) := by
    intro z hz
    cases a with
    | nan => exact absurd rfl ha
    | ninf =>
      rcases dbl_zero_cases z hz with rfl | rfl <;> simp [Dbl.add, Dbl.ne, Dbl.cls, Dbl.val]
    | pinf =>
      rcases dbl_zero_cases z hz with rfl | rfl <;> simp [Dbl.add, Dbl.ne, Dbl.cls, Dbl.val]
    | nzero =>
      rcases dbl_zero_cases z hz with rfl | rfl <;>
        simp [Dbl.add, Dbl.zero, Dbl.ne, Dbl.cls, Dbl.val, Dbl.isZero, Dbl.isNeg]
    | fin q =>
      have hv := hval q rfl
      by_cases hq : q = 0
      · subst hq
        rcases dbl_zero_cases z hz with rfl | rfl <;>
          simp [Dbl.add, Dbl.zero, Dbl.ne, Dbl.cls, Dbl.val, Dbl.isZero, Dbl.isNeg]
      · have e : Dbl.add z (Dbl.fin q) = Dbl.fin q := by
          rcases dbl_zero_cases z hz with rfl | rfl <;>
            simp [Dbl.add, Dbl.zero, Dbl.isZero, Dbl.isNeg, Dbl.val, hq, hv]
        rw [e]
        simp [Dbl.ne]
  rw [h0]
  exact hadd _ (hdiv _ hmul)

theorem dbl_sub_finite (x y : Dbl) (h : (Dbl.sub x y).isFinite = true) :
    (Dbl.sub x y).isInf = false ∧ Dbl.sub x y ≠ Dbl.nan ∧ y ≠ Dbl.nan := by
  refine ⟨?_, ?_, ?_⟩
  · cases hs : Dbl.sub x y <;> simp [hs, Dbl.isFinite, Dbl.isInf] at h ⊢
  · intro hs
    simp [hs, Dbl.isFinite] at h
  · rintro rfl
    have : Dbl.sub x Dbl.nan = Dbl.nan := by cases x <;> rfl
    simp [this, Dbl.isFinite] at h

/-- On binary64, if `angle_max - angle_min` is finite and `angle_min` is a binary64 value,
column 0 gets an azimuth equal to `angle_min` (as `==` compares; the same value unless
`angle_min` is the negative zero). -/
theorem dbl_first_column (scan : LaserScan Dbl) (h : 1 < scan.count)
    (hd : (scan.angle_max - scan.angle_min).isFinite = true) (hv : scan.angle_min.IsValue) :
    ¬ DoubleOps.ne (yAngleOf scan 0) scan.angle_min ∧
    (scan.angle_min ≠ Dbl.nzero → yAngleOf scan 0 = scan.angle_min) := by
  obtain ⟨h1, h2, h3⟩ := dbl_sub_finite scan.angle_max scan.angle_min hd
  have hk : (((scan.count : Int) - 1 : Int) : ℚ) = ((scan.count - 1 : Nat) : ℚ) := by
    have : ((scan.count : Int) - 1 : Int) = ((scan.count - 1 : Nat) : Int) := by omega
    rw [this, Int.cast_natCast]
  have e : yAngleOf scan 0 =
      Dbl.add (Dbl.div (Dbl.mul (Dbl.ofRat ((0 : Nat) : ℚ))
        (Dbl.sub scan.angle_max scan.angle_min)) (Dbl.ofRat ((scan.count - 1 : Nat) : ℚ)))
        scan.angle_min := by
    unfold yAngleOf
    rw [if_pos h, ← hk]
    rfl
  rw [e]
  exact dbl_interp_zero _ _ (scan.count - 1) (by omega) h1 h2 h3 hv

/-- On binary64, if `vertical_angle_max - vertical_angle_min` is finite and
`vertical_angle_min` is a binary64 value, row 0 gets an elevation equal to
`vertical_angle_min` (as `==` compares; the same value unless it is the negative zero). -/
theorem dbl_first_row (scan : LaserScan Dbl) (h : 1 < scan.vertical_count)
    (hd : (scan.vertical_angle_max - scan.vertical_angle_min).isFinite = true)
    (hv : scan.vertical_angle_min.IsValue) :
    ¬ DoubleOps.ne (pAngleOf scan 0) scan.vertical_angle_min ∧
    (scan.vertical_angle_min ≠ Dbl.nzero → pAngleOf scan 0 = scan.vertical_angle_min) := by
  obtain ⟨h1, h2, h3⟩ := dbl_sub_finite scan.vertical_angle_max scan.vertical_angle_min hd
  have hk : (((scan.vertical_count : Int) - 1 : Int) : ℚ) =
      ((scan.vertical_count - 1 : Nat) : ℚ) := by
    have : ((scan.vertical_count : Int) - 1 : Int) = ((scan.vertical_count - 1 : Nat) : Int) := by
      omega
    rw [this, Int.cast_natCast]
  have e : pAngleOf scan 0 =
      Dbl.add (Dbl.div (Dbl.mul (Dbl.ofRat ((0 : Nat) : ℚ))
        (Dbl.sub scan.vertical_angle_max scan.vertical_angle_min))
        (Dbl.ofRat ((scan.vertical_count - 1 : Nat) : ℚ))) scan.vertical_angle_min := by
    unfold pAngleOf
    rw [if_pos h, ← hk]
    rfl
  rw [e]
  exact dbl_interp_zero _ _ (scan.vertical_count - 1) (by omega) h1 h2 h3 hv

end General

/-! Lemmas of exact arithmetic -/

section Exact

variable {α : Type} [LinearOrderedField α]

/-- In exact arithmetic `a != b` is the negation of equality. -/
theorem ne_iff (a b : α) : DoubleOps.ne a b ↔ a ≠ b := Iff.rfl

/-- In exact arithmetic the first gate of line 215 rejects exactly the cells outside the open range band or
below the intensity bound. -/
theorem gate_iff {m M k r x : α} : ¬ (m ≥ r ∨ r ≥ M ∨ x < k) ↔ m < r ∧ r < M ∧ k ≤ x := by
  simp only [ge_iff_le, not_or, not_le, not_lt]

theorem std_max_eq (a b : α) : std_max a b = max a b := by
  unfold std_max
  split_ifs with h
  · exact (max_eq_right (le_of_lt h)).symm
  · exact (max_eq_left (not_lt.mp h)).symm

theorem std_min_eq (a b : α) : std_min a b = min a b := by
  unfold std_min
  split_ifs with h
  · exact (min_eq_right (le_of_lt h)).symm
  · exact (min_eq_left (not_lt.mp h)).symm

theorem accepts_iff (self : GazeboRosVelodyneLaser α) (scan : LaserScan α) (c : Nat × Nat) :
    Accepts self scan c ↔
      (max self.min_range_ scan.range_min < rangeAt scan c ∧
        rangeAt scan c < min self.max_range_ scan.range_max ∧
        self.min_intensity_ ≤ intensityAt scan c) := by
  unfold Accepts
  rw [gate_iff]
  simp only [MIN_RANGE, MAX_RANGE, MIN_INTENSITY, std_max_eq, std_min_eq]

theorem filter_accepts (self : GazeboRosVelodyneLaser α) (scan : LaserScan α)
    (cs : List (Nat × Nat)) :
    (cs.filter fun c => decide (Accepts self scan c)) =
      cs.filter fun c => decide
        (max self.min_range_ scan.range_min < rangeAt scan c ∧
          rangeAt scan c < min self.max_range_ scan.range_max ∧
          self.min_intensity_ ≤ intensityAt scan c) := by
  refine List.filter_congr fun c _ => ?_
  exact decide_eq_decide.mpr (accepts_iff self scan c)

/-- Without noise the trace is the list of accepted cells, each with its unperturbed
samples. -/
theorem traceFrom_noiseless (env : Numerics α) (self : GazeboRosVelodyneLaser α)
    (scan : LaserScan α) (hnoise : self.gaussian_noise_ = 0) (cs : List (Nat × Nat)) :
    ∀ (d : Nat), (∀ c ∈ cs, c.1 + c.2 * scan.count < scan.ranges.length ∧
        c.1 + c.2 * scan.count < scan.intensities.length) →
      traceFrom env self scan cs d =
        (cs.filter fun c => decide (Accepts self scan c)).map (rayAt env self scan 0) := by
  intro d hb
  rw [traceFrom_quiet env self scan (fun h => (ne_iff _ _).mp h hnoise) cs d hb]
  congr 1
  refine List.filter_congr fun c _ => ?_
  refine decide_eq_decide.mpr ⟨fun h => h.1, fun h => ⟨h, ?_⟩⟩
  have h3 := gate_iff.mp h
  exact ⟨h3.1, h3.2.1⟩

theorem tallMsg_fits : GridFits tallMsg.scan := by
  refine ⟨?_, ?_, ?_⟩ <;> simp only [tallMsg, List.length_replicate, POINT_STEP] <;> decide

theorem tallMsg_accepts (c : Nat × Nat) (hc : c ∈ cells 1 65537) :
    Accepts (Load demoEnv demoSdf) tallMsg.scan c := by
  obtain ⟨h1, h2⟩ := mem_cells.mp hc
  have hidx : c.1 + c.2 * 1 < 65537 := by omega
  have hr : rangeAt tallMsg.scan c = 5 := by
    simp only [rangeAt, tallMsg, List.getD_eq_getElem?_getD,
      List.getElem?_replicate_of_lt hidx, Option.getD_some]
  have hi : intensityAt tallMsg.scan c = 1 := by
    simp only [intensityAt, tallMsg, List.getD_eq_getElem?_getD,
      List.getElem?_replicate_of_lt hidx, Option.getD_some]
  unfold Accepts
  rw [hr, hi]
  decide!

theorem tallMsg_log :
    traceFrom demoEnv (Load demoEnv demoSdf) tallMsg.scan (cells 1 65537) 0 =
      (List.range 65537).map fun j => rayAt demoEnv (Load demoEnv demoSdf) tallMsg.scan 0 (0, j) := by
  have hb : ∀ c ∈ cells 1 65537,
      c.1 + c.2 * tallMsg.scan.count < tallMsg.scan.ranges.length ∧
        c.1 + c.2 * tallMsg.scan.count < tallMsg.scan.intensities.length := by
    intro c hc
    obtain ⟨h1, h2⟩ := mem_cells.mp hc
    simp only [tallMsg, List.length_replicate]
    omega
  rw [traceFrom_noiseless demoEnv (Load demoEnv demoSdf) tallMsg.scan (by decide) _ 0 hb,
    List.filter_eq_self.mpr (fun c hc => by simpa using tallMsg_accepts c hc), cells_one,
    List.map_map]
  rfl

theorem wideMsg_size :
    ((wideMsg 134217728).scan.vertical_count * (wideMsg 134217728).scan.count * POINT_STEP) %
      4294967296 = 0 := by
  decide

theorem wideMsg_alloc : allocSize (wideMsg 134217728).scan = 0 := by
  decide

theorem wideMsg_first_cell (st : Cursor ℚ) (hd : st.data = []) (hp : st.ptr = 0) :
    cell demoEnv 7 (Load demoEnv demoSdf) (wideMsg 134217728).scan 0 0 st = .error .bufferOverrun := by
  have hidx : 0 + 0 * 134217728 < 134217728 := by decide
  have h1 : (0, 0).1 + (0, 0).2 * (wideMsg 134217728).scan.count < (wideMsg 134217728).scan.ranges.length := by
    simp only [wideMsg, List.length_replicate]
    decide
  have h2 : (0, 0).1 + (0, 0).2 * (wideMsg 134217728).scan.count < (wideMsg 134217728).scan.intensities.length := by
    simp only [wideMsg, List.length_replicate]
    decide
  have hr : rangeAt (wideMsg 134217728).scan (0, 0) = 5 := by
    simp only [rangeAt, wideMsg, List.getD_eq_getElem?_getD,
      List.getElem?_replicate_of_lt hidx, Option.getD_some]
  have hi : intensityAt (wideMsg 134217728).scan (0, 0) = 1 := by
    simp only [intensityAt, wideMsg, List.getD_eq_getElem?_getD,
      List.getElem?_replicate_of_lt hidx, Option.getD_some]
  have ha : Accepts (Load demoEnv demoSdf) (wideMsg 134217728).scan (0, 0) := by
    unfold Accepts
    rw [hr, hi]
    decide!
  have hq : (rayAt demoEnv (Load demoEnv demoSdf) (wideMsg 134217728).scan st.draws (0, 0)).r = 5 := by
    simp only [rayAt, hr]
    rfl
  refine cell_overrun demoEnv 7 (Load demoEnv demoSdf) (wideMsg 134217728).scan (0, 0) st h1 h2 ha ?_ ?_
  · rw [hq]
    decide!
  · rw [hd, hp]
    decide

theorem wideMsg_loop_fault :
    scanLoop demoEnv 7 (Load demoEnv demoSdf) (wideMsg 134217728).scan =
      .error .bufferOverrun := by
  rw [scanLoop_eq]
  have hcount : (wideMsg 134217728).scan.count = 134217727 + 1 := by decide
  have hrows : (wideMsg 134217728).scan.vertical_count = 0 + 1 := by decide
  obtain ⟨rest, hrest⟩ := cells_succ_succ 134217727 0
  rw [hcount, hrows, hrest, ← hcount, ← hrows, wideMsg_size]
  apply runCells_first_fault
  exact wideMsg_first_cell { data := List.replicate 0 0, ptr := 0, draws := 0, log := [] }
    rfl rfl

theorem yAngleOf_eq (scan : LaserScan α) (i : Nat) (h : 1 < scan.count) :
    yAngleOf scan i =
      (i : α) * (scan.angle_max - scan.angle_min) / ((scan.count : α) - 1) +
        scan.angle_min := by
  simp [yAngleOf, h]

theorem pAngleOf_eq (scan : LaserScan α) (j : Nat) (h : 1 < scan.vertical_count) :
    pAngleOf scan j =
      (j : α) * (scan.vertical_angle_max - scan.vertical_angle_min) /
        ((scan.vertical_count : α) - 1) + scan.vertical_angle_min := by
  simp [pAngleOf, h]

/-- The interpolation `i * d / m + a` for `m > 0`: the ends and, for `d ≥ 0`, the bounds
and the monotonicity. -/
theorem interp_facts (a d m : α) (hm : 0 < m) :
    (0 : α) * d / m + a = a ∧ m * d / m + a = a + d ∧
    (0 ≤ d → ∀ x y : α, 0 ≤ x → x ≤ y → y ≤ m →
      a ≤ x * d / m + a ∧ x * d / m + a ≤ y * d / m + a ∧ y * d / m + a ≤ a + d) := by
  refine ⟨by simp, ?_, ?_⟩
  · rw [mul_div_assoc, mul_div_cancel₀ _ (ne_of_gt hm), add_comm]
  · intro hd x y hx hxy hy
    have h1 : 0 ≤ x * d / m := div_nonneg (mul_nonneg hx hd) (le_of_lt hm)
    have h2 : x * d / m ≤ y * d / m :=
      div_le_div_of_nonneg_right (mul_le_mul_of_nonneg_right hxy hd) (le_of_lt hm)
    have h3 : y * d / m ≤ d := by
      rw [div_le_iff₀ hm, mul_comm d m]
      exact mul_le_mul_of_nonneg_right hy hd
    exact ⟨by linarith, by linarith, by linarith⟩

theorem sq_sum_of_unit (r cp sp cy sy : α) (hp : cp ^ 2 + sp ^ 2 = 1)
    (hy : cy ^ 2 + sy ^ 2 = 1) :
    (r * cp * cy) ^ 2 + (r * cp * sy) ^ 2 + (r * sp) ^ 2 = r ^ 2 ∧
    (r * cp * cy) ^ 2 + (r * cp * sy) ^ 2 + (-r * sp) ^ 2 = r ^ 2 := by
  have e : (r * cp * cy) ^ 2 + (r * cp * sy) ^ 2 + (r * sp) ^ 2 =
      r ^ 2 * (cp ^ 2 * (cy ^ 2 + sy ^ 2) + sp ^ 2) := by ring
  have e2 : (-r * sp) ^ 2 = (r * sp) ^ 2 := by ring
  rw [e2, e, hy, mul_one, hp, mul_one]
  exact ⟨rfl, rfl⟩

theorem circleEnv_unit (x : ℚ) : circleEnv.cos x ^ 2 + circleEnv.sin x ^ 2 = 1 := by
  have h : (1 : ℚ) + x * x ≠ 0 := ne_of_gt (by nlinarith [mul_self_nonneg x])
  simp only [circleEnv]
  field_simp
  ring

/-! Claims -/

/-- C1, counterexample: on binary64, for the scan of two cells with ranges 5 and 5 and
intensities 1 and NaN, band `(0, 10)`, intensity bound `0.5` and no noise, `OnScan`
publishes two records, but only the cell `(0, 0)` satisfies `effectiveMinRange < r`,
`r < effectiveMaxRange` and `intensity >= minIntensity`: the width is not the number of
these cells. The cell `(1, 0)` is not skipped by line 215 because `NaN < 0.5` is false. -/
theorem C1_nan_intensity_counted :
    (Load ieeeEnv ieeeSdf).gaussian_noise_ = Dbl.fin 0 ∧
    nanMsg.scan.count * nanMsg.scan.vertical_count ≤ nanMsg.scan.ranges.length ∧
    nanMsg.scan.count * nanMsg.scan.vertical_count ≤ nanMsg.scan.intensities.length ∧
    OnScan ieeeEnv 7 (Load ieeeEnv ieeeSdf) nanMsg = .ok (demoPub, nanCloud) ∧
    nanCloud.width = 2 ∧
    ((cells nanMsg.scan.count nanMsg.scan.vertical_count).filter fun c => decide
      (std_max (Load ieeeEnv ieeeSdf).min_range_ nanMsg.scan.range_min < rangeAt nanMsg.scan c ∧
        rangeAt nanMsg.scan c < std_min (Load ieeeEnv ieeeSdf).max_range_ nanMsg.scan.range_max ∧
        intensityAt nanMsg.scan c ≥ (Load ieeeEnv ieeeSdf).min_intensity_)) = [(0, 0)] ∧
    intensityAt nanMsg.scan (1, 0) = Dbl.nan ∧
    ¬ intensityAt nanMsg.scan (1, 0) < (Load ieeeEnv ieeeSdf).min_intensity_ ∧
    ¬ intensityAt nanMsg.scan (1, 0) ≥ (Load ieeeEnv ieeeSdf).min_intensity_ := by
  refine ⟨rfl, by decide, by decide, by decide!, by decide, by decide!, by decide!,
    by decide!, by decide!⟩

/-- C1 (amended): for every arithmetic in which `a < b` excludes `a >= b` (as in IEEE 754
and in exact arithmetic), with the noise test of line 220 false and both arrays covering the
grid, every cloud that `OnScan` publishes holds, in loop order (azimuth index outer,
elevation index inner), one 32-byte record for each cell with `std::max(min_range,
range_min) < r`, `r < std::min(max_range, range_max)` and not `intensity < min_intensity`,
and nothing else; the record holds `r cos p cos y`, `r cos p sin y`, `r sin p` (`-r sin p`
for `GAZEBO_MAJOR_VERSION ≤ 2`), the intensity, and the ring `j mod 65536`
(`(verticalRangeCount - 1 - j) mod 65536` for `GAZEBO_MAJOR_VERSION ≤ 2`); the width is the
number of these cells. `OnScan` does publish when the allocation size of line 202 is below
`2 ^ 32` and a publisher exists. -/
theorem C1_noiseless_records {α : Type} [DoubleOps α] (env : Numerics α) (V : Nat)
    (self : GazeboRosVelodyneLaser α) (_msg : LaserScanStamped α)
    (hcmp : ∀ a b : α, a < b → ¬ a ≥ b)
    (hnoise : ¬ DoubleOps.ne self.gaussian_noise_ 0)
    (hranges : _msg.scan.count * _msg.scan.vertical_count ≤ _msg.scan.ranges.length)
    (hintens : _msg.scan.count * _msg.scan.vertical_count ≤ _msg.scan.intensities.length) :
    (∀ c ∈ cells _msg.scan.count _msg.scan.vertical_count,
      _msg.scan.ranges[c.1 + c.2 * _msg.scan.count]? = some (rangeAt _msg.scan c) ∧
      _msg.scan.intensities[c.1 + c.2 * _msg.scan.count]? = some (intensityAt _msg.scan c)) ∧
    (∀ p, _msg.scan.vertical_count * _msg.scan.count * POINT_STEP < 4294967296 →
      self.pub_ = some p → ∃ cloud, OnScan env V self _msg = .ok (p, cloud)) ∧
    ∀ p cloud, OnScan env V self _msg = .ok (p, cloud) →
      cloud.data =
        ((cells _msg.scan.count _msg.scan.vertical_count).filter fun c => decide
          ((if self.min_range_ < _msg.scan.range_min then _msg.scan.range_min
              else self.min_range_) < rangeAt _msg.scan c ∧
            rangeAt _msg.scan c <
              (if _msg.scan.range_max < self.max_range_ then _msg.scan.range_max
                else self.max_range_) ∧
            ¬ intensityAt _msg.scan c < self.min_intensity_)).flatMap (fun c =>
          floatBytes env (rangeAt _msg.scan c * env.cos (pAngleOf _msg.scan c.2) *
            env.cos (yAngleOf _msg.scan c.1)) ++
          floatBytes env (rangeAt _msg.scan c * env.cos (pAngleOf _msg.scan c.2) *
            env.sin (yAngleOf _msg.scan c.1)) ++
          floatBytes env (if V > 2 then rangeAt _msg.scan c * env.sin (pAngleOf _msg.scan c.2)
            else -rangeAt _msg.scan c * env.sin (pAngleOf _msg.scan c.2)) ++
          [0, 0, 0, 0] ++
          floatBytes env (intensityAt _msg.scan c) ++
          u16Bytes (if V > 2 then c.2 % 65536
            else (_msg.scan.vertical_count - 1 - c.2) % 65536) ++
          [0, 0, 0, 0, 0, 0, 0, 0, 0, 0]) ∧
      cloud.width =
        ((cells _msg.scan.count _msg.scan.vertical_count).filter fun c => decide
          ((if self.min_range_ < _msg.scan.range_min then _msg.scan.range_min
              else self.min_range_) < rangeAt _msg.scan c ∧
            rangeAt _msg.scan c <
              (if _msg.scan.range_max < self.max_range_ then _msg.scan.range_max
                else self.max_range_) ∧
            ¬ intensityAt _msg.scan c < self.min_intensity_)).length := by
  have hcov := samples_of_cover _msg.scan hranges hintens
  refine ⟨fun c hc => (hcov c hc).2,
    fun p hsize hpub => ⟨_, OnScan_ok env V self _msg p ⟨hranges, hintens, hsize⟩ hpub⟩, ?_⟩
  intro p cloud h
  obtain ⟨st, hs, -, hc⟩ := OnScan_sound env V self _msg p cloud h
  have hlog := (scanLoop_sound env V self _msg.scan st hs).2
  have hfilter : ((cells _msg.scan.count _msg.scan.vertical_count).filter fun c => decide
      (Accepts self _msg.scan c ∧ MIN_RANGE self _msg.scan < rangeAt _msg.scan c ∧
        rangeAt _msg.scan c < MAX_RANGE self _msg.scan)) =
      (cells _msg.scan.count _msg.scan.vertical_count).filter fun c => decide
        ((if self.min_range_ < _msg.scan.range_min then _msg.scan.range_min
            else self.min_range_) < rangeAt _msg.scan c ∧
          rangeAt _msg.scan c <
            (if _msg.scan.range_max < self.max_range_ then _msg.scan.range_max
              else self.max_range_) ∧
          ¬ intensityAt _msg.scan c < self.min_intensity_) :=
    List.filter_congr fun c _ => decide_eq_decide.mpr (both_gates_iff self _msg.scan hcmp c)
  rw [traceFrom_quiet env self _msg.scan hnoise _ 0 (fun c hc => (hcov c hc).1),
    hfilter] at hlog
  subst hc
  simp only [cloudOf]
  rw [hlog, List.length_map, List.flatMap_map]
  refine ⟨flatMap_congr_mem _ _ _ fun c hc => ?_, rfl⟩
  have hj := (mem_cells.mp (List.mem_filter.mp hc).1).2
  simp [recordBytes, rayAt, hnoise, zOf, ringOf_eq V _ _ hj]

/-- Witness of the amended C1 on binary64: both cells of the sample scan pass the gates,
the second with a NaN intensity. -/
theorem C1_noiseless_records_witness :
    OnScan ieeeEnv 7 (Load ieeeEnv ieeeSdf) nanMsg = .ok (demoPub, nanCloud) ∧
    nanCloud.width = 2 ∧
    ∃ cloud, OnScan ieeeEnv 7 (Load ieeeEnv ieeeSdf) nanMsg = .ok (demoPub, cloud) := by
  have h := C1_noiseless_records ieeeEnv 7 (Load ieeeEnv ieeeSdf) nanMsg dbl_lt_excludes_ge
    (by decide!) (by decide) (by decide)
  exact ⟨by decide!, ((h.2.2 demoPub nanCloud (by decide!)).2).trans (by decide!),
    h.2.1 demoPub (by decide) (by decide)⟩

/-- C2, counterexample: on binary64, for the scan of two cells with ranges 5 and 5 and
intensities 1 and NaN, band `(0, 10)` and intensity bound `0.5`, `OnScan` publishes two
records; the second was computed from the intensity NaN, for which
`intensity >= minIntensity` is false. -/
theorem C2_nan_intensity_emitted :
    OnScan ieeeEnv 7 (Load ieeeEnv ieeeSdf) nanMsg = .ok (demoPub, nanCloud) ∧
    ∃ st, scanLoop ieeeEnv 7 (Load ieeeEnv ieeeSdf) nanMsg.scan = .ok st ∧
      nanCloud.data = st.log.flatMap (recordBytes ieeeEnv 7 nanMsg.scan.vertical_count) ∧
      st.log.map (fun q => (q.i, q.j)) = [(0, 0), (1, 0)] ∧
      st.log.map (fun q => q.r) = [Dbl.fin 5, Dbl.fin 5] ∧
      st.log.map (fun q => q.intensity) = [Dbl.fin 1, Dbl.nan] ∧
      ∃ q ∈ st.log, ¬ q.intensity ≥ (Load ieeeEnv ieeeSdf).min_intensity_ := by
  have ho : OnScan ieeeEnv 7 (Load ieeeEnv ieeeSdf) nanMsg = .ok (demoPub, nanCloud) := by
    decide!
  obtain ⟨st, hs, -, hc⟩ := OnScan_sound ieeeEnv 7 (Load ieeeEnv ieeeSdf) nanMsg demoPub
    nanCloud ho
  have hlog := (scanLoop_sound ieeeEnv 7 (Load ieeeEnv ieeeSdf) nanMsg.scan st hs).2
  have h1 : (traceFrom ieeeEnv (Load ieeeEnv ieeeSdf) nanMsg.scan
      (cells nanMsg.scan.count nanMsg.scan.vertical_count) 0).map (fun q => (q.i, q.j)) =
      [(0, 0), (1, 0)] := by decide!
  have h2 : (traceFrom ieeeEnv (Load ieeeEnv ieeeSdf) nanMsg.scan
      (cells nanMsg.scan.count nanMsg.scan.vertical_count) 0).map (fun q => q.r) =
      [Dbl.fin 5, Dbl.fin 5] := by decide!
  have h3 : (traceFrom ieeeEnv (Load ieeeEnv ieeeSdf) nanMsg.scan
      (cells nanMsg.scan.count nanMsg.scan.vertical_count) 0).map (fun q => q.intensity) =
      [Dbl.fin 1, Dbl.nan] := by decide!
  rw [← hlog] at h1 h2 h3
  refine ⟨ho, st, hs, by rw [hc]; rfl, h1, h2, h3, ?_⟩
  have hmem : Dbl.nan ∈ st.log.map (fun q => q.intensity) := by
    rw [h3]
    exact List.mem_cons_of_mem _ (List.mem_singleton_self _)
  obtain ⟨q, hq, hqi⟩ := List.mem_map.mp hmem
  refine ⟨q, hq, ?_⟩
  rw [hqi]
  decide!

/-- C2 (amended): for every arithmetic, whenever `OnScan` publishes a cloud (it does on every
scan inside the caller contract when a publisher exists), noise enabled or not and whatever
`gaussianKernel` returns, every record of the cloud was computed from a range `r` (the
cell's sample, plus one noise draw when the noise test of line 220 is true) with
`std::max(min_range, range_min) < r` and `r < std::min(max_range, range_max)`, and from the
cell's intensity, for which `intensity < min_intensity` is false; it is
`>= min_intensity` whenever the two are comparable, that is, unless one of them is a NaN. -/
theorem C2_emitted_within_band {α : Type} [DoubleOps α] (env : Numerics α) (V : Nat)
    (self : GazeboRosVelodyneLaser α) (_msg : LaserScanStamped α) :
    (∀ p, GridFits _msg.scan → self.pub_ = some p →
      ∃ cloud, OnScan env V self _msg = .ok (p, cloud)) ∧
    ∀ p cloud, OnScan env V self _msg = .ok (p, cloud) →
      ∃ st, scanLoop env V self _msg.scan = .ok st ∧
        cloud.data = st.log.flatMap (recordBytes env V _msg.scan.vertical_count) ∧
        ∀ q ∈ st.log,
          (if self.min_range_ < _msg.scan.range_min then _msg.scan.range_min
            else self.min_range_) < q.r ∧
          q.r < (if _msg.scan.range_max < self.max_range_ then _msg.scan.range_max
            else self.max_range_) ∧
          ¬ q.intensity < self.min_intensity_ ∧
          (q.intensity < self.min_intensity_ ∨ q.intensity ≥ self.min_intensity_ →
            q.intensity ≥ self.min_intensity_) ∧
          q.intensity = intensityAt _msg.scan (q.i, q.j) ∧
          ∃ k, q.r = if DoubleOps.ne self.gaussian_noise_ 0 then
              rangeAt _msg.scan (q.i, q.j) + env.gaussianKernel k 0 self.gaussian_noise_
            else rangeAt _msg.scan (q.i, q.j) := by
  refine ⟨fun p hfit hpub => ⟨_, OnScan_ok env V self _msg p hfit hpub⟩, ?_⟩
  intro p cloud h
  obtain ⟨st, hs, -, hc⟩ := OnScan_sound env V self _msg p cloud h
  refine ⟨st, hs, by rw [hc]; rfl, ?_⟩
  intro q hq
  rw [(scanLoop_sound env V self _msg.scan st hs).2] at hq
  obtain ⟨c, -, k, rfl, ha, h1, h2⟩ := traceFrom_mem env self _msg.scan _ 0 q hq
  have hint : ¬ intensityAt _msg.scan c < self.min_intensity_ :=
    fun h => ha (Or.inr (Or.inr h))
  exact ⟨h1, h2, hint, fun h => h.resolve_left hint, rfl, k, rfl⟩

/-- Witness of the amended C2 on the sample scan with noise. -/
theorem C2_emitted_within_band_witness :
    OnScan demoEnv 7 (Load demoEnv demoNoisySdf) demoMsg = .ok (demoPub, demoNoisyCloud) ∧
    ∃ st, scanLoop demoEnv 7 (Load demoEnv demoNoisySdf) demoMsg.scan = .ok st ∧
      ∀ q ∈ st.log, 0 < q.r ∧ q.r < 10 ∧ ¬ q.intensity < 1 / 2 := by
  refine ⟨by decide!, ?_⟩
  obtain ⟨st, hs, -, hq⟩ := (C2_emitted_within_band demoEnv 7 (Load demoEnv demoNoisySdf)
    demoMsg).2 demoPub demoNoisyCloud (by decide!)
  have hlo : (if (Load demoEnv demoNoisySdf).min_range_ < demoMsg.scan.range_min then
      demoMsg.scan.range_min else (Load demoEnv demoNoisySdf).min_range_) = 0 := by decide!
  have hhi : (if demoMsg.scan.range_max < (Load demoEnv demoNoisySdf).max_range_ then
      demoMsg.scan.range_max else (Load demoEnv demoNoisySdf).max_range_) = 10 := by decide!
  refine ⟨st, hs, fun q hmem => ?_⟩
  obtain ⟨h1, h2, h3, -⟩ := hq q hmem
  rw [hlo] at h1
  rw [hhi] at h2
  exact ⟨h1, h2, h3⟩

/-- C3: whenever `OnScan` publishes a cloud, noise enabled or not and whatever
`gaussianKernel` returns, the cells of the written records are, in order and each at most
once, cells whose unperturbed range lies strictly inside the band and whose intensity is at
least `min_intensity`; a cell with `r ≤ max min_range range_min`, with
`r ≥ min max_range range_max` or with `intensity < min_intensity` has no record. -/
theorem C3_rejected_cell_no_record (env : Numerics α) (V : Nat)
    (self : GazeboRosVelodyneLaser α) (_msg : LaserScanStamped α) (p : Publisher)
    (cloud : PointCloud2) (h : OnScan env V self _msg = .ok (p, cloud)) :
    ∃ st, scanLoop env V self _msg.scan = .ok st ∧
      cloud.data = st.log.flatMap (recordBytes env V _msg.scan.vertical_count) ∧
      cloud.width = st.log.length ∧
      List.Sublist (st.log.map fun q => (q.i, q.j))
        ((cells _msg.scan.count _msg.scan.vertical_count).filter fun c => decide
          (max self.min_range_ _msg.scan.range_min < rangeAt _msg.scan c ∧
            rangeAt _msg.scan c < min self.max_range_ _msg.scan.range_max ∧
            self.min_intensity_ ≤ intensityAt _msg.scan c)) ∧
      ∀ c : Nat × Nat,
        (rangeAt _msg.scan c ≤ max self.min_range_ _msg.scan.range_min ∨
          min self.max_range_ _msg.scan.range_max ≤ rangeAt _msg.scan c ∨
          intensityAt _msg.scan c < self.min_intensity_) →
        ∀ q ∈ st.log, (q.i, q.j) ≠ c := by
  obtain ⟨st, hs, -, hc⟩ := OnScan_sound env V self _msg p cloud h
  have hlog := (scanLoop_sound env V self _msg.scan st hs).2
  have hsub := traceFrom_sublist env self _msg.scan
    (cells _msg.scan.count _msg.scan.vertical_count) 0
  rw [← hlog, filter_accepts] at hsub
  refine ⟨st, hs, by rw [hc]; rfl, by rw [hc]; rfl, hsub, ?_⟩
  intro c hrej q hq hqc
  have hmem : c ∈ st.log.map fun q => (q.i, q.j) := List.mem_map.mpr ⟨q, hq, hqc⟩
  have hacc := (List.mem_filter.mp (hsub.subset hmem)).2
  simp only [decide_eq_true_eq] at hacc
  rcases hrej with hr | hr | hr
  · exact absurd hacc.1 (not_lt.mpr hr)
  · exact absurd hacc.2.1 (not_lt.mpr hr)
  · exact absurd hacc.2.2 (not_le.mpr hr)

/-- Witness of C3 on the sample scan with noise: the cell `(1, 0)` has range 0, the cell
`(0, 1)` has intensity `2 / 5`, the cell `(2, 0)` has range 12, and none has a record. -/
theorem C3_rejected_cell_no_record_witness :
    OnScan demoEnv 7 (Load demoEnv demoNoisySdf) demoMsg = .ok (demoPub, demoNoisyCloud) ∧
    ∃ st, scanLoop demoEnv 7 (Load demoEnv demoNoisySdf) demoMsg.scan = .ok st ∧
      ∀ q ∈ st.log, (q.i, q.j) ≠ (1, 0) ∧ (q.i, q.j) ≠ (0, 1) ∧ (q.i, q.j) ≠ (2, 0) := by
  refine ⟨by decide!, ?_⟩
  obtain ⟨st, hs, -, -, -, hrej⟩ := C3_rejected_cell_no_record demoEnv 7
    (Load demoEnv demoNoisySdf) demoMsg demoPub demoNoisyCloud (by decide!)
  exact ⟨st, hs, fun q hq =>
    ⟨hrej (1, 0) (by decide!) q hq, hrej (0, 1) (by decide!) q hq,
      hrej (2, 0) (by decide!) q hq⟩⟩

/-- C4: `OnScan` publishes a cloud on every scan inside the caller contract when a
publisher exists, and every cloud it publishes has `point_step = 32`, `height = 1`,
`row_step = width * point_step`, a data vector of exactly `row_step` bytes,
`is_dense = true` and `is_bigendian = false`, where `width` is the number of records
written by the loop and the data is these records and nothing more. -/
theorem C4_cloud_shape (env : Numerics α) (V : Nat) (self : GazeboRosVelodyneLaser α)
    (_msg : LaserScanStamped α) :
    (∀ p, GridFits _msg.scan → self.pub_ = some p →
      ∃ cloud, OnScan env V self _msg = .ok (p, cloud)) ∧
    ∀ p cloud, OnScan env V self _msg = .ok (p, cloud) →
      cloud.point_step = 32 ∧ cloud.height = 1 ∧
      cloud.row_step = cloud.width * cloud.point_step ∧
      cloud.data.length = cloud.row_step ∧
      cloud.is_dense = true ∧ cloud.is_bigendian = false ∧
      ∃ st, scanLoop env V self _msg.scan = .ok st ∧ cloud.width = st.log.length ∧
        cloud.data = st.log.flatMap (recordBytes env V _msg.scan.vertical_count) := by
  refine ⟨fun p hfit hpub => ⟨_, OnScan_ok env V self _msg p hfit hpub⟩, ?_⟩
  intro p cloud h
  obtain ⟨st, hs, -, hc⟩ := OnScan_sound env V self _msg p cloud h
  subst hc
  refine ⟨rfl, rfl, ?_, ?_, rfl, rfl, st, hs, rfl, rfl⟩
  · simp only [cloudOf]
    exact Nat.mul_comm _ _
  · simp only [cloudOf]
    exact records_length env V _ st.log

/-- Witness of C4 on the sample scan. -/
theorem C4_cloud_shape_witness :
    OnScan demoEnv 7 (Load demoEnv demoSdf) demoMsg = .ok (demoPub, demoCloud) ∧
    demoCloud.row_step = demoCloud.width * demoCloud.point_step ∧
    demoCloud.data.length = demoCloud.row_step ∧ demoCloud.width = 3 := by
  have h := (C4_cloud_shape demoEnv 7 (Load demoEnv demoSdf) demoMsg).2 demoPub demoCloud
    (by decide!)
  exact ⟨by decide!, h.2.2.1, h.2.2.2.1, by decide⟩

/-- C5: every cloud that `OnScan` publishes declares exactly the five fields `x` (offset 0,
FLOAT32), `y` (4, FLOAT32), `z` (8, FLOAT32), `intensity` (16, FLOAT32) and `ring` (20,
UINT16), each of count 1; the values of the `k`-th written ray are stored at bytes
`32 k + 0`, `32 k + 4`, `32 k + 8`, `32 k + 16` and `32 k + 20` of the data; every declared
field ends inside the 32-byte record and before the next declared field starts. -/
theorem C5_record_layout (env : Numerics α) (V : Nat) (self : GazeboRosVelodyneLaser α)
    (_msg : LaserScanStamped α) (p : Publisher) (cloud : PointCloud2)
    (h : OnScan env V self _msg = .ok (p, cloud)) :
    cloud.fields =
      [ { name := "x", offset := 0, datatype := Datatype.FLOAT32, count := 1 },
        { name := "y", offset := 4, datatype := Datatype.FLOAT32, count := 1 },
        { name := "z", offset := 8, datatype := Datatype.FLOAT32, count := 1 },
        { name := "intensity", offset := 16, datatype := Datatype.FLOAT32, count := 1 },
        { name := "ring", offset := 20, datatype := Datatype.UINT16, count := 1 } ] ∧
    (∀ f ∈ cloud.fields, f.offset + f.datatype.size * f.count ≤ cloud.point_step) ∧
    cloud.fields.Pairwise (fun f g => f.offset + f.datatype.size * f.count ≤ g.offset) ∧
    ∃ st, scanLoop env V self _msg.scan = .ok st ∧ cloud.width = st.log.length ∧
      ∀ (k : Nat) (hk : k < st.log.length),
        (cloud.data.drop (32 * k + 0)).take 4 =
          floatBytes env (st.log[k].r * env.cos st.log[k].pAngle * env.cos st.log[k].yAngle) ∧
        (cloud.data.drop (32 * k + 4)).take 4 =
          floatBytes env (st.log[k].r * env.cos st.log[k].pAngle * env.sin st.log[k].yAngle) ∧
        (cloud.data.drop (32 * k + 8)).take 4 =
          floatBytes env (if V > 2 then st.log[k].r * env.sin st.log[k].pAngle
            else -st.log[k].r * env.sin st.log[k].pAngle) ∧
        (cloud.data.drop (32 * k + 16)).take 4 = floatBytes env st.log[k].intensity ∧
        (cloud.data.drop (32 * k + 20)).take 2 =
          u16Bytes (ringOf V _msg.scan.vertical_count st.log[k].j) := by
  obtain ⟨st, hs, -, hc⟩ := OnScan_sound env V self _msg p cloud h
  subst hc
  refine ⟨rfl, ?_, ?_, st, hs, rfl, ?_⟩
  · intro f hf
    simp only [cloudOf, cloudFields, List.mem_cons, List.mem_singleton, List.not_mem_nil,
      or_false] at hf
    rcases hf with rfl | rfl | rfl | rfl | rfl <;> simp [cloudOf, Datatype.size]
  · simp [cloudOf, cloudFields, Datatype.size]
  · intro k hk
    simp only [cloudOf]
    refine ⟨?_, ?_, ?_, ?_, ?_⟩
    · rw [record_at env V _ st.log k hk 0]
      rfl
    · rw [record_at env V _ st.log k hk 4]
      rfl
    · rw [record_at env V _ st.log k hk 8]
      rfl
    · rw [record_at env V _ st.log k hk 16]
      rfl
    · rw [record_at env V _ st.log k hk 20]
      rfl

/-- Witness of C5 on the sample scan: the declared fields stay inside the record. -/
theorem C5_record_layout_witness :
    OnScan demoEnv 7 (Load demoEnv demoSdf) demoMsg = .ok (demoPub, demoCloud) ∧
    (∀ f ∈ demoCloud.fields, f.offset + f.datatype.size * f.count ≤ demoCloud.point_step) ∧
    (demoCloud.data.drop (32 * 1 + 16)).take 4 = floatBytes demoEnv 1 := by
  have h := C5_record_layout demoEnv 7 (Load demoEnv demoSdf) demoMsg demoPub demoCloud
    (by decide!)
  exact ⟨by decide!, h.2.1, by decide!⟩

/-- C6, counterexample: on a grid of one column and 65537 rows whose samples all pass the
gates, with `GAZEBO_MAJOR_VERSION = 7`, `OnScan` publishes a cloud whose record number
65536 comes from row `j = 65536` and has the ring field 0. -/
theorem C6_ring_wraps_at_65536 :
    ∃ cloud st, OnScan demoEnv 7 (Load demoEnv demoSdf) tallMsg = .ok (demoPub, cloud) ∧
      scanLoop demoEnv 7 (Load demoEnv demoSdf) tallMsg.scan = .ok st ∧
      cloud.data = st.log.flatMap (recordBytes demoEnv 7 tallMsg.scan.vertical_count) ∧
      st.log[65536]?.map (fun q => q.j) = some 65536 ∧
      readU16 cloud.data (32 * 65536 + 20) = 0 ∧
      readU16 cloud.data (32 * 65536 + 20) ≠ 65536 := by
  obtain ⟨st, hs⟩ := scanLoop_ok demoEnv 7 (Load demoEnv demoSdf) tallMsg.scan tallMsg_fits
  have hlog : st.log = (List.range 65537).map fun j =>
      rayAt demoEnv (Load demoEnv demoSdf) tallMsg.scan 0 (0, j) := by
    rw [(scanLoop_sound demoEnv 7 (Load demoEnv demoSdf) tallMsg.scan st hs).2]
    exact tallMsg_log
  have ho := OnScan_ok demoEnv 7 (Load demoEnv demoSdf) tallMsg demoPub tallMsg_fits
    (by decide)
  rw [← (scanLoop_sound demoEnv 7 (Load demoEnv demoSdf) tallMsg.scan st hs).2] at ho
  have hget : st.log[65536]? =
      some (rayAt demoEnv (Load demoEnv demoSdf) tallMsg.scan 0 (0, 65536)) := by
    rw [hlog, List.getElem?_map, List.getElem?_range (by decide)]
    rfl
  obtain ⟨hk, hq⟩ := List.getElem?_eq_some_iff.mp hget
  have hring : readU16
      (cloudOf demoEnv 7 (Load demoEnv demoSdf) tallMsg st.log).data (32 * 65536 + 20) = 0 := by
    simp only [cloudOf]
    rw [readU16_ring demoEnv 7 _ st.log 65536 hk, hq]
    decide
  refine ⟨_, st, ho, hs, rfl, ?_, hring, ?_⟩
  · rw [hget]
    rfl
  · rw [hring]
    decide

/-- C6 (amended): in every cloud that `OnScan` publishes, the record of a ray of row `j`
(`j < verticalRangeCount`) has the ring field `j mod 65536` for `GAZEBO_MAJOR_VERSION > 2`
and `(verticalRangeCount - 1 - j) mod 65536` otherwise; for a grid of at most 65536 rows
this is `j`, respectively `verticalRangeCount - 1 - j`. -/
theorem C6_ring_mod_65536 (env : Numerics α) (V : Nat) (self : GazeboRosVelodyneLaser α)
    (_msg : LaserScanStamped α) (p : Publisher) (cloud : PointCloud2)
    (h : OnScan env V self _msg = .ok (p, cloud)) :
    ∃ st, scanLoop env V self _msg.scan = .ok st ∧ cloud.width = st.log.length ∧
      ∀ (k : Nat) (hk : k < st.log.length),
        st.log[k].j < _msg.scan.vertical_count ∧
        readU16 cloud.data (32 * k + 20) =
          (if V > 2 then st.log[k].j % 65536
            else (_msg.scan.vertical_count - 1 - st.log[k].j) % 65536) ∧
        (_msg.scan.vertical_count ≤ 65536 →
          readU16 cloud.data (32 * k + 20) =
            if V > 2 then st.log[k].j else _msg.scan.vertical_count - 1 - st.log[k].j) := by
  obtain ⟨st, hs, -, hc⟩ := OnScan_sound env V self _msg p cloud h
  subst hc
  refine ⟨st, hs, rfl, ?_⟩
  intro k hk
  have hmem : st.log[k] ∈ traceFrom env self _msg.scan
      (cells _msg.scan.count _msg.scan.vertical_count) 0 := by
    rw [← (scanLoop_sound env V self _msg.scan st hs).2]
    exact List.getElem_mem hk
  have hj := (trace_row_lt env self _msg.scan _ hmem).2
  have hring : readU16 (cloudOf env V self _msg st.log).data (32 * k + 20) =
      if V > 2 then st.log[k].j % 65536
      else (_msg.scan.vertical_count - 1 - st.log[k].j) % 65536 := by
    simp only [cloudOf]
    rw [readU16_ring env V _ st.log k hk, ringOf_eq V _ _ hj]
  refine ⟨hj, hring, fun hv => ?_⟩
  rw [hring]
  split_ifs
  · exact Nat.mod_eq_of_lt (by omega)
  · exact Nat.mod_eq_of_lt (by omega)

/-- Witness of the amended C6 on the sample scan: two rows, rings 0 and 1. -/
theorem C6_ring_mod_65536_witness :
    OnScan demoEnv 7 (Load demoEnv demoSdf) demoMsg = .ok (demoPub, demoCloud) ∧
    ∃ st, scanLoop demoEnv 7 (Load demoEnv demoSdf) demoMsg.scan = .ok st ∧
      ∀ (k : Nat) (hk : k < st.log.length),
        readU16 demoCloud.data (32 * k + 20) = st.log[k].j := by
  refine ⟨by decide!, ?_⟩
  obtain ⟨st, hs, -, hring⟩ := C6_ring_mod_65536 demoEnv 7 (Load demoEnv demoSdf) demoMsg
    demoPub demoCloud (by decide!)
  exact ⟨st, hs, fun k hk => (hring k hk).2.2 (by decide)⟩

/-- C7, the code at the failing input: after `Load` with an empty `topicName`, on a scan
with `rangeCount = 0` or `verticalRangeCount = 0` the loop of `OnScan` completes without
reading an element of `ranges` or `intensities` (whatever they hold, it leaves an empty
vector and no record), and `OnScan` then calls `pub_->publish(msg)` of line 270 through the
null pointer instead of returning. With a publisher, `OnScan` publishes the cloud of the
claim: `width = 0`, `row_step = 0`, empty data. -/
theorem C7_empty_grid_null_publisher {α : Type} [DoubleOps α] (env : Numerics α) (V : Nat)
    (sdf : Sdf α) (_msg : LaserScanStamped α)
    (hzero : _msg.scan.count = 0 ∨ _msg.scan.vertical_count = 0)
    (htopic : sdf.topicName = some "") :
    (∀ ranges intensities : List α,
      scanLoop env V (Load env sdf)
        { _msg.scan with ranges := ranges, intensities := intensities } =
        .ok { data := [], ptr := 0, draws := 0, log := [] }) ∧
    (Load env sdf).pub_ = none ∧
    OnScan env V (Load env sdf) _msg = .error .nullPublisher ∧
    ∀ (self : GazeboRosVelodyneLaser α) (p : Publisher), self.pub_ = some p →
      ∃ cloud, OnScan env V self _msg = .ok (p, cloud) ∧
        cloud.width = 0 ∧ cloud.row_step = 0 ∧ cloud.data = [] := by
  have hnull : (Load env sdf).pub_ = none := by
    simp [Load, htopic]
  have hloop := (empty_grid_cloud env V (Load env sdf) _msg hzero).1
  refine ⟨hloop, hnull, ?_, ?_⟩
  · have hs := hloop _msg.scan.ranges _msg.scan.intensities
    simp only [OnScan, hs, hnull]
  · intro self p hpub
    obtain ⟨cloud, h, h1, h2, h3, -⟩ := (empty_grid_cloud env V self _msg hzero).2 p hpub
    exact ⟨cloud, h, h1, h2, h3⟩

/-- Witness of C7: the sample configuration with `topicName` empty, on the scan of three
columns and no row with empty arrays. -/
theorem C7_empty_grid_null_publisher_witness :
    (emptyMsg.scan.count = 0 ∨ emptyMsg.scan.vertical_count = 0) ∧
    OnScan demoEnv 7 (Load demoEnv { demoSdf with topicName := some "" }) emptyMsg =
      .error .nullPublisher ∧
    ∃ cloud, OnScan demoEnv 7 (Load demoEnv demoSdf) emptyMsg = .ok (demoPub, cloud) ∧
      cloud.width = 0 ∧ cloud.row_step = 0 ∧ cloud.data = [] := by
  have h := C7_empty_grid_null_publisher demoEnv 7 { demoSdf with topicName := some "" }
    emptyMsg (by decide) rfl
  exact ⟨by decide, h.2.2.1, h.2.2.2 (Load demoEnv demoSdf) demoPub (by decide)⟩

/-- C8: in every cloud that `OnScan` publishes, each record was projected with the azimuth
`angle_min` when `rangeCount = 1` (whatever `angle_max`) and with
`i * (angle_max - angle_min) / (rangeCount - 1) + angle_min` when `rangeCount > 1`, and with
the elevation `vertical_angle_min` when `verticalRangeCount = 1` and
`j * (vertical_angle_max - vertical_angle_min) / (verticalRangeCount - 1) +
vertical_angle_min` when `verticalRangeCount > 1`, where `(i, j)` is the record's cell. -/
theorem C8_projection_angles (env : Numerics α) (V : Nat) (self : GazeboRosVelodyneLaser α)
    (_msg : LaserScanStamped α) (p : Publisher) (cloud : PointCloud2)
    (h : OnScan env V self _msg = .ok (p, cloud)) :
    ∃ st, scanLoop env V self _msg.scan = .ok st ∧
      cloud.data = st.log.flatMap (recordBytes env V _msg.scan.vertical_count) ∧
      ∀ q ∈ st.log,
        q.i < _msg.scan.count ∧ q.j < _msg.scan.vertical_count ∧
        (_msg.scan.count = 1 → q.yAngle = _msg.scan.angle_min) ∧
        (_msg.scan.vertical_count = 1 → q.pAngle = _msg.scan.vertical_angle_min) ∧
        (1 < _msg.scan.count → q.yAngle =
          (q.i : α) * (_msg.scan.angle_max - _msg.scan.angle_min) /
            ((_msg.scan.count : α) - 1) + _msg.scan.angle_min) ∧
        (1 < _msg.scan.vertical_count → q.pAngle =
          (q.j : α) * (_msg.scan.vertical_angle_max - _msg.scan.vertical_angle_min) /
            ((_msg.scan.vertical_count : α) - 1) + _msg.scan.vertical_angle_min) := by
  obtain ⟨st, hs, -, hc⟩ := OnScan_sound env V self _msg p cloud h
  refine ⟨st, hs, by rw [hc]; rfl, ?_⟩
  intro q hq
  rw [(scanLoop_sound env V self _msg.scan st hs).2] at hq
  obtain ⟨c, hc, k, rfl, -⟩ := traceFrom_mem env self _msg.scan _ 0 q hq
  obtain ⟨hi, hj⟩ := mem_cells.mp hc
  refine ⟨hi, hj, ?_, ?_, ?_, ?_⟩
  · intro h1
    simp [rayAt, yAngleOf, h1]
  · intro h1
    simp [rayAt, pAngleOf, h1]
  · intro h1
    simp [rayAt, yAngleOf, h1]
  · intro h1
    simp [rayAt, pAngleOf, h1]

/-- Witness of C8 on the sample scan: three columns over `[-1, 1]`, two rows over
`[0, 1 / 4]`. -/
theorem C8_projection_angles_witness :
    OnScan demoEnv 7 (Load demoEnv demoSdf) demoMsg = .ok (demoPub, demoCloud) ∧
    ∃ st, scanLoop demoEnv 7 (Load demoEnv demoSdf) demoMsg.scan = .ok st ∧
      ∀ q ∈ st.log, q.yAngle = (q.i : ℚ) * (1 - -1) / ((3 : Nat) - 1) + -1 := by
  refine ⟨by decide!, ?_⟩
  obtain ⟨st, hs, -, hq⟩ := C8_projection_angles demoEnv 7 (Load demoEnv demoSdf) demoMsg
    demoPub demoCloud (by decide!)
  exact ⟨st, hs, fun q hmem => (hq q hmem).2.2.2.2.1 (by decide)⟩

/-- C9, counterexample: on binary64 the scenario can be run only with `angle_max` a
binary64 value; with the one nearest to `π` and the correctly rounded `cos` and `sin`,
`OnScan` publishes two records and the `y` of the second is the `float` nearest to
`5 * sin angle_max = 6.123233995736766e-16`, stored as the bytes `7e 7d 30 26`, not the
bytes `00 00 00 00` of the value 0 that the claim gives. -/
theorem C9_second_record_off_axis :
    piMsg.scan.angle_max = flPi ∧
    OnScan ieeeEnv 7 (Load ieeeEnv piSdf) piMsg = .ok (demoPub, piCloud) ∧
    piCloud.width = 2 ∧
    (piCloud.data.drop 32).take 4 = floatBytes ieeeEnv (Dbl.fin (-5)) ∧
    (piCloud.data.drop 36).take 4 = [126, 125, 48, 38] ∧
    floatBytes ieeeEnv (Dbl.fin 0) = [0, 0, 0, 0] ∧
    (piCloud.data.drop 36).take 4 ≠ floatBytes ieeeEnv (Dbl.fin 0) := by
  refine ⟨rfl, by decide!, by decide, by decide!, by decide!, by decide!, by decide!⟩

/-- C9 (amended): on binary64, with `cos 0 = 1`, `sin 0 = 0`, `cos a = -1` and
`sin a = 1.2246467991473532e-16` for `a` the binary64 value nearest to `π` (the values of
the correctly rounded functions), the configuration `min_range = 0`, `max_range = 10`,
`min_intensity = 0`, no noise, and the scan `rangeCount = 2`, `verticalRangeCount = 1`,
`angle_min = 0`, `angle_max = a`, `vertical_angle_min = 0`, `ranges = [5, 5]`,
`intensities = [1, 1]`, sensor bounds with neither `0 < range_min` nor `range_max < 10`,
`OnScan` publishes exactly two records, `(5, 0, 0)` for `i = 0`, then
`(-5, 6.123233995736766e-16, 0)` for `i = 1`, the `z` of both being `-0.0` for
`GAZEBO_MAJOR_VERSION ≤ 2`, both with intensity 1 and ring 0, and `width = 2`,
`row_step = 64`. The `y` of the second record is not zero. -/
theorem C9_two_point_scan (env : Numerics Dbl) (V : Nat) (ns frame topic : String)
    (p : Publisher) (sec nsec : Int) (rmin rmax vmax : Dbl)
    (hcos0 : env.cos (Dbl.fin 0) = Dbl.fin 1) (hsin0 : env.sin (Dbl.fin 0) = Dbl.fin 0)
    (hcosPi : env.cos flPi = Dbl.fin (-1))
    (hsinPi : env.sin flPi = Dbl.fin (4967757600021511 / 40564819207303340847894502572032))
    (hrmin : ¬ Dbl.fin 0 < rmin) (hrmax : ¬ rmax < Dbl.fin 10) :
    ∃ cloud,
      OnScan env V
        { robot_namespace_ := ns, frame_name_ := frame, min_range_ := Dbl.fin 0
          max_range_ := Dbl.fin 10, min_intensity_ := Dbl.fin 0, topic_name_ := topic
          gaussian_noise_ := Dbl.fin 0, pub_ := some p }
        { time_sec := sec, time_nsec := nsec
          scan :=
            { angle_min := Dbl.fin 0, angle_max := flPi, range_min := rmin, range_max := rmax
              count := 2, vertical_count := 1
              vertical_angle_min := Dbl.fin 0, vertical_angle_max := vmax
              ranges := [Dbl.fin 5, Dbl.fin 5]
              intensities := [Dbl.fin 1, Dbl.fin 1] } } = .ok (p, cloud) ∧
      cloud.width = 2 ∧ cloud.row_step = 64 ∧
      cloud.data =
        floatBytes env (Dbl.fin 5) ++ floatBytes env (Dbl.fin 0) ++
          floatBytes env (if V > 2 then Dbl.fin 0 else Dbl.nzero) ++ [0, 0, 0, 0] ++
          floatBytes env (Dbl.fin 1) ++ u16Bytes 0 ++ [0, 0, 0, 0, 0, 0, 0, 0, 0, 0] ++
        (floatBytes env (Dbl.fin (-5)) ++
          floatBytes env (Dbl.fin (6209697000026889 / 10141204801825835211973625643008)) ++
          floatBytes env (if V > 2 then Dbl.fin 0 else Dbl.nzero) ++ [0, 0, 0, 0] ++
          floatBytes env (Dbl.fin 1) ++ u16Bytes 0 ++ [0, 0, 0, 0, 0, 0, 0, 0, 0, 0]) ∧
      DoubleOps.ne (Dbl.fin (6209697000026889 / 10141204801825835211973625643008))
        (Dbl.fin 0) := by
  generalize hself : ({ robot_namespace_ := ns, frame_name_ := frame, min_range_ := Dbl.fin 0
                        max_range_ := Dbl.fin 10, min_intensity_ := Dbl.fin 0
                        topic_name_ := topic, gaussian_noise_ := Dbl.fin 0
                        pub_ := some p } : GazeboRosVelodyneLaser Dbl) = self
  generalize hmsg : ({ time_sec := sec, time_nsec := nsec
                       scan :=
                         { angle_min := Dbl.fin 0, angle_max := flPi, range_min := rmin
                           range_max := rmax, count := 2, vertical_count := 1
                           vertical_angle_min := Dbl.fin 0, vertical_angle_max := vmax
                           ranges := [Dbl.fin 5, Dbl.fin 5]
                           intensities := [Dbl.fin 1, Dbl.fin 1] } } :
                       LaserScanStamped Dbl) = msg
  have hfit : GridFits msg.scan := by
    subst hmsg
    simp [GridFits, POINT_STEP]
  have hpub : self.pub_ = some p := by
    subst hself
    rfl
  obtain ⟨hzero, hgates, hy0, hy1, a1, a2, a3, a4, a5, hne⟩ := dbl_two_point_facts
  have hnoise : ¬ DoubleOps.ne self.gaussian_noise_ 0 := by
    subst hself
    exact hzero
  have hcells : cells msg.scan.count msg.scan.vertical_count = [(0, 0), (1, 0)] := by
    subst hmsg
    rfl
  have hlo : MIN_RANGE self msg.scan = Dbl.fin 0 := by
    subst hself hmsg
    simp only [MIN_RANGE, std_max]
    rw [if_neg hrmin]
  have hhi : MAX_RANGE self msg.scan = Dbl.fin 10 := by
    subst hself hmsg
    simp only [MAX_RANGE, std_min]
    rw [if_neg hrmax]
  have hmi : MIN_INTENSITY self = Dbl.fin 0 := by
    subst hself
    rfl
  have hr : ∀ c ∈ [((0 : Nat), (0 : Nat)), (1, 0)], rangeAt msg.scan c = Dbl.fin 5 := by
    intro c hc
    subst hmsg
    simp only [List.mem_cons, List.mem_singleton, List.not_mem_nil, or_false] at hc
    rcases hc with rfl | rfl <;> rfl
  have hi : ∀ c ∈ [((0 : Nat), (0 : Nat)), (1, 0)], intensityAt msg.scan c = Dbl.fin 1 := by
    intro c hc
    subst hmsg
    simp only [List.mem_cons, List.mem_singleton, List.not_mem_nil, or_false] at hc
    rcases hc with rfl | rfl <;> rfl
  have hpass : ∀ c ∈ [((0 : Nat), (0 : Nat)), (1, 0)], Accepts self msg.scan c ∧
      MIN_RANGE self msg.scan < rangeAt msg.scan c ∧
      rangeAt msg.scan c < MAX_RANGE self msg.scan := by
    intro c hc
    unfold Accepts
    rw [hr c hc, hi c hc, hlo, hhi, hmi]
    exact hgates
  have hb : ∀ c ∈ cells msg.scan.count msg.scan.vertical_count,
      c.1 + c.2 * msg.scan.count < msg.scan.ranges.length ∧
        c.1 + c.2 * msg.scan.count < msg.scan.intensities.length := fun c hc =>
    ⟨lt_of_lt_of_le (cell_index_lt hc) hfit.1, lt_of_lt_of_le (cell_index_lt hc) hfit.2.1⟩
  have htrace := traceFrom_quiet env self msg.scan hnoise _ 0 hb
  rw [hcells, List.filter_eq_self.mpr (fun c hc => by simpa using hpass c hc)] at htrace
  have hyA0 : yAngleOf msg.scan 0 = Dbl.fin 0 := by
    subst hmsg
    unfold yAngleOf
    rw [if_pos (show (2 : Nat) > 1 by decide)]
    exact hy0
  have hyA1 : yAngleOf msg.scan 1 = flPi := by
    subst hmsg
    unfold yAngleOf
    rw [if_pos (show (2 : Nat) > 1 by decide)]
    exact hy1
  have hpA : pAngleOf msg.scan 0 = Dbl.fin 0 := by
    subst hmsg
    unfold pAngleOf
    rw [if_neg (show ¬ (1 : Nat) > 1 by decide)]
  have hray0 : rayAt env self msg.scan 0 (0, 0) =
      { i := 0, j := 0, r := Dbl.fin 5, intensity := Dbl.fin 1, yAngle := Dbl.fin 0,
        pAngle := Dbl.fin 0 } := by
    have e1 := hr (0, 0) (List.mem_cons_self _ _)
    have e2 := hi (0, 0) (List.mem_cons_self _ _)
    simp only [rayAt, if_neg hnoise, e1, e2, hyA0, hpA]
  have hray1 : rayAt env self msg.scan 0 (1, 0) =
      { i := 1, j := 0, r := Dbl.fin 5, intensity := Dbl.fin 1, yAngle := flPi,
        pAngle := Dbl.fin 0 } := by
    have e1 := hr (1, 0) (List.mem_cons_of_mem _ (List.mem_singleton_self _))
    have e2 := hi (1, 0) (List.mem_cons_of_mem _ (List.mem_singleton_self _))
    simp only [rayAt, if_neg hnoise, e1, e2, hyA1, hpA]
  have hring : ∀ W : Nat, ringOf W 1 0 = 0 := by
    intro W
    unfold ringOf toUInt16
    split_ifs <;> rfl
  refine ⟨_, OnScan_ok env V self msg p hfit hpub, ?_, ?_, ?_, hne⟩
  · rw [hcells, htrace]
    rfl
  · rw [hcells, htrace]
    rfl
  · rw [hcells, htrace]
    have hvc : msg.scan.vertical_count = 1 := by
      subst hmsg
      rfl
    simp only [cloudOf, List.map_cons, List.map_nil, List.flatMap_cons, List.flatMap_nil,
      List.append_nil, hray0, hray1, recordBytes, zOf, hvc, hring, hcos0, hsin0, hcosPi,
      hsinPi, a1, a2, a3, a4, a5]

/-- Witness of the amended C9: the sample environment on binary64, whose `cos` and `sin`
take the assumed values, with the sensor bounds `0` and `10`; the `y` of the second record
is stored as the bytes `7e 7d 30 26`. -/
theorem C9_two_point_scan_witness :
    (ieeeEnv.cos (Dbl.fin 0) = Dbl.fin 1 ∧ ieeeEnv.sin (Dbl.fin 0) = Dbl.fin 0 ∧
      ieeeEnv.cos flPi = Dbl.fin (-1) ∧
      ieeeEnv.sin flPi = Dbl.fin (4967757600021511 / 40564819207303340847894502572032)) ∧
    ∃ cloud,
      OnScan ieeeEnv 3
        { robot_namespace_ := "/", frame_name_ := "/world", min_range_ := Dbl.fin 0
          max_range_ := Dbl.fin 10, min_intensity_ := Dbl.fin 0, topic_name_ := "/points"
          gaussian_noise_ := Dbl.fin 0, pub_ := some demoPub }
        { time_sec := 0, time_nsec := 0
          scan :=
            { angle_min := Dbl.fin 0, angle_max := flPi, range_min := Dbl.fin 0
              range_max := Dbl.fin 10, count := 2, vertical_count := 1
              vertical_angle_min := Dbl.fin 0, vertical_angle_max := Dbl.fin 0
              ranges := [Dbl.fin 5, Dbl.fin 5]
              intensities := [Dbl.fin 1, Dbl.fin 1] } } = .ok (demoPub, cloud) ∧
      cloud.width = 2 ∧ cloud.row_step = 64 ∧
      (cloud.data.drop 36).take 4 = [126, 125, 48, 38] := by
  have hc0 : ieeeEnv.cos (Dbl.fin 0) = Dbl.fin 1 := by decide!
  have hs0 : ieeeEnv.sin (Dbl.fin 0) = Dbl.fin 0 := by decide!
  have hcp : ieeeEnv.cos flPi = Dbl.fin (-1) := by decide!
  have hsp : ieeeEnv.sin flPi =
      Dbl.fin (4967757600021511 / 40564819207303340847894502572032) := by decide!
  refine ⟨⟨hc0, hs0, hcp, hsp⟩, ?_⟩
  obtain ⟨cloud, h, h1, h2, h3, -⟩ := C9_two_point_scan ieeeEnv 3 "/" "/world" "/points"
    demoPub 0 0 (Dbl.fin 0) (Dbl.fin 10) (Dbl.fin 0) hc0 hs0 hcp hsp (by decide!) (by decide!)
  refine ⟨cloud, h, h1, h2, ?_⟩
  rw [h3]
  decide!

/-- C10: after `Load` with an empty `topicName` the publisher is null, and `OnScan` then
never returns normally: on every scan inside the caller contract the loop completes and the
call `pub_->publish(msg)` of line 270 goes through the null pointer. -/
theorem C10_empty_topic_null_publisher (env : Numerics α) (V : Nat) (sdf : Sdf α)
    (_msg : LaserScanStamped α) (htopic : sdf.topicName = some "") :
    (Load env sdf).pub_ = none ∧
    (∀ r, OnScan env V (Load env sdf) _msg ≠ .ok r) ∧
    (GridFits _msg.scan → OnScan env V (Load env sdf) _msg = .error .nullPublisher) := by
  have hnull : (Load env sdf).pub_ = none := by
    simp [Load, htopic]
  refine ⟨hnull, ?_, ?_⟩
  · intro r hr
    obtain ⟨q, cloud⟩ := r
    obtain ⟨-, -, hp, -⟩ := OnScan_sound env V (Load env sdf) _msg q cloud hr
    rw [hnull] at hp
    cases hp
  · intro hfit
    obtain ⟨st, hs⟩ := scanLoop_ok env V (Load env sdf) _msg.scan hfit
    simp only [OnScan, hs, hnull]

/-- Witness of C10: the sample configuration with `topicName` empty, on the sample scan. -/
theorem C10_empty_topic_null_publisher_witness :
    OnScan demoEnv 7 (Load demoEnv { demoSdf with topicName := some "" }) demoMsg =
      .error .nullPublisher :=
  (C10_empty_topic_null_publisher demoEnv 7 { demoSdf with topicName := some "" } demoMsg
    rfl).2.2 (by decide)

/-- C11: `Load` is total, and for every configuration element the members after `Load` are
the given `frameName` or `"/world"`, the given `min_range` or `0`, the given `max_range` or
`INFINITY`, the given `min_intensity` or `std::numeric_limits<double>::lowest()`, the given
`topicName` or `"/points"`, and the given `gaussianNoise` or `0`; a present option is taken
verbatim. -/
theorem C11_load_defaults (env : Numerics α) (sdf : Sdf α) :
    (Load env sdf).frame_name_ = sdf.frameName.getD "/world" ∧
    (Load env sdf).min_range_ = sdf.min_range.getD 0 ∧
    (Load env sdf).max_range_ = sdf.max_range.getD env.INFINITY ∧
    (Load env sdf).min_intensity_ = sdf.min_intensity.getD env.lowest ∧
    (Load env sdf).topic_name_ = sdf.topicName.getD "/points" ∧
    (Load env sdf).gaussian_noise_ = sdf.gaussianNoise.getD 0 ∧
    (∀ v, sdf.frameName = some v → (Load env sdf).frame_name_ = v) ∧
    (∀ v, sdf.min_range = some v → (Load env sdf).min_range_ = v) ∧
    (∀ v, sdf.max_range = some v → (Load env sdf).max_range_ = v) ∧
    (∀ v, sdf.min_intensity = some v → (Load env sdf).min_intensity_ = v) ∧
    (∀ v, sdf.topicName = some v → (Load env sdf).topic_name_ = v) ∧
    (∀ v, sdf.gaussianNoise = some v → (Load env sdf).gaussian_noise_ = v) := by
  obtain ⟨ns, fr, mn, mx, mi, tp, gn⟩ := sdf
  refine ⟨?_, ?_, ?_, ?_, ?_, ?_, ?_, ?_, ?_, ?_, ?_, ?_⟩
  · cases fr <;> rfl
  · cases mn <;> rfl
  · cases mx <;> rfl
  · cases mi <;> rfl
  · cases tp <;> rfl
  · cases gn <;> rfl
  · rintro v ⟨⟩; rfl
  · rintro v ⟨⟩; rfl
  · rintro v ⟨⟩; rfl
  · rintro v ⟨⟩; rfl
  · rintro v ⟨⟩; rfl
  · rintro v ⟨⟩; rfl

/-- Witness of C11: the sample element gives `max_range` and `min_intensity` and leaves the
other options out. -/
theorem C11_load_defaults_witness :
    (Load demoEnv demoSdf).frame_name_ = "/world" ∧ (Load demoEnv demoSdf).min_range_ = 0 ∧
    (Load demoEnv demoSdf).max_range_ = 10 ∧ (Load demoEnv demoSdf).min_intensity_ = 1 / 2 ∧
    (Load demoEnv demoSdf).topic_name_ = "/points" ∧
    (Load demoEnv demoSdf).gaussian_noise_ = 0 := by
  have h := C11_load_defaults demoEnv demoSdf
  exact ⟨h.1, h.2.1, h.2.2.2.2.2.2.2.2.1 10 rfl, h.2.2.2.2.2.2.2.2.2.1 (1 / 2) rfl,
    h.2.2.2.2.1, h.2.2.2.2.2.1⟩

/-- C12: in every cloud that `OnScan` publishes, the bytes 12 to 15 and 22 to 31 of each
record are zero; line 202 allocates the vector zero-filled. -/
theorem C12_padding_zero (env : Numerics α) (V : Nat) (self : GazeboRosVelodyneLaser α)
    (_msg : LaserScanStamped α) (p : Publisher) (cloud : PointCloud2)
    (h : OnScan env V self _msg = .ok (p, cloud)) :
    (∀ n : Nat, resize [] n = List.replicate n 0) ∧
    ∀ k : Nat, k < cloud.width →
      (cloud.data.drop (32 * k + 12)).take 4 = [0, 0, 0, 0] ∧
      (cloud.data.drop (32 * k + 22)).take 10 = [0, 0, 0, 0, 0, 0, 0, 0, 0, 0] := by
  obtain ⟨st, hs, -, hc⟩ := OnScan_sound env V self _msg p cloud h
  subst hc
  refine ⟨fun n => by simp [resize], ?_⟩
  intro k hk
  have hk1 : k < st.log.length := hk
  simp only [cloudOf]
  constructor
  · rw [record_at env V _ st.log k hk1 12]
    rfl
  · rw [record_at env V _ st.log k hk1 22]
    rfl

/-- Witness of C12 on the sample scan: the padding of the third record. -/
theorem C12_padding_zero_witness :
    OnScan demoEnv 7 (Load demoEnv demoSdf) demoMsg = .ok (demoPub, demoCloud) ∧
    (demoCloud.data.drop (32 * 2 + 12)).take 4 = [0, 0, 0, 0] ∧
    (demoCloud.data.drop (32 * 2 + 22)).take 10 = [0, 0, 0, 0, 0, 0, 0, 0, 0, 0] := by
  have h := (C12_padding_zero demoEnv 7 (Load demoEnv demoSdf) demoMsg demoPub demoCloud
    (by decide!)).2 2 (by decide)
  exact ⟨by decide!, h.1, h.2⟩

/-- C13: with the noise enabled, in every cloud that `OnScan` publishes the `k`-th record
comes from a cell `(i, j)` of the grid whose intensity sample `intensities[i + j *
rangeCount]` is stored unchanged at offset 16, whose ring at offset 20 is computed from `j`
alone, whose angles are those of column `i` and row `j`, and whose `x`, `y`, `z` are the
projection of the range sample plus one noise draw. -/
theorem C13_noise_on_range_only (env : Numerics α) (V : Nat)
    (self : GazeboRosVelodyneLaser α) (_msg : LaserScanStamped α) (p : Publisher)
    (cloud : PointCloud2) (hnoise : self.gaussian_noise_ ≠ 0)
    (h : OnScan env V self _msg = .ok (p, cloud)) :
    ∃ st, scanLoop env V self _msg.scan = .ok st ∧ cloud.width = st.log.length ∧
      ∀ (k : Nat) (hk : k < st.log.length),
        st.log[k].i < _msg.scan.count ∧ st.log[k].j < _msg.scan.vertical_count ∧
        _msg.scan.intensities[st.log[k].i + st.log[k].j * _msg.scan.count]? =
          some st.log[k].intensity ∧
        (cloud.data.drop (32 * k + 16)).take 4 = floatBytes env st.log[k].intensity ∧
        (cloud.data.drop (32 * k + 20)).take 2 =
          u16Bytes (ringOf V _msg.scan.vertical_count st.log[k].j) ∧
        st.log[k].yAngle = yAngleOf _msg.scan st.log[k].i ∧
        st.log[k].pAngle = pAngleOf _msg.scan st.log[k].j ∧
        ∃ r d, _msg.scan.ranges[st.log[k].i + st.log[k].j * _msg.scan.count]? = some r ∧
          st.log[k].r = r + env.gaussianKernel d 0 self.gaussian_noise_ ∧
          (cloud.data.drop (32 * k + 0)).take 4 =
            floatBytes env ((r + env.gaussianKernel d 0 self.gaussian_noise_) *
              env.cos (pAngleOf _msg.scan st.log[k].j) *
              env.cos (yAngleOf _msg.scan st.log[k].i)) ∧
          (cloud.data.drop (32 * k + 4)).take 4 =
            floatBytes env ((r + env.gaussianKernel d 0 self.gaussian_noise_) *
              env.cos (pAngleOf _msg.scan st.log[k].j) *
              env.sin (yAngleOf _msg.scan st.log[k].i)) ∧
          (cloud.data.drop (32 * k + 8)).take 4 =
            floatBytes env
              (if V > 2 then (r + env.gaussianKernel d 0 self.gaussian_noise_) *
                  env.sin (pAngleOf _msg.scan st.log[k].j)
                else -(r + env.gaussianKernel d 0 self.gaussian_noise_) *
                  env.sin (pAngleOf _msg.scan st.log[k].j)) := by
  obtain ⟨st, hs, -, hc⟩ := OnScan_sound env V self _msg p cloud h
  subst hc
  obtain ⟨hinv, hlog⟩ := scanLoop_sound env V self _msg.scan st hs
  refine ⟨st, hs, rfl, ?_⟩
  intro k hk
  have hmem : st.log[k] ∈ traceFrom env self _msg.scan
      (cells _msg.scan.count _msg.scan.vertical_count) 0 := by
    rw [← hlog]
    exact List.getElem_mem hk
  obtain ⟨c, hc, d, d1, hcr⟩ := traceFrom_mem_cast env self _msg.scan _ 0 _ hmem
  obtain ⟨hi, hj⟩ := mem_cells.mp hc
  have hin := castRay_inbounds env self _msg.scan d c _ hcr
  have hq : st.log[k] = rayAt env self _msg.scan d c := by
    rw [castRay_eq env self _msg.scan d c hin.1 hin.2] at hcr
    by_cases ha : Accepts self _msg.scan c
    · rw [if_pos ha] at hcr
      simp only [Except.ok.injEq, Prod.mk.injEq, Option.some.injEq] at hcr
      exact hcr.1.symm
    · rw [if_neg ha] at hcr
      simp at hcr
  have e1 : _msg.scan.ranges[c.1 + c.2 * _msg.scan.count]? = some (rangeAt _msg.scan c) := by
    simp [rangeAt, List.getD_eq_getElem?_getD, List.getElem?_eq_getElem hin.1]
  have e2 : _msg.scan.intensities[c.1 + c.2 * _msg.scan.count]? =
      some (intensityAt _msg.scan c) := by
    simp [intensityAt, List.getD_eq_getElem?_getD, List.getElem?_eq_getElem hin.2]
  have hr : st.log[k].r = rangeAt _msg.scan c + env.gaussianKernel d 0 self.gaussian_noise_ := by
    rw [hq]
    simp [rayAt, ne_iff, hnoise]
  have hqi : st.log[k].i = c.1 := by rw [hq]; rfl
  have hqj : st.log[k].j = c.2 := by rw [hq]; rfl
  have hqy : st.log[k].yAngle = yAngleOf _msg.scan c.1 := by rw [hq]; rfl
  have hqp : st.log[k].pAngle = pAngleOf _msg.scan c.2 := by rw [hq]; rfl
  have hqx : st.log[k].intensity = intensityAt _msg.scan c := by rw [hq]; rfl
  have hp1 : pAngleOf _msg.scan st.log[k].j = st.log[k].pAngle := by rw [hqj, hqp]
  have hy1 : yAngleOf _msg.scan st.log[k].i = st.log[k].yAngle := by rw [hqi, hqy]
  simp only [cloudOf]
  refine ⟨hqi ▸ hi, hqj ▸ hj, by rw [hqi, hqj, hqx]; exact e2, ?_, ?_, by rw [hqy, hqi],
    by rw [hqp, hqj], rangeAt _msg.scan c, d, by rw [hqi, hqj]; exact e1, hr, ?_, ?_, ?_⟩
  · rw [record_at env V _ st.log k hk 16]
    rfl
  · rw [record_at env V _ st.log k hk 20]
    rfl
  · rw [record_at env V _ st.log k hk 0, ← hr, hp1, hy1]
    rfl
  · rw [record_at env V _ st.log k hk 4, ← hr, hp1, hy1]
    rfl
  · rw [record_at env V _ st.log k hk 8, ← hr, hp1]
    rfl

/-- Witness of C13 on the sample scan with noise of standard deviation 3. -/
theorem C13_noise_on_range_only_witness :
    (Load demoEnv demoNoisySdf).gaussian_noise_ ≠ 0 ∧
    OnScan demoEnv 7 (Load demoEnv demoNoisySdf) demoMsg = .ok (demoPub, demoNoisyCloud) ∧
    ∃ st, scanLoop demoEnv 7 (Load demoEnv demoNoisySdf) demoMsg.scan = .ok st ∧
      ∀ (k : Nat) (hk : k < st.log.length),
        (demoNoisyCloud.data.drop (32 * k + 16)).take 4 =
          floatBytes demoEnv st.log[k].intensity := by
  refine ⟨by decide, by decide!, ?_⟩
  obtain ⟨st, hs, -, hrec⟩ := C13_noise_on_range_only demoEnv 7 (Load demoEnv demoNoisySdf)
    demoMsg demoPub demoNoisyCloud (by decide) (by decide!)
  exact ⟨st, hs, fun k hk => (hrec k hk).2.2.2.1⟩

/-- C14: with the noise disabled the outcome of `OnScan` (the published cloud with its
header, fields, width, row step and data, or the fault) is the same whatever the random
source `gaussianKernel` returns: it is a function of the scan and the configuration, and
`OnScan` assigns no data member. -/
theorem C14_noiseless_deterministic (env : Numerics α) (V : Nat)
    (self : GazeboRosVelodyneLaser α) (_msg : LaserScanStamped α)
    (g : Nat → α → α → α) (hnoise : self.gaussian_noise_ = 0) :
    OnScan { env with gaussianKernel := g } V self _msg = OnScan env V self _msg ∧
    scanLoop { env with gaussianKernel := g } V self _msg.scan =
      scanLoop env V self _msg.scan := by
  have hcell : ∀ i j st, cell { env with gaussianKernel := g } V self _msg.scan i j st =
      cell env V self _msg.scan i j st := by
    intro i j st
    simp only [cell, castRay, hnoise, ne_iff, ne_eq, not_true_eq_false, decide_False, if_false,
      Bool.false_eq_true]
    rfl
  have hloop : scanLoop { env with gaussianKernel := g } V self _msg.scan =
      scanLoop env V self _msg.scan := by
    simp only [scanLoop, hcell]
  exact ⟨by simp only [OnScan, hloop], hloop⟩

/-- Witness of C14 on the sample scan: a random source that always returns 7. -/
theorem C14_noiseless_deterministic_witness :
    OnScan { demoEnv with gaussianKernel := fun _ _ _ => 7 } 7 (Load demoEnv demoSdf) demoMsg =
      .ok (demoPub, demoCloud) := by
  rw [(C14_noiseless_deterministic demoEnv 7 (Load demoEnv demoSdf) demoMsg
    (fun _ _ _ => 7) (by decide)).1]
  decide!

/-- C16, the code at the failing input: for the scan of 134217728 columns and one row with
every sample accepted (both arrays cover the grid), the size expression of line 202 is
`2 ^ 32` in exact arithmetic and 0 as a `uint32_t`, so the vector is empty, the first
record write of the loop is outside it, and neither the loop nor `OnScan` returns. -/
theorem C16_allocation_wraps :
    (wideMsg 134217728).scan.count * (wideMsg 134217728).scan.vertical_count ≤
      (wideMsg 134217728).scan.ranges.length ∧
    (wideMsg 134217728).scan.count * (wideMsg 134217728).scan.vertical_count ≤
      (wideMsg 134217728).scan.intensities.length ∧
    (wideMsg 134217728).scan.vertical_count * (wideMsg 134217728).scan.count * POINT_STEP =
      4294967296 ∧
    allocSize (wideMsg 134217728).scan = 0 ∧
    cell demoEnv 7 (Load demoEnv demoSdf) (wideMsg 134217728).scan 0 0
      { data := resize [] (allocSize (wideMsg 134217728).scan), ptr := 0, draws := 0
        log := [] } = .error .bufferOverrun ∧
    scanLoop demoEnv 7 (Load demoEnv demoSdf) (wideMsg 134217728).scan =
      .error .bufferOverrun ∧
    OnScan demoEnv 7 (Load demoEnv demoSdf) (wideMsg 134217728) = .error .bufferOverrun := by
  have hdata : resize [] (allocSize (wideMsg 134217728).scan) = [] := by
    rw [wideMsg_alloc]
    rfl
  refine ⟨?_, ?_, by decide, wideMsg_alloc, ?_, wideMsg_loop_fault,
    OnScan_of_loop_fault demoEnv 7 (Load demoEnv demoSdf) (wideMsg 134217728) .bufferOverrun
      wideMsg_loop_fault⟩
  · simp only [wideMsg, List.length_replicate]
    decide
  · simp only [wideMsg, List.length_replicate]
    decide
  · rw [hdata]
    exact wideMsg_first_cell { data := [], ptr := 0, draws := 0, log := [] } rfl rfl

/-- C17: the angle computation never divides by zero. With the division made partial, the
azimuth of every column and the elevation of every row are defined and equal to the angles
`OnScan` uses; the divisor `rangeCount - 1` is at least 1 under the guard `rangeCount > 1`,
and the divisor `verticalRangeCount - 1` is at least 1 under the guard
`verticalRayCount > 1`, both variables holding `vertical_count`. -/
theorem C17_no_division_by_zero (scan : LaserScan α) (i j : Nat) :
    yAngleChecked scan i = some (yAngleOf scan i) ∧
    pAngleChecked scan j = some (pAngleOf scan j) ∧
    (scan.count > 1 → 1 ≤ (scan.count : Int) - 1) ∧
    (scan.vertical_count > 1 → 1 ≤ (scan.vertical_count : Int) - 1) ∧
    (∀ x : α, ∀ n : Int, 1 ≤ n → divChecked x n = some (x / (n : α))) ∧
    (∀ x : α, divChecked x 0 = none) := by
  have hdiv : ∀ x : α, ∀ n : Int, 1 ≤ n → divChecked x n = some (x / (n : α)) := by
    intro x n hn
    have h0 : n ≠ 0 := by omega
    simp [divChecked, h0]
  refine ⟨?_, ?_, fun h => by omega, fun h => by omega, hdiv, fun x => by simp [divChecked]⟩
  · unfold yAngleChecked yAngleOf
    by_cases h : scan.count > 1
    · simp only [if_pos h]
      rw [hdiv _ _ (by omega)]
      rfl
    · simp only [if_neg h]
  · unfold pAngleChecked pAngleOf
    by_cases h : scan.vertical_count > 1
    · simp only [if_pos h]
      rw [hdiv _ _ (by omega)]
      rfl
    · simp only [if_neg h]

/-- Witness of C17 on the sample scan: column 2 of three, row 1 of two. -/
theorem C17_no_division_by_zero_witness :
    yAngleChecked demoMsg.scan 2 = some (yAngleOf demoMsg.scan 2) ∧
    pAngleChecked emptyMsg.scan 1 = some (pAngleOf emptyMsg.scan 1) :=
  ⟨(C17_no_division_by_zero demoMsg.scan 2 1).1, (C17_no_division_by_zero emptyMsg.scan 2 1).2.1⟩

/-- C18, counterexample: on binary64, for `rangeCount = 2`, `angle_min` the value nearest
to `-0.2` and `angle_max` the value nearest to `0.1`, the last column gets the azimuth
`0.10000000000000003`, which is not `angle_max` and is greater than `angle_max`; `OnScan`
publishes a record computed with this azimuth. -/
theorem C18_last_column_overshoots :
    1 < skewMsg.scan.count ∧ skewMsg.scan.angle_min ≤ skewMsg.scan.angle_max ∧
    skewMsg.scan.angle_min = Dbl.fin (-3602879701896397 / 18014398509481984) ∧
    skewMsg.scan.angle_max = Dbl.fin (3602879701896397 / 36028797018963968) ∧
    yAngleOf skewMsg.scan (skewMsg.scan.count - 1) =
      Dbl.fin (1801439850948199 / 18014398509481984) ∧
    yAngleOf skewMsg.scan (skewMsg.scan.count - 1) ≠ skewMsg.scan.angle_max ∧
    skewMsg.scan.angle_max < yAngleOf skewMsg.scan (skewMsg.scan.count - 1) ∧
    ¬ yAngleOf skewMsg.scan (skewMsg.scan.count - 1) ≤ skewMsg.scan.angle_max ∧
    (∃ cloud, OnScan ieeeEnv 7 (Load ieeeEnv ieeeSdf) skewMsg = .ok (demoPub, cloud)) ∧
    (traceFrom ieeeEnv (Load ieeeEnv ieeeSdf) skewMsg.scan
      (cells skewMsg.scan.count skewMsg.scan.vertical_count) 0).map (fun q => q.yAngle) =
      [Dbl.fin (-3602879701896397 / 18014398509481984),
        Dbl.fin (1801439850948199 / 18014398509481984)] := by
  refine ⟨by decide, by decide!, by decide!, by decide!, by decide!, by decide!, by decide!,
    by decide!, ?_, by decide!⟩
  exact ⟨_, OnScan_ok ieeeEnv 7 (Load ieeeEnv ieeeSdf) skewMsg demoPub (by decide) (by decide)⟩

/-- C18 (amended): in exact arithmetic, for `rangeCount > 1` column 0 gets the azimuth
`angle_min` and column `rangeCount - 1` gets `angle_max`; if moreover
`angle_min ≤ angle_max`, the azimuth of every column of the grid lies in
`[angle_min, angle_max]` and does not decrease with the column, and so does the azimuth of
every record `OnScan` publishes; for `verticalRangeCount > 1` row 0 gets
`vertical_angle_min` and row `verticalRangeCount - 1` gets `vertical_angle_max`. In the
rounded arithmetic of binary64 the lower end is still hit: for `rangeCount > 1`, a finite
`angle_max - angle_min` and `angle_min` a binary64 value, column 0 gets an azimuth equal to
`angle_min` (as `==` compares, and the same value unless `angle_min` is the negative zero),
and likewise row 0 for `verticalRangeCount > 1`. Nothing is said there of the upper end:
the last column can miss and exceed `angle_max`. -/
theorem C18_angle_endpoints (env : Numerics α) (V : Nat) (self : GazeboRosVelodyneLaser α)
    (_msg : LaserScanStamped α) (scan : LaserScan Dbl) :
    (1 < _msg.scan.count →
      yAngleOf _msg.scan 0 = _msg.scan.angle_min ∧
      yAngleOf _msg.scan (_msg.scan.count - 1) = _msg.scan.angle_max ∧
      (_msg.scan.angle_min ≤ _msg.scan.angle_max →
        (∀ i, i < _msg.scan.count →
          _msg.scan.angle_min ≤ yAngleOf _msg.scan i ∧
          yAngleOf _msg.scan i ≤ _msg.scan.angle_max) ∧
        (∀ i k, i ≤ k → yAngleOf _msg.scan i ≤ yAngleOf _msg.scan k) ∧
        ∀ p cloud, OnScan env V self _msg = .ok (p, cloud) →
          ∃ st, scanLoop env V self _msg.scan = .ok st ∧
            cloud.data = st.log.flatMap (recordBytes env V _msg.scan.vertical_count) ∧
            ∀ q ∈ st.log, _msg.scan.angle_min ≤ q.yAngle ∧
              q.yAngle ≤ _msg.scan.angle_max)) ∧
    (1 < _msg.scan.vertical_count →
      pAngleOf _msg.scan 0 = _msg.scan.vertical_angle_min ∧
      pAngleOf _msg.scan (_msg.scan.vertical_count - 1) = _msg.scan.vertical_angle_max) ∧
    (1 < scan.count → (scan.angle_max - scan.angle_min).isFinite = true →
      scan.angle_min.IsValue →
      ¬ DoubleOps.ne (yAngleOf scan 0) scan.angle_min ∧
      (scan.angle_min ≠ Dbl.nzero → yAngleOf scan 0 = scan.angle_min)) ∧
    (1 < scan.vertical_count →
      (scan.vertical_angle_max - scan.vertical_angle_min).isFinite = true →
      scan.vertical_angle_min.IsValue →
      ¬ DoubleOps.ne (pAngleOf scan 0) scan.vertical_angle_min ∧
      (scan.vertical_angle_min ≠ Dbl.nzero → pAngleOf scan 0 = scan.vertical_angle_min)) := by
  refine ⟨?_, ?_, dbl_first_column scan, dbl_first_row scan⟩
  · intro h
    have hm : (0 : α) < (_msg.scan.count : α) - 1 := by
      have : (1 : α) < (_msg.scan.count : α) := by exact_mod_cast h
      linarith
    have hlast : ((_msg.scan.count - 1 : Nat) : α) = (_msg.scan.count : α) - 1 := by
      rw [Nat.cast_sub (le_of_lt h), Nat.cast_one]
    obtain ⟨f0, f1, f2⟩ := interp_facts _msg.scan.angle_min
      (_msg.scan.angle_max - _msg.scan.angle_min) ((_msg.scan.count : α) - 1) hm
    have hbound : _msg.scan.angle_min ≤ _msg.scan.angle_max → ∀ i, i < _msg.scan.count →
        _msg.scan.angle_min ≤ yAngleOf _msg.scan i ∧
          yAngleOf _msg.scan i ≤ _msg.scan.angle_max := by
      intro hle i hi
      rw [yAngleOf_eq _msg.scan i h]
      have hi1 : (i : α) ≤ (_msg.scan.count : α) - 1 := by
        rw [← hlast]
        exact_mod_cast Nat.le_sub_one_of_lt hi
      obtain ⟨g1, -, g3⟩ := f2 (by linarith) (i : α) (i : α) (Nat.cast_nonneg i) le_rfl hi1
      exact ⟨g1, by linarith⟩
    refine ⟨?_, ?_, fun hle => ⟨hbound hle, ?_, ?_⟩⟩
    · rw [yAngleOf_eq _msg.scan 0 h, Nat.cast_zero]
      exact f0
    · rw [yAngleOf_eq _msg.scan _ h, hlast, f1]
      ring
    · intro i k hik
      rw [yAngleOf_eq _msg.scan i h, yAngleOf_eq _msg.scan k h]
      have hd : 0 ≤ _msg.scan.angle_max - _msg.scan.angle_min := by linarith
      have h2 : (i : α) * (_msg.scan.angle_max - _msg.scan.angle_min) /
          ((_msg.scan.count : α) - 1) ≤
          (k : α) * (_msg.scan.angle_max - _msg.scan.angle_min) /
            ((_msg.scan.count : α) - 1) :=
        div_le_div_of_nonneg_right
          (mul_le_mul_of_nonneg_right (by exact_mod_cast hik) hd) (le_of_lt hm)
      linarith
    · intro p cloud ho
      obtain ⟨st, hs, -, hc⟩ := OnScan_sound env V self _msg p cloud ho
      refine ⟨st, hs, by rw [hc]; rfl, ?_⟩
      intro q hq
      rw [(scanLoop_sound env V self _msg.scan st hs).2] at hq
      obtain ⟨c, hc, k, rfl, -⟩ := traceFrom_mem env self _msg.scan _ 0 q hq
      exact hbound hle c.1 (mem_cells.mp hc).1
  · intro h
    have hm : (0 : α) < (_msg.scan.vertical_count : α) - 1 := by
      have : (1 : α) < (_msg.scan.vertical_count : α) := by exact_mod_cast h
      linarith
    have hlast : ((_msg.scan.vertical_count - 1 : Nat) : α) =
        (_msg.scan.vertical_count : α) - 1 := by
      rw [Nat.cast_sub (le_of_lt h), Nat.cast_one]
    obtain ⟨f0, f1, -⟩ := interp_facts _msg.scan.vertical_angle_min
      (_msg.scan.vertical_angle_max - _msg.scan.vertical_angle_min)
      ((_msg.scan.vertical_count : α) - 1) hm
    constructor
    · rw [pAngleOf_eq _msg.scan 0 h, Nat.cast_zero]
      exact f0
    · rw [pAngleOf_eq _msg.scan _ h, hlast, f1]
      ring

/-- Witness of the amended C18: in exact arithmetic on the sample scan, three columns over
`[-1, 1]` and two rows over `[0, 1 / 4]`; on binary64 on the scan of two columns from
`-0.2` to `0.1`, whose column 0 gets `angle_min`. -/
theorem C18_angle_endpoints_witness :
    yAngleOf demoMsg.scan 0 = -1 ∧ yAngleOf demoMsg.scan 2 = 1 ∧
    pAngleOf demoMsg.scan 0 = 0 ∧ pAngleOf demoMsg.scan 1 = 1 / 4 ∧
    (∀ i, i < 3 → (-1 : ℚ) ≤ yAngleOf demoMsg.scan i ∧ yAngleOf demoMsg.scan i ≤ 1) ∧
    yAngleOf skewMsg.scan 0 = skewMsg.scan.angle_min := by
  have h := C18_angle_endpoints demoEnv 7 (Load demoEnv demoSdf) demoMsg skewMsg.scan
  have h1 := h.1 (by decide)
  have h2 := h.2.1 (by decide)
  have hv : skewMsg.scan.angle_min.IsValue := by
    intro q hq
    have hr : skewMsg.scan.angle_min = Dbl.fin (-3602879701896397 / 18014398509481984) := by
      decide!
    rw [hr] at hq
    cases hq
    decide!
  have h3 := h.2.2.1 (by decide) (by decide!) hv
  exact ⟨h1.1, h1.2.1, h2.1, h2.2, (h1.2.2 (by decide)).1, h3.2 (by decide!)⟩

/-- C19, counterexample: on binary64, for the scan of one cell with the range
`9.9999999999` (the binary64 value nearest to it) at azimuth and elevation 0, where
`cos = 1` and `sin = 0`, and the band `(0, 10)`, the range passes both gates, being below
10, and `OnScan` publishes one record whose coordinates are stored as the `float` values
`(10, 0, 0)`: the conversion to binary32 rounds the range up to 10, so the emitted point lies
at distance exactly `effectiveMaxRange`, not strictly below it. -/
theorem C19_stored_point_on_bound :
    OnScan ieeeEnv 7 (Load ieeeEnv ieeeSdf) nearMsg = .ok (demoPub, nearCloud) ∧
    nearCloud.width = 1 ∧
    (traceFrom ieeeEnv (Load ieeeEnv ieeeSdf) nearMsg.scan
      (cells nearMsg.scan.count nearMsg.scan.vertical_count) 0).map (fun q => q.r) =
      [Dbl.fin (5629499534156825 / 562949953421312)] ∧
    (Dbl.fin 0 : Dbl) < Dbl.fin (5629499534156825 / 562949953421312) ∧
    Dbl.fin (5629499534156825 / 562949953421312) <
      std_min (Load ieeeEnv ieeeSdf).max_range_ nearMsg.scan.range_max ∧
    std_min (Load ieeeEnv ieeeSdf).max_range_ nearMsg.scan.range_max = Dbl.fin 10 ∧
    ieeeEnv.cos (Dbl.fin 0) = Dbl.fin 1 ∧ ieeeEnv.sin (Dbl.fin 0) = Dbl.fin 0 ∧
    (nearCloud.data.drop 0).take 4 = floatBytes ieeeEnv (Dbl.fin 10) ∧
    (nearCloud.data.drop 4).take 4 = floatBytes ieeeEnv (Dbl.fin 0) ∧
    (nearCloud.data.drop 8).take 4 = floatBytes ieeeEnv (Dbl.fin 0) ∧
    floatBytes ieeeEnv (Dbl.fin 10) = [0, 0, 32, 65] ∧
    floatBytes ieeeEnv (Dbl.fin 0) = [0, 0, 0, 0] := by
  refine ⟨by decide!, by decide, by decide!, by decide!, by decide!, by decide!, by decide!,
    by decide!, by decide!, by decide!, by decide!, by decide!, by decide!⟩

/-- C19 (amended): in exact arithmetic, if `cos` and `sin` lie on the unit circle, then in
every cloud that `OnScan` publishes the bytes at offsets 0, 4 and 8 of the `k`-th record are
the stored images of `x = r cos p cos y`, `y = r cos p sin y` and `z = r sin p` (`-r sin p`
for `GAZEBO_MAJOR_VERSION ≤ 2`), where `r` is the (possibly perturbed) range and `p`, `y`
the angles the record was computed from, and these values satisfy `x² + y² + z² = r²` with
`max min_range range_min < r < min max_range range_max`; when
`max min_range range_min ≥ 0`, `r` is positive, it is the only non-negative number whose
square is `x² + y² + z²`, and this squared distance lies strictly between the squares of
the two bounds. Nothing is said of the distance of the point after the rounding of the
double arithmetic and of the store to a `float`. -/
theorem C19_projection_preserves_range (env : Numerics α) (V : Nat)
    (self : GazeboRosVelodyneLaser α) (_msg : LaserScanStamped α) (p : Publisher)
    (cloud : PointCloud2) (htrig : ∀ x, env.cos x ^ 2 + env.sin x ^ 2 = 1)
    (h : OnScan env V self _msg = .ok (p, cloud)) :
    ∃ st, scanLoop env V self _msg.scan = .ok st ∧ cloud.width = st.log.length ∧
      ∀ (k : Nat) (hk : k < st.log.length), ∃ x y z : α,
        (cloud.data.drop (32 * k + 0)).take 4 = floatBytes env x ∧
        (cloud.data.drop (32 * k + 4)).take 4 = floatBytes env y ∧
        (cloud.data.drop (32 * k + 8)).take 4 = floatBytes env z ∧
        x = st.log[k].r * env.cos st.log[k].pAngle * env.cos st.log[k].yAngle ∧
        y = st.log[k].r * env.cos st.log[k].pAngle * env.sin st.log[k].yAngle ∧
        z = (if V > 2 then st.log[k].r * env.sin st.log[k].pAngle
          else -st.log[k].r * env.sin st.log[k].pAngle) ∧
        x ^ 2 + y ^ 2 + z ^ 2 = st.log[k].r ^ 2 ∧
        max self.min_range_ _msg.scan.range_min < st.log[k].r ∧
        st.log[k].r < min self.max_range_ _msg.scan.range_max ∧
        (0 ≤ max self.min_range_ _msg.scan.range_min →
          0 < st.log[k].r ∧
          (∀ d : α, 0 ≤ d → d ^ 2 = x ^ 2 + y ^ 2 + z ^ 2 → d = st.log[k].r) ∧
          max self.min_range_ _msg.scan.range_min ^ 2 < x ^ 2 + y ^ 2 + z ^ 2 ∧
          x ^ 2 + y ^ 2 + z ^ 2 < min self.max_range_ _msg.scan.range_max ^ 2) := by
  obtain ⟨st, hs, -, hc⟩ := OnScan_sound env V self _msg p cloud h
  subst hc
  refine ⟨st, hs, rfl, ?_⟩
  intro k hk
  have hq : st.log[k] ∈ traceFrom env self _msg.scan
      (cells _msg.scan.count _msg.scan.vertical_count) 0 := by
    rw [← (scanLoop_sound env V self _msg.scan st hs).2]
    exact List.getElem_mem hk
  obtain ⟨c, -, d, -, -, hlo, hhi⟩ := traceFrom_mem env self _msg.scan _ 0 _ hq
  simp only [MIN_RANGE, MAX_RANGE, std_max_eq, std_min_eq] at hlo hhi
  obtain ⟨e1, e2⟩ := sq_sum_of_unit st.log[k].r (env.cos st.log[k].pAngle)
    (env.sin st.log[k].pAngle) (env.cos st.log[k].yAngle) (env.sin st.log[k].yAngle)
    (htrig st.log[k].pAngle) (htrig st.log[k].yAngle)
  have e3 : (st.log[k].r * env.cos st.log[k].pAngle * env.cos st.log[k].yAngle) ^ 2 +
      (st.log[k].r * env.cos st.log[k].pAngle * env.sin st.log[k].yAngle) ^ 2 +
      (if V > 2 then st.log[k].r * env.sin st.log[k].pAngle
        else -st.log[k].r * env.sin st.log[k].pAngle) ^ 2 = st.log[k].r ^ 2 := by
    split_ifs
    · exact e1
    · exact e2
  refine ⟨_, _, _, ?_, ?_, ?_, rfl, rfl, rfl, e3, hlo, hhi, ?_⟩
  · simp only [cloudOf]
    rw [record_at env V _ st.log k hk 0]
    rfl
  · simp only [cloudOf]
    rw [record_at env V _ st.log k hk 4]
    rfl
  · simp only [cloudOf]
    rw [record_at env V _ st.log k hk 8]
    rfl
  · intro h0
    have hpos : 0 < st.log[k].r := lt_of_le_of_lt h0 hlo
    refine ⟨hpos, ?_, ?_, ?_⟩
    · intro d hd hsq
      rw [e3] at hsq
      exact (sq_eq_sq₀ hd (le_of_lt hpos)).mp hsq
    · rw [e3]
      exact pow_lt_pow_left₀ hlo h0 (by decide)
    · rw [e3]
      exact pow_lt_pow_left₀ hhi (le_of_lt hpos) (by decide)

/-- Witness of the amended C19: the rational unit circle, on the sample scan. -/
theorem C19_projection_preserves_range_witness :
    (∀ x, circleEnv.cos x ^ 2 + circleEnv.sin x ^ 2 = 1) ∧
    OnScan circleEnv 7 (Load circleEnv demoSdf) demoMsg = .ok (demoPub, circleCloud) ∧
    ∃ st, scanLoop circleEnv 7 (Load circleEnv demoSdf) demoMsg.scan = .ok st ∧
      ∀ (k : Nat) (hk : k < st.log.length), ∃ x y z : ℚ,
        (circleCloud.data.drop (32 * k + 0)).take 4 = floatBytes circleEnv x ∧
        (circleCloud.data.drop (32 * k + 4)).take 4 = floatBytes circleEnv y ∧
        (circleCloud.data.drop (32 * k + 8)).take 4 = floatBytes circleEnv z ∧
        x ^ 2 + y ^ 2 + z ^ 2 = st.log[k].r ^ 2 ∧ 0 < st.log[k].r := by
  refine ⟨circleEnv_unit, by decide!, ?_⟩
  obtain ⟨st, hs, -, hq⟩ := C19_projection_preserves_range circleEnv 7
    (Load circleEnv demoSdf) demoMsg demoPub circleCloud circleEnv_unit (by decide!)
  refine ⟨st, hs, fun k hk => ?_⟩
  obtain ⟨x, y, z, h1, h2, h3, -, -, -, h4, -, -, h5⟩ := hq k hk
  exact ⟨x, y, z, h1, h2, h3, h4, (h5 (by decide!)).1⟩

/-- C20: if `max min_range range_min ≥ 0`, then in every cloud that `OnScan` publishes,
whatever the noise standard deviation and the draws, each record was computed from a
(possibly perturbed) range `r > 0`. With the noise enabled, the loop body at a cell whose
unperturbed samples pass the first gate and whose perturbed range is
`≤ max min_range range_min` or `≥ min max_range range_max` writes nothing: it returns the
state unchanged but for the consumed draw. -/
theorem C20_perturbed_range_positive (env : Numerics α) (V : Nat)
    (self : GazeboRosVelodyneLaser α) (_msg : LaserScanStamped α) :
    (0 ≤ max self.min_range_ _msg.scan.range_min →
      ∀ p cloud, OnScan env V self _msg = .ok (p, cloud) →
        ∃ st, scanLoop env V self _msg.scan = .ok st ∧
          cloud.data = st.log.flatMap (recordBytes env V _msg.scan.vertical_count) ∧
          ∀ q ∈ st.log, 0 < q.r ∧
            ∃ k, q.r = if self.gaussian_noise_ ≠ 0 then
                rangeAt _msg.scan (q.i, q.j) + env.gaussianKernel k 0 self.gaussian_noise_
              else rangeAt _msg.scan (q.i, q.j)) ∧
    ∀ (c : Nat × Nat) (st : Cursor α),
      c.1 + c.2 * _msg.scan.count < _msg.scan.ranges.length →
      c.1 + c.2 * _msg.scan.count < _msg.scan.intensities.length →
      self.gaussian_noise_ ≠ 0 →
      (max self.min_range_ _msg.scan.range_min < rangeAt _msg.scan c ∧
        rangeAt _msg.scan c < min self.max_range_ _msg.scan.range_max ∧
        self.min_intensity_ ≤ intensityAt _msg.scan c) →
      (rangeAt _msg.scan c + env.gaussianKernel st.draws 0 self.gaussian_noise_ ≤
          max self.min_range_ _msg.scan.range_min ∨
        min self.max_range_ _msg.scan.range_max ≤
          rangeAt _msg.scan c + env.gaussianKernel st.draws 0 self.gaussian_noise_) →
      cell env V self _msg.scan c.1 c.2 st = .ok { st with draws := st.draws + 1 } := by
  constructor
  · intro hband p cloud h
    obtain ⟨st, hs, -, hc⟩ := OnScan_sound env V self _msg p cloud h
    refine ⟨st, hs, by rw [hc]; rfl, ?_⟩
    intro q hq
    rw [(scanLoop_sound env V self _msg.scan st hs).2] at hq
    obtain ⟨c, -, k, rfl, -, hlo, -⟩ := traceFrom_mem env self _msg.scan _ 0 q hq
    simp only [MIN_RANGE, std_max_eq] at hlo
    exact ⟨lt_of_le_of_lt hband hlo, k, rfl⟩
  · intro c st h1 h2 hnoise hacc hout
    have ha : Accepts self _msg.scan c := (accepts_iff self _msg.scan c).mpr hacc
    have hr : (rayAt env self _msg.scan st.draws c).r =
        rangeAt _msg.scan c + env.gaussianKernel st.draws 0 self.gaussian_noise_ := by
      simp [rayAt, ne_iff, hnoise]
    have hg2 : ¬ (MIN_RANGE self _msg.scan < (rayAt env self _msg.scan st.draws c).r ∧
        (rayAt env self _msg.scan st.draws c).r < MAX_RANGE self _msg.scan) := by
      rw [hr]
      simp only [MIN_RANGE, MAX_RANGE, std_max_eq, std_min_eq]
      rintro ⟨hlo, hhi⟩
      rcases hout with ho | ho
      · exact absurd hlo (not_lt.mpr ho)
      · exact absurd hhi (not_lt.mpr ho)
    rw [cell_dropped env V self _msg.scan c st h1 h2 ha hg2, if_pos ((ne_iff _ _).mpr hnoise)]

/-- Witness of C20 on the sample scan with noise: the cell `(2, 1)` has range 9 and passes
the first gate; the third draw is 3, and the perturbed range 12 fails the second gate. -/
theorem C20_perturbed_range_positive_witness :
    OnScan demoEnv 7 (Load demoEnv demoNoisySdf) demoMsg = .ok (demoPub, demoNoisyCloud) ∧
    (∃ st, scanLoop demoEnv 7 (Load demoEnv demoNoisySdf) demoMsg.scan = .ok st ∧
      ∀ q ∈ st.log, 0 < q.r) ∧
    cell demoEnv 7 (Load demoEnv demoNoisySdf) demoMsg.scan 2 1
      { data := [], ptr := 0, draws := 2, log := [] } =
      .ok { data := [], ptr := 0, draws := 3, log := [] } := by
  have h := C20_perturbed_range_positive demoEnv 7 (Load demoEnv demoNoisySdf) demoMsg
  obtain ⟨st, hs, -, hq⟩ := h.1 (by decide!) demoPub demoNoisyCloud (by decide!)
  refine ⟨by decide!, ⟨st, hs, fun q hmem => (hq q hmem).1⟩, ?_⟩
  exact h.2 (2, 1) { data := [], ptr := 0, draws := 2, log := [] } (by decide) (by decide)
    (by decide) (by decide!) (by decide!)

end Exact

end gazebo
